import Mathlib

/-!
Verification development for the `tmc` compiler and simulator
(`src/ir.cpp`, `src/simulator.cpp`, `src/hlcompiler.cpp`).

The C++ sources are embedded shallowly:

* `Symbol` is `Char` (the C++ `char`), `Dir` is the direction enum.
* C++ machine states are strings: every state is either the fixed sink
  `"qA"` / `"qR"` or a generated name `hint ++ toString k` where `k` is the
  value of a monotone counter (`HLCompiler::NewState`).  The hints used by
  the compiler contain no digits, and the counter is bumped on every call,
  so the generated names are pairwise distinct and distinct from `qA`/`qR`;
  name equality coincides with counter equality.  States are therefore
  embedded as `State.q k` (for `hint ++ toString k`) plus the two sink
  constructors; this is a bijective renaming of the C++ state names.
* `std::map` / `std::set` are embedded as association lists / sorted
  duplicate-free lists with the same insert-or-overwrite semantics.
  `std::map::operator[]` used in a pure read position (`delta[s].find(c)`)
  default-constructs an empty row in C++; the empty row is observationally
  irrelevant (the simulator treats an empty row exactly like a missing row,
  and every such state is registered in the state set by a later
  `AddTransition`), so reads are embedded as pure lookups.
* the mutable `HLCompiler` object is embedded as a state monad over the
  compiler state, and `throw std::runtime_error` as `Except String`.
-/

set_option linter.unusedVariables false

deriving instance DecidableEq for Except

namespace Tmc

/-! ## Symbols and directions (`ir.hpp`) -/

abbrev Symbol := Char

def kBlank : Symbol := '_'
def kWildcard : Symbol := '?'

/-- Tape-layout constants of `hlcompiler.cpp`: region separator, unary one,
processed one, left-end sentinel. -/
def kSep : Symbol := '#'
def kOne : Symbol := '1'
def kMarked : Symbol := 'I'
def kLeftEnd : Symbol := '>'

/-- Directions, `enum class Dir { L, R, S }`. -/
inductive Dir where
  | L | R | S
deriving DecidableEq, Repr

/-- Machine states; see the header comment for why the string names of the
C++ code are embedded as a counter value plus the two fixed sinks. -/
inductive State where
  | q (idx : Nat)
  | qA
  | qR
deriving DecidableEq, Repr

/-- Transition tuple, `struct Transition` of `ir.hpp`. -/
structure Transition where
  read : Symbol
  write : Symbol
  dir : Dir
  next : State
deriving DecidableEq, Repr

/-- One row of the transition table, `std::map<Symbol, Transition>`. -/
abbrev TransitionMap := List (Symbol × Transition)

/-- Lookup in a row, `trans_map.find(sym)`. -/
def tmFind : TransitionMap → Symbol → Option Transition
  | [], _ => none
  | (k, v) :: rest, sym => if k = sym then some v else tmFind rest sym

/-- Insert-or-overwrite in a row, `trans_map[sym] = t`. -/
def tmSet : TransitionMap → Symbol → Transition → TransitionMap
  | [], sym, t => [(sym, t)]
  | (k, v) :: rest, sym, t =>
    if k = sym then (sym, t) :: rest else (k, v) :: tmSet rest sym t

/-- The transition table, `std::map<State, TransitionMap>`. -/
abbrev Delta := List (State × TransitionMap)

/-- Lookup of a state row, `delta.find(state)`. -/
def deltaFind : Delta → State → Option TransitionMap
  | [], _ => none
  | (k, v) :: rest, s => if k = s then some v else deltaFind rest s

/-- Write `delta[from][read] = t`. -/
def deltaSet : Delta → State → Symbol → Transition → Delta
  | [], from_, read, t => [(from_, [(read, t)])]
  | (k, v) :: rest, from_, read, t =>
    if k = from_ then (k, tmSet v read t) :: rest
    else (k, v) :: deltaSet rest from_ read t

/-- Sorted duplicate-free insertion, `std::set<char>::insert`. -/
def symInsert (x : Symbol) : List Symbol → List Symbol
  | [] => [x]
  | y :: rest =>
    if x < y then x :: y :: rest
    else if x = y then y :: rest
    else y :: symInsert x rest

/-- Membership-checked insertion for the state set.  `std::set<State>` keeps
its elements sorted by name; no observable behaviour depends on the
iteration order of the state set, so a cons-if-absent insert suffices. -/
def stInsert (x : State) (l : List State) : List State :=
  if x ∈ l then l else x :: l

/-! ## The machine (`ir.hpp` / `ir.cpp`) -/

/-- The machine record, `struct TM`. -/
structure TM where
  states : List State
  input_alphabet : List Symbol
  tape_alphabet : List Symbol
  start : State
  accept : State
  reject : State
  delta : Delta
deriving DecidableEq, Repr

/-- Default-constructed machine, `TM{}`.  In C++ the three designated states
default to empty strings; they are overwritten before any use, so arbitrary
placeholder states are used here. -/
def emptyTM : TM :=
  { states := [], input_alphabet := [], tape_alphabet := [],
    start := State.q 0, accept := State.qA, reject := State.qR, delta := [] }

/-- Embedding of `TM::AddTransition` (`ir.cpp`). -/
def TM.AddTransition (tm : TM) (from_ : State) (read write : Symbol)
    (dir : Dir) (to_ : State) : TM :=
  { tm with
    states := stInsert to_ (stInsert from_ tm.states),
    tape_alphabet := symInsert write (symInsert read tm.tape_alphabet),
    delta := deltaSet tm.delta from_ read ⟨read, write, dir, to_⟩ }

/-- Embedding of `TM::Finalize` (`ir.cpp`). -/
def TM.Finalize (tm : TM) : TM :=
  { tm with
    tape_alphabet :=
      tm.input_alphabet.foldl (fun acc s => symInsert s acc)
        (symInsert kBlank tm.tape_alphabet),
    states := stInsert tm.reject (stInsert tm.accept (stInsert tm.start tm.states)) }

/-- Embedding of `TM::Validate` (`ir.cpp`) as the boolean verdict; the C++
version additionally reports a message through an out-parameter and never
modifies the machine. -/
def TM.Validate (tm : TM) : Bool :=
  decide (tm.start ∈ tm.states) &&
  decide (tm.accept ∈ tm.states) &&
  decide (tm.reject ∈ tm.states) &&
  tm.delta.all (fun row =>
    decide (row.1 ∈ tm.states) &&
    row.2.all (fun e =>
      (decide (e.1 ∈ tm.tape_alphabet) || decide (e.1 = kWildcard)) &&
      decide (e.2.next ∈ tm.states)))

/-! ## The simulator (`simulator.cpp`) -/

/-- Run result, `struct RunResult`. -/
structure RunResult where
  accepted : Bool
  steps : Nat
  final_tape : List Symbol
  hit_limit : Bool
deriving DecidableEq, Repr

/-- Simulator state: the private fields `tape_`, `head_`, `state_`,
`steps_`, `halted_`.  The head is an `int` in C++ and may be negative. -/
structure SimState where
  tape : List Symbol
  head : Int
  state : State
  steps : Nat
  halted : Bool
deriving DecidableEq, Repr

/-- Embedding of `Simulator::Reset`. -/
def Reset (tm : TM) (input : List Symbol) : SimState :=
  { tape := if input.isEmpty then [kBlank] else input,
    head := 0, state := tm.start, steps := 0, halted := false }

/-- Read a cell, blank when past the end of the tape. -/
def readAt : List Symbol → Nat → Symbol
  | [], _ => kBlank
  | c :: _, 0 => c
  | _ :: t, n + 1 => readAt t n

/-- Read the cell under the head:
`(head_ >= 0 && head_ < tape_.size()) ? tape_[head_] : kBlank`. -/
def readTape (tape : List Symbol) (head : Int) : Symbol :=
  if head < 0 then kBlank else readAt tape head.toNat

/-- Extend the tape with blanks so that index `n - 1` exists
(`while (head_ >= tape_.size()) tape_.push_back(kBlank)`). -/
def padTo : List Symbol → Nat → List Symbol
  | t, 0 => t
  | [], n + 1 => kBlank :: padTo [] n
  | c :: t, n + 1 => c :: padTo t n

/-- Transition choice of `Simulator::Step`: try the exact read symbol
first, then the wildcard. -/
def lookupTrans (tmap : TransitionMap) (current : Symbol) : Option Transition :=
  match tmFind tmap current with
  | some t => some t
  | none => tmFind tmap kWildcard

/-- Embedding of `Simulator::Step`.  Note the order of operations, faithful
to the C++ body: the cell is read at the (possibly negative) current head,
the transition is looked up (exact symbol first, then wildcard), and only
then is the head clamped at 0 before the write. -/
def Step (tm : TM) (s : SimState) : SimState :=
  if s.halted then s
  else if s.state = tm.accept ∨ s.state = tm.reject then { s with halted := true }
  else
    let current := readTape s.tape s.head
    match deltaFind tm.delta s.state with
    | none => { s with state := tm.reject, halted := true }
    | some tmap =>
      match lookupTrans tmap current with
      | none => { s with state := tm.reject, halted := true }
      | some tr =>
        let head0 : Int := if s.head < 0 then 0 else s.head
        let tape0 := padTo s.tape (head0.toNat + 1)
        let w := if tr.write = kWildcard then current else tr.write
        let tape1 := tape0.set head0.toNat w
        let head1 : Int :=
          match tr.dir with
          | Dir.L => head0 - 1
          | Dir.R => head0 + 1
          | Dir.S => head0
        { tape := tape1, head := head1, state := tr.next, steps := s.steps + 1,
          halted := decide (tr.next = tm.accept ∨ tr.next = tm.reject) }

/-- Iterated stepping (the step-wise interface used by tests). -/
def stepN (tm : TM) : Nat → SimState → SimState
  | 0, s => s
  | n + 1, s => stepN tm n (Step tm s)

/-- The `Run` loop: `while (!Halted() && steps_ < max_steps_) Step();`.
The fuel argument only bounds the recursion; every call site passes enough
fuel for the loop condition to fail before the fuel runs out. -/
def runAux (tm : TM) (maxSteps : Nat) : Nat → SimState → SimState
  | 0, s => s
  | fuel + 1, s =>
    if s.halted = false ∧ s.steps < maxSteps then runAux tm maxSteps fuel (Step tm s)
    else s

/-- Extraction of the final tape in `Simulator::Run`: the first loop counts
leading blanks (`left`), the second finds the last non-blank (`right`, an
`int` that ends at -1 on an all-blank tape), and the substring
`tape[left..right]` is returned when `left <= right`. -/
def extractFinal (tape : List Symbol) : List Symbol :=
  let left : Nat := (tape.takeWhile (fun c => c == kBlank)).length
  let right : Int :=
    (tape.length : Int) - 1 - ((tape.reverse.takeWhile (fun c => c == kBlank)).length : Int)
  if (left : Int) ≤ right then (tape.drop left).take (right + 1 - left).toNat
  else []

/-- Embedding of `Simulator::Run`. -/
def Run (tm : TM) (maxSteps : Nat) (input : List Symbol) : RunResult :=
  let final := runAux tm maxSteps (maxSteps + 2) (Reset tm input)
  { accepted := final.halted && decide (final.state = tm.accept),
    steps := final.steps,
    final_tape := extractFinal final.tape,
    hit_limit := decide (maxSteps ≤ final.steps) && !final.halted }

/-! ## The source language (`ir.hpp`, high-level DSL)

The expression and statement trees, `struct Expr` / `struct Stmt` and their
subclasses.  The closed class hierarchies become inductive types; the
`dynamic_cast` chains of the compiler become `match`es. -/

inductive BinOp where
  | Add | Sub | Eq | Ne | Lt | Le | Gt | Ge
deriving DecidableEq, Repr

inductive Expr where
  | intLit (value : Int)
  | var (name : String)
  | count (symbol : Symbol)
  | bin (op : BinOp) (left right : Expr)
deriving Repr

inductive Stmt where
  | letS (name : String) (init : Expr)
  | assignS (name : String) (value : Expr)
  | forS (var : String) (first : Expr) (last : Expr) (body : List Stmt)
  | ifS (condition : Expr) (then_body else_body : List Stmt)
  | returnS (value : Expr)
  | acceptS
  | rejectS
  | matchS (pattern : String)
  | scanS (direction : Dir) (stop_symbols : List Symbol)
  | writeS (symbol : Symbol)
  | moveS (direction : Dir)
  | loopS (body : List Stmt)
  | ifCurrentS (branches : List (Symbol × List Stmt)) (else_body : List Stmt)
  | incS (reg : String)
  | appendS (src dst : String)
  | breakS
  | rewindS (direction : Dir)
  | ifEqS (reg_a reg_b : String) (then_body else_body : List Stmt)
deriving Repr

/-- A source program, `struct Program`.  The two alphabets are `std::set`s
in C++ and are represented by sorted duplicate-free lists. -/
structure Program where
  input_alphabet : List Symbol
  markers : List Symbol
  body : List Stmt

/-! ## Compiler state (`hlcompiler.hpp`) -/

/-- Per-variable record, `HLCompiler::VarInfo`. -/
structure VarInfo where
  index : Nat
  one_symbol : Symbol
  mark_symbol : Symbol
deriving DecidableEq, Repr

/-- The mutable fields of `HLCompiler`. -/
structure CompSt where
  state_counter : Nat
  vars : List (String × VarInfo)
  next_var_index : Nat
  tm : TM
  break_targets : List State
deriving Repr

/-- The compiler monad: mutable compiler object plus
`throw std::runtime_error`. -/
abbrev CompM (α : Type) := StateT CompSt (Except String) α

/-- Embedding of `HLCompiler::NewState`.  The hint becomes part of the C++
state name but (see the header comment) carries no information that equality
of names depends on, so it is dropped here. -/
def NewState (hint : String) : CompM State := do
  let st ← get
  set { st with state_counter := st.state_counter + 1 }
  pure (State.q st.state_counter)

/-- Embedding of `HLCompiler::DeclareVar`. -/
def DeclareVar (name : String) : CompM VarInfo := do
  let st ← get
  match st.vars.lookup name with
  | some info => pure info
  | none =>
    let info : VarInfo := { index := st.next_var_index,
                            one_symbol := kOne, mark_symbol := kMarked }
    set { st with vars := (name, info) :: st.vars,
                  next_var_index := st.next_var_index + 1 }
    pure info

/-- Embedding of `HLCompiler::GetVar`: an unknown name is auto-declared. -/
def GetVar (name : String) : CompM VarInfo := do
  let st ← get
  match st.vars.lookup name with
  | some info => pure info
  | none => DeclareVar name

/-- Shorthand for `tm_.AddTransition(...)` inside the compiler. -/
def addT (from_ : State) (read write : Symbol) (dir : Dir) (to_ : State) :
    CompM Unit :=
  modify fun st => { st with tm := st.tm.AddTransition from_ read write dir to_ }

/-- Iterate over the tape alphabet, `for (Symbol s : tm_.tape_alphabet)`.
The loop bodies only ever insert symbols that are already present, so
snapshotting the (sorted) alphabet before the loop is faithful. -/
def forSyms (f : Symbol → CompM Unit) : CompM Unit := do
  let syms := (← get).tm.tape_alphabet
  syms.forM f

/-- Test `tm_.delta[st].find(s) != tm_.delta[st].end()`. -/
def hasTrans (st : State) (s : Symbol) : CompM Bool := do
  match deltaFind (← get).tm.delta st with
  | some row => pure (tmFind row s).isSome
  | none => pure false

/-- Current accept state `tm_.accept` (always `qA` during compilation). -/
def getAccept : CompM State := do pure (← get).tm.accept

/-- Current reject state `tm_.reject` (always `qR` during compilation). -/
def getReject : CompM State := do pure (← get).tm.reject

/-- Uppercase of a lowercase letter, `s - 'a' + 'A'`. -/
def upChar (s : Symbol) : Symbol :=
  Char.ofNat (s.toNat - 'a'.toNat + 'A'.toNat)

/-- The mark symbol for a counted input symbol:
`(sym >= 'a' && sym <= 'z') ? sym - 'a' + 'A' : sym`. -/
def markedOf (sym : Symbol) : Symbol :=
  if 'a' ≤ sym ∧ sym ≤ 'z' then upChar sym else sym

/-- Embedding of `HLCompiler::SetupAlphabet`. -/
def SetupAlphabet (program : Program) : CompM Unit :=
  modify fun st =>
    let ta0 := symInsert kLeftEnd (symInsert kMarked (symInsert kOne
                 (symInsert kSep (symInsert kBlank program.input_alphabet))))
    let ta1 := program.input_alphabet.foldl
                 (fun acc s => if 'a' ≤ s ∧ s ≤ 'z' then symInsert (upChar s) acc else acc)
                 ta0
    let ta2 := program.markers.foldl (fun acc s => symInsert s acc) ta1
    { st with tm := { st.tm with input_alphabet := program.input_alphabet,
                                 tape_alphabet := ta2 } }

/-! ## Primitive emitters (`hlcompiler.cpp`) -/

/-- Lookup of `carry_states[s]`; in the preamble every looked-up symbol is a
key of the map, so the default is never taken. -/
def lookupCarry (m : List (Symbol × State)) (s : Symbol) : State :=
  (m.lookup s).getD State.qR

/-- Embedding of `HLCompiler::EmitPreamble`. -/
def EmitPreamble (start : State) : CompM State := do
  let at_input ← NewState "pre_done"
  let syms := (← get).tm.tape_alphabet
  let carrySyms := syms.filter (fun s => !(s == kBlank) && !(s == kLeftEnd))
  let carryStates ← carrySyms.mapM (fun _ => NewState "pre_c")
  let carries := carrySyms.zip carryStates
  forSyms fun s => do
    if s = kBlank then
      addT start kBlank kLeftEnd Dir.R at_input
    else if s ≠ kLeftEnd then
      addT start s kLeftEnd Dir.R (lookupCarry carries s)
  let done_rewind ← NewState "pre_rw"
  carries.forM fun c => do
    forSyms fun next => do
      if next = kBlank then
        addT c.2 kBlank c.1 Dir.L done_rewind
      else if next ≠ kLeftEnd then
        addT c.2 next c.1 Dir.R (lookupCarry carries next)
  forSyms fun s => do
    if s = kLeftEnd then addT done_rewind s s Dir.R at_input
    else addT done_rewind s s Dir.L done_rewind
  pure at_input

/-- Embedding of `HLCompiler::EmitRewindToStart`. -/
def EmitRewindToStart (entry : State) : CompM State := do
  let rewind ← NewState "rewind"
  let at_start ← NewState "at_start"
  forSyms fun s => addT entry s s Dir.L rewind
  forSyms fun s => do
    if s = kLeftEnd then addT rewind s s Dir.R at_start
    else addT rewind s s Dir.L rewind
  pure at_start

/-- Embedding of `HLCompiler::CompileCount`.  Note that `dest_var` is unused
in the C++ body as well: the tally is written at the end of the tape. -/
def CompileCount (sym : Symbol) (dest_var : String) (entry : State) :
    CompM State := do
  let marked := markedOf sym
  let scan ← NewState "cnt_scan"
  let write ← NewState "cnt_write"
  let back ← NewState "cnt_back"
  let done ← NewState "cnt_done"
  forSyms fun s => do
    if s = sym then addT scan s marked Dir.R write
    else if s = kSep ∨ s = kBlank then addT scan s s Dir.S done
    else addT scan s s Dir.R scan
  forSyms fun s => do
    if s = kBlank then addT write s kOne Dir.L back
    else addT write s s Dir.R write
  forSyms fun s => do
    if s = kLeftEnd then addT back s s Dir.R scan
    else addT back s s Dir.L back
  forSyms fun s => addT entry s s Dir.S scan
  let restore_rewind ← NewState "cnt_rrewind"
  let restore_scan ← NewState "cnt_restore"
  let restore_done ← NewState "cnt_rdone"
  forSyms fun s => addT done s s Dir.L restore_rewind
  forSyms fun s => do
    if s = kLeftEnd then addT restore_rewind s s Dir.R restore_scan
    else addT restore_rewind s s Dir.L restore_rewind
  forSyms fun s => do
    if s = marked then addT restore_scan s sym Dir.R restore_scan
    else if s = kSep ∨ s = kBlank then addT restore_scan s s Dir.S restore_done
    else addT restore_scan s s Dir.R restore_scan
  pure restore_done

/-- Embedding of `HLCompiler::EmitCopyRegion`.  Faithful to the source:
`find_src` is allocated but never wired, `dest_region` is unused (the copied
ones are written at the first blank, i.e. at the end of the tape), and the
marked ones of the source region are never restored here. -/
def EmitCopyRegion (entry : State) (src_region dest_region : Nat) :
    CompM State := do
  let find_src ← NewState "cpy_src"
  let find_dest ← NewState "cpy_dest"
  let back ← NewState "cpy_back"
  let done ← NewState "cpy_done"
  let mut current := entry
  for _ in [0:src_region + 1] do
    let next ← NewState "cpy_nav"
    forSyms fun s => do
      if s = kSep then addT current s s Dir.R next
      else addT current s s Dir.R current
    current := next
  forSyms fun s => do
    if s = kOne then addT current s kMarked Dir.R find_dest
    else if s = kMarked then addT current s s Dir.R current
    else if s = kSep ∨ s = kBlank then addT current s s Dir.S done
    else addT current s s Dir.R current
  forSyms fun s => do
    if s = kBlank then addT find_dest s kOne Dir.L back
    else addT find_dest s s Dir.R find_dest
  forSyms fun s => do
    if s = kLeftEnd then addT back s s Dir.R entry
    else addT back s s Dir.L back
  pure done

/-- Embedding of `HLCompiler::EmitIncrementRegion` (`region` is unused in
the source: the `1` is written at the end of the tape). -/
def EmitIncrementRegion (entry : State) (region : Nat) : CompM State := do
  let done ← NewState "inc_done"
  forSyms fun s => do
    if s = kBlank then addT entry s kOne Dir.L done
    else addT entry s s Dir.R entry
  pure done

/-- Embedding of `HLCompiler::EmitCompareRegionToRegion`.  `match_a` and
`check_a` are allocated but never wired, as in the source. -/
def EmitCompareRegionToRegion (entry : State) (region_a region_b : Nat)
    (if_le if_gt : State) : CompM State := do
  let match_a ← NewState "cmp_a"
  let find_b ← NewState "cmp_b"
  let back ← NewState "cmp_back"
  let check_a ← NewState "cmp_chk"
  let mut to_a := entry
  for _ in [0:region_a + 1] do
    let next ← NewState "cmp_nav"
    forSyms fun s => do
      if s = kSep then addT to_a s s Dir.R next
      else addT to_a s s Dir.R to_a
    to_a := next
  forSyms fun s => do
    if s = kOne then addT to_a s kMarked Dir.R find_b
    else if s = kMarked then addT to_a s s Dir.R to_a
    else if s = kSep ∨ s = kBlank then addT to_a s s Dir.S if_le
    else addT to_a s s Dir.R to_a
  forSyms fun s => do
    if s = kOne then addT find_b s kMarked Dir.L back
    else if s = kMarked ∨ s = kSep then addT find_b s s Dir.R find_b
    else if s = kBlank then addT find_b s s Dir.S if_gt
    else addT find_b s s Dir.R find_b
  forSyms fun s => do
    if s = kLeftEnd then addT back s s Dir.R entry
    else addT back s s Dir.L back
  pure if_le

/-- Embedding of the `emitNavToRegion` lambda inside
`HLCompiler::EmitCompareEqual`. -/
def emitNavToRegion (start : State) (region : Nat) : CompM State := do
  let nav ← NewState "nav"
  forSyms fun s => addT start s s Dir.R nav
  let mut cur := nav
  for _ in [0:region + 1] do
    let next ← NewState "navsep"
    forSyms fun s => do
      if s = kSep then addT cur s s Dir.R next
      else if s = kBlank then addT cur s s Dir.S next
      else addT cur s s Dir.R cur
    cur := next
  pure cur

/-- Embedding of `HLCompiler::EmitRestoreRegion`. -/
def EmitRestoreRegion (entry : State) (region : Nat) : CompM State := do
  let at_start ← EmitRewindToStart entry
  let nav ← NewState "rst_nav"
  forSyms fun s => addT at_start s s Dir.R nav
  let mut current := nav
  for _ in [0:region + 1] do
    let next ← NewState "rst_sep"
    forSyms fun s => do
      if s = kSep then addT current s s Dir.R next
      else if s = kBlank then addT current s s Dir.S next
      else addT current s s Dir.R current
    current := next
  let sweep ← NewState "rst_sweep"
  let done ← NewState "rst_done"
  forSyms fun s => addT current s s Dir.S sweep
  forSyms fun s => do
    if s = kMarked then addT sweep s kOne Dir.R sweep
    else if s = kOne then addT sweep s s Dir.R sweep
    else addT sweep s s Dir.S done
  EmitRewindToStart done

/-- Embedding of `HLCompiler::EmitCompareEqual`. -/
def EmitCompareEqual (entry : State) (reg_a reg_b : Nat)
    (if_eq if_neq : State) : CompM State := do
  let restore_eq ← NewState "ceq_req"
  let restore_neq ← NewState "ceq_rneq"
  let a_done ← NewState "ceq_adone"
  let in_a ← emitNavToRegion entry reg_a
  let find_b ← NewState "ceq_fb"
  forSyms fun s => do
    if s = kOne then addT in_a s kMarked Dir.S find_b
    else if s = kMarked then addT in_a s s Dir.R in_a
    else addT in_a s s Dir.S a_done
  let rw_b ← EmitRewindToStart find_b
  let in_b ← emitNavToRegion rw_b reg_b
  let back_to_a ← NewState "ceq_back"
  forSyms fun s => do
    if s = kOne then addT in_b s kMarked Dir.S back_to_a
    else if s = kMarked then addT in_b s s Dir.R in_b
    else addT in_b s s Dir.S restore_neq
  let rw_a ← EmitRewindToStart back_to_a
  let in_a2 ← emitNavToRegion rw_a reg_a
  forSyms fun s => do
    if s = kOne then addT in_a2 s kMarked Dir.S find_b
    else if s = kMarked then addT in_a2 s s Dir.R in_a2
    else addT in_a2 s s Dir.S a_done
  let rw_chk ← EmitRewindToStart a_done
  let in_b_chk ← emitNavToRegion rw_chk reg_b
  forSyms fun s => do
    if s = kOne then addT in_b_chk s s Dir.S restore_neq
    else if s = kMarked then addT in_b_chk s s Dir.R in_b_chk
    else addT in_b_chk s s Dir.S restore_eq
  let after_ra_eq ← EmitRestoreRegion restore_eq reg_a
  let after_rb_eq ← EmitRestoreRegion after_ra_eq reg_b
  forSyms fun s => do
    if (← hasTrans after_rb_eq s) then pure ()
    else addT after_rb_eq s s Dir.S if_eq
  let after_ra_neq ← EmitRestoreRegion restore_neq reg_a
  let after_rb_neq ← EmitRestoreRegion after_ra_neq reg_b
  forSyms fun s => do
    if (← hasTrans after_rb_neq s) then pure ()
    else addT after_rb_neq s s Dir.S if_neq
  pure if_eq

/-- Embedding of `HLCompiler::EmitInsertInRegion`. -/
def EmitInsertInRegion (entry : State) (region : Nat) : CompM State := do
  let nav ← NewState "ins_nav"
  forSyms fun s => addT entry s s Dir.R nav
  let mut current := nav
  for _ in [0:region + 1] do
    let next ← NewState "ins_sep"
    forSyms fun s => do
      if s = kSep then addT current s s Dir.R next
      else if s = kBlank then addT current s s Dir.S next
      else addT current s s Dir.R current
    current := next
  let scan_data ← NewState "ins_data"
  forSyms fun s => addT current s s Dir.S scan_data
  let at_end ← NewState "ins_at_end"
  forSyms fun s => do
    if s = kOne ∨ s = kMarked then addT scan_data s s Dir.R scan_data
    else addT scan_data s s Dir.S at_end
  let done ← NewState "ins_done"
  addT at_end kBlank kOne Dir.S done
  let carry_sep ← NewState "carry_sep"
  let carry_one ← NewState "carry_one"
  let carry_mark ← NewState "carry_mark"
  addT at_end kSep kOne Dir.R carry_sep
  addT carry_sep kBlank kSep Dir.S done
  addT carry_sep kSep kSep Dir.R carry_sep
  addT carry_sep kOne kSep Dir.R carry_one
  addT carry_sep kMarked kSep Dir.R carry_mark
  forSyms fun s => do
    if s ≠ kBlank ∧ s ≠ kSep ∧ s ≠ kOne ∧ s ≠ kMarked then
      addT carry_sep s kSep Dir.R carry_one
  addT carry_one kBlank kOne Dir.S done
  addT carry_one kSep kOne Dir.R carry_sep
  addT carry_one kOne kOne Dir.R carry_one
  addT carry_one kMarked kOne Dir.R carry_mark
  forSyms fun s => do
    if s ≠ kBlank ∧ s ≠ kSep ∧ s ≠ kOne ∧ s ≠ kMarked then
      addT carry_one s kOne Dir.R carry_one
  addT carry_mark kBlank kMarked Dir.S done
  addT carry_mark kSep kMarked Dir.R carry_sep
  addT carry_mark kOne kMarked Dir.R carry_one
  addT carry_mark kMarked kMarked Dir.R carry_mark
  forSyms fun s => do
    if s ≠ kBlank ∧ s ≠ kSep ∧ s ≠ kOne ∧ s ≠ kMarked then
      addT carry_mark s kMarked Dir.R carry_one
  EmitRewindToStart done

/-- Embedding of `HLCompiler::EmitAppendNonDestructive`. -/
def EmitAppendNonDestructive (entry : State) (src dst : Nat) : CompM State := do
  let loop_start ← NewState "appnd_loop"
  let find_src ← NewState "appnd_find"
  let insert ← NewState "appnd_ins"
  let src_done ← NewState "appnd_done"
  forSyms fun s => addT entry s s Dir.S loop_start
  forSyms fun s => addT loop_start s s Dir.R find_src
  let mut cur := find_src
  for _ in [0:src + 1] do
    let next ← NewState "appnd_nav"
    forSyms fun s => do
      if s = kSep then addT cur s s Dir.R next
      else if s = kBlank then addT cur s s Dir.S next
      else addT cur s s Dir.R cur
    cur := next
  forSyms fun s => do
    if s = kOne then addT cur s kMarked Dir.S insert
    else if s = kMarked then addT cur s s Dir.R cur
    else addT cur s s Dir.S src_done
  let pre_insert ← EmitRewindToStart insert
  let after_insert ← EmitInsertInRegion pre_insert dst
  forSyms fun s => do
    if (← hasTrans after_insert s) then pure ()
    else addT after_insert s s Dir.S loop_start
  let pre_restore ← EmitRewindToStart src_done
  EmitRestoreRegion pre_restore src

/-! ## Statement lowering (`hlcompiler.cpp`)

The statement compilers recurse into statement lists (`CompileStmts` on the
bodies of `for`/`if`/`loop`/...), and `CompileReturn` recurses through a
freshly built conditional (`if value { accept } else { reject }`).  The
measure `csize` below decreases along every such call; `returnS` is given a
weight larger than the synthesized conditional. -/

mutual

def Stmt.csize : Stmt → Nat
  | .forS _ _ _ body => 2 + csizeList body
  | .ifS _ t e => 2 + csizeList t + csizeList e
  | .returnS _ => 8
  | .loopS body => 2 + csizeList body
  | .ifCurrentS branches else_body => 2 + csizeBranches branches + csizeList else_body
  | .ifEqS _ _ t e => 2 + csizeList t + csizeList e
  | _ => 1

def csizeList : List Stmt → Nat
  | [] => 0
  | s :: rest => s.csize + csizeList rest + 1

def csizeBranches : List (Symbol × List Stmt) → Nat
  | [] => 0
  | (_, b) :: rest => csizeList b + csizeBranches rest + 1

end

/-- Embedding of `HLCompiler::CompileLet` minus the expression evaluation
(factored so that the mutually recursive block below stays small; the
source calls `CompileExpr` where this returns the `add_sep` state). -/
def CompileLetPre (name : String) (entry : State) : CompM State := do
  let _ ← DeclareVar name
  let scan_end ← NewState "let_scan"
  let add_sep ← NewState "let_sep"
  let go_back ← NewState "let_back"
  forSyms fun s => do
    if s = kBlank then addT scan_end s kSep Dir.L go_back
    else addT scan_end s s Dir.R scan_end
  forSyms fun s => do
    if s = kLeftEnd then addT go_back s s Dir.R add_sep
    else addT go_back s s Dir.L go_back
  forSyms fun s => addT entry s s Dir.S scan_end
  pure add_sep

/-- Embedding of `HLCompiler::CompileExpr`. -/
def CompileExpr (expr : Expr) (dest_var : String) (entry : State) :
    CompM State := do
  match expr with
  | .count sym => CompileCount sym dest_var entry
  | .intLit v =>
    if v = 0 then pure entry
    else do
      let mut current := entry
      for _ in [0:v.toNat] do
        let next ← NewState "lit"
        addT current kBlank kOne Dir.R next
        forSyms fun s => do
          if s ≠ kBlank then addT current s s Dir.R current
        current := next
      pure current
  | .var name => do
    let src ← GetVar name
    let dst ← GetVar dest_var
    EmitCopyRegion entry src.index dst.index
  | .bin .. => throw "Unknown expression type"

/-- Embedding of `HLCompiler::CompileLet`. -/
def CompileLet (name : String) (init : Expr) (entry : State) : CompM State := do
  let add_sep ← CompileLetPre name entry
  let expr_done ← CompileExpr init name add_sep
  EmitRewindToStart expr_done

/-- Embedding of `HLCompiler::CompileAssign`: only `x = x + y` with a
variable right operand is supported; everything else is a lowering error. -/
def CompileAssign (name : String) (value : Expr) (entry : State) :
    CompM State := do
  match value with
  | .bin .Add (.var lname) rhs =>
    if lname = name then
      match rhs with
      | .var rname => do
        let src ← GetVar rname
        let dst ← GetVar name
        EmitCopyRegion entry src.index dst.index
      | _ => throw ("Unsupported assignment: " ++ name)
    else throw ("Unsupported assignment: " ++ name)
  | _ => throw ("Unsupported assignment: " ++ name)

/-- Embedding of `HLCompiler::CompileScan`. -/
def CompileScan (direction : Dir) (stop_symbols : List Symbol)
    (entry : State) : CompM State := do
  let scan ← NewState "scan"
  let done ← NewState "scan_done"
  forSyms fun s => addT entry s s Dir.S scan
  forSyms fun s => do
    if s ∈ stop_symbols then addT scan s s Dir.S done
    else addT scan s s direction scan
  pure done

/-- Embedding of `HLCompiler::CompileWrite`. -/
def CompileWrite (symbol : Symbol) (entry : State) : CompM State := do
  let done ← NewState "write_done"
  forSyms fun s => addT entry s symbol Dir.S done
  pure done

/-- Embedding of `HLCompiler::CompileMove`. -/
def CompileMove (direction : Dir) (entry : State) : CompM State := do
  let done ← NewState "move_done"
  forSyms fun s => addT entry s s direction done
  pure done

/-- Embedding of `HLCompiler::CompileBreak`. -/
def CompileBreak (entry : State) : CompM State := do
  let st ← get
  match st.break_targets with
  | [] => throw "break outside of loop"
  | target :: _ => do
    forSyms fun s => addT entry s s Dir.S target
    pure target

/-- Embedding of `HLCompiler::CompileRewind`. -/
def CompileRewind (direction : Dir) (entry : State) : CompM State := do
  let scan ← NewState "rw"
  let done ← NewState "rw_done"
  if direction = Dir.L then
    forSyms fun s => do
      if s = kLeftEnd then addT scan s s Dir.S done
      else addT scan s s Dir.L scan
  else
    forSyms fun s => do
      if s = kBlank then addT scan s s Dir.S done
      else addT scan s s Dir.R scan
  forSyms fun s => addT entry s s Dir.S scan
  pure done

/-- Embedding of `HLCompiler::CompileInc`. -/
def CompileInc (reg : String) (entry : State) : CompM State := do
  let var ← GetVar reg
  EmitInsertInRegion entry var.index

/-- Embedding of `HLCompiler::CompileAppend`. -/
def CompileAppend (src dst : String) (entry : State) : CompM State := do
  let s ← GetVar src
  let d ← GetVar dst
  EmitAppendNonDestructive entry s.index d.index

mutual

/-- Embedding of `HLCompiler::CompileStmt` (the `dynamic_cast` dispatch).
`MatchStmt` has no branch in the source and falls through to the final
`throw`. -/
def CompileStmt (stmt : Stmt) (entry : State) : CompM State := do
  match stmt with
  | .letS name init => CompileLet name init entry
  | .assignS name value => CompileAssign name value entry
  | .forS v first last body => CompileFor v first last body entry
  | .ifS c t e => CompileIfParts c t e entry
  | .returnS value => CompileIfParts value [Stmt.acceptS] [Stmt.rejectS] entry
  | .acceptS => do
    let acc ← getAccept
    forSyms fun s => addT entry s s Dir.S acc
    pure acc
  | .rejectS => do
    let rej ← getReject
    forSyms fun s => addT entry s s Dir.S rej
    pure rej
  | .scanS dir stop => CompileScan dir stop entry
  | .writeS sym => CompileWrite sym entry
  | .moveS dir => CompileMove dir entry
  | .loopS body => CompileLoop body entry
  | .ifCurrentS branches else_body => CompileIfCurrent branches else_body entry
  | .incS reg => CompileInc reg entry
  | .appendS src dst => CompileAppend src dst entry
  | .breakS => CompileBreak entry
  | .rewindS dir => CompileRewind dir entry
  | .ifEqS a b t e => CompileIfEqParts a b t e entry
  | .matchS _ => throw "Unknown statement type"
termination_by Stmt.csize stmt
decreasing_by all_goals (simp [Stmt.csize, csizeList, csizeBranches] <;> omega)

/-- Embedding of `HLCompiler::CompileStmts`. -/
def CompileStmts (stmts : List Stmt) (entry : State) : CompM State := do
  match stmts with
  | [] => pure entry
  | s :: rest => do
    let current ← CompileStmt s entry
    CompileStmts rest current
termination_by csizeList stmts
decreasing_by all_goals (simp [Stmt.csize, csizeList, csizeBranches] <;> omega)

/-- Embedding of `HLCompiler::CompileFor`. -/
def CompileFor (v : String) (first last : Expr) (body : List Stmt)
    (entry : State) : CompM State := do
  match first with
  | .intLit fv =>
    if fv = 1 then
      match last with
      | .var lname => do
        let _ ← DeclareVar v
        let i_info ← GetVar v
        let n_info ← GetVar lname
        let setup ← NewState "for_setup"
        let loop_head ← NewState "for_head"
        let loop_body ← NewState "for_body"
        let loop_end ← NewState "for_end"
        forSyms fun s => do
          if s = kBlank then addT setup s kSep Dir.L loop_head
          else addT setup s s Dir.R setup
        forSyms fun s => addT entry s s Dir.S setup
        let incr ← EmitIncrementRegion loop_head i_info.index
        let _ ← EmitCompareRegionToRegion incr i_info.index n_info.index
                  loop_body loop_end
        let body_done ← CompileStmts body loop_body
        let body_rewind ← EmitRewindToStart body_done
        forSyms fun s => addT body_rewind s s Dir.S loop_head
        EmitRewindToStart loop_end
      | _ => throw "For loop end must be a variable"
    else throw "For loop must start at 1"
  | _ => throw "For loop must start at 1"
termination_by 1 + csizeList body
decreasing_by all_goals (simp [Stmt.csize, csizeList, csizeBranches] <;> omega)

/-- Embedding of `HLCompiler::CompileIf`; the statement fields are passed
separately so that `CompileReturn` (which builds the conditional on the
fly, as the source does) can share it. -/
def CompileIfParts (condition : Expr) (then_body else_body : List Stmt)
    (entry : State) : CompM State := do
  let then_st ← NewState "then"
  let else_st ← NewState "else"
  let end_st ← NewState "endif"
  match condition with
  | .bin .Eq (.count sym) (.var vname) => do
    let marked_sym := markedOf sym
    let _ ← GetVar vname
    let go_start ← NewState "match_rewind"
    let match_loop ← NewState "match"
    let find_var ← NewState "find_var"
    let back ← NewState "back"
    let verify ← NewState "verify"
    forSyms fun s => do
      if s = kLeftEnd then addT go_start s s Dir.R match_loop
      else addT go_start s s Dir.L go_start
    forSyms fun s => addT entry s s Dir.S go_start
    forSyms fun s => do
      if s = sym then addT match_loop s marked_sym Dir.R find_var
      else if s = marked_sym then addT match_loop s s Dir.R match_loop
      else if s = kSep then addT match_loop s s Dir.R verify
      else if s = kBlank then addT match_loop s s Dir.R verify
      else addT match_loop s s Dir.R match_loop
    forSyms fun s => do
      if s = kOne then addT find_var s kMarked Dir.L back
      else if s = kMarked ∨ s = kSep then addT find_var s s Dir.R find_var
      else if s = kBlank then addT find_var s s Dir.S else_st
      else addT find_var s s Dir.R find_var
    forSyms fun s => do
      if s = kLeftEnd then addT back s s Dir.R match_loop
      else addT back s s Dir.L back
    forSyms fun s => do
      if s = kOne then addT verify s s Dir.S else_st
      else if s = kMarked ∨ s = kSep then addT verify s s Dir.R verify
      else if s = kBlank then addT verify s s Dir.S then_st
      else addT verify s s Dir.R verify
    let then_done ← CompileStmts then_body then_st
    let else_done ←
      if else_body.isEmpty then pure else_st else CompileStmts else_body else_st
    forSyms fun s => do
      if (← hasTrans then_done s) then pure ()
      else addT then_done s s Dir.S end_st
      if (← hasTrans else_done s) then pure ()
      else addT else_done s s Dir.S end_st
    EmitRewindToStart end_st
  | .bin .Eq _ _ => throw "Unsupported if condition"
  | _ => throw "If condition must be == comparison"
termination_by 1 + csizeList then_body + csizeList else_body
decreasing_by all_goals (simp [Stmt.csize, csizeList, csizeBranches] <;> omega)

/-- Embedding of `HLCompiler::CompileLoop`. -/
def CompileLoop (body : List Stmt) (entry : State) : CompM State := do
  let loop_head ← NewState "loop_head"
  let loop_exit ← NewState "loop_exit"
  modify fun st => { st with break_targets := loop_exit :: st.break_targets }
  forSyms fun s => addT entry s s Dir.S loop_head
  let body_end ← CompileStmts body loop_head
  let acc ← getAccept
  let rej ← getReject
  if body_end ≠ acc ∧ body_end ≠ rej ∧ body_end ≠ loop_exit then
    forSyms fun s => do
      if (← hasTrans body_end s) then pure ()
      else addT body_end s s Dir.S loop_head
  modify fun st => { st with break_targets := st.break_targets.tail }
  pure loop_exit
termination_by 1 + csizeList body
decreasing_by all_goals (simp [Stmt.csize, csizeList, csizeBranches] <;> omega)

/-- Embedding of the branch loop of `HLCompiler::CompileIfCurrent`. -/
def CompileIfCurrentBranches (branches : List (Symbol × List Stmt))
    (entry end_st : State) : CompM Unit := do
  match branches with
  | [] => pure ()
  | (sym, body) :: rest => do
    let branch_head ← NewState "branch"
    addT entry sym sym Dir.S branch_head
    let branch_end ← CompileStmts body branch_head
    let acc ← getAccept
    let rej ← getReject
    if branch_end ≠ acc ∧ branch_end ≠ rej then
      forSyms fun s => do
        if (← hasTrans branch_end s) then pure ()
        else addT branch_end s s Dir.S end_st
    CompileIfCurrentBranches rest entry end_st
termination_by csizeBranches branches
decreasing_by all_goals (simp [Stmt.csize, csizeList, csizeBranches] <;> omega)

/-- Embedding of `HLCompiler::CompileIfCurrent`. -/
def CompileIfCurrent (branches : List (Symbol × List Stmt))
    (else_body : List Stmt) (entry : State) : CompM State := do
  let end_st ← NewState "if_cur_end"
  CompileIfCurrentBranches branches entry end_st
  if else_body.isEmpty = false then
    let else_head ← NewState "else"
    forSyms fun s => do
      if (branches.lookup s).isNone then
        if (← hasTrans entry s) then pure ()
        else addT entry s s Dir.S else_head
    let else_end ← CompileStmts else_body else_head
    let acc ← getAccept
    let rej ← getReject
    if else_end ≠ acc ∧ else_end ≠ rej then
      forSyms fun s => do
        if (← hasTrans else_end s) then pure ()
        else addT else_end s s Dir.S end_st
    pure end_st
  else do
    forSyms fun s => do
      if (branches.lookup s).isNone then
        if (← hasTrans entry s) then pure ()
        else addT entry s s Dir.S end_st
    pure end_st
termination_by 1 + csizeBranches branches + csizeList else_body
decreasing_by all_goals (simp [Stmt.csize, csizeList, csizeBranches] <;> omega)

/-- Embedding of `HLCompiler::CompileIfEq`. -/
def CompileIfEqParts (reg_a reg_b : String) (then_body else_body : List Stmt)
    (entry : State) : CompM State := do
  let a ← GetVar reg_a
  let b ← GetVar reg_b
  let then_st ← NewState "ifeq_then"
  let else_st ← NewState "ifeq_else"
  let end_st ← NewState "ifeq_end"
  let _ ← EmitCompareEqual entry a.index b.index then_st else_st
  let then_done ← CompileStmts then_body then_st
  let else_done ←
    if else_body.isEmpty then pure else_st else CompileStmts else_body else_st
  forSyms fun s => do
    if (← hasTrans then_done s) then pure ()
    else addT then_done s s Dir.S end_st
    if (← hasTrans else_done s) then pure ()
    else addT else_done s s Dir.S end_st
  EmitRewindToStart end_st
termination_by 1 + csizeList then_body + csizeList else_body
decreasing_by all_goals (simp [Stmt.csize, csizeList, csizeBranches] <;> omega)

end

/-- Embedding of `HLCompiler::Compile`.  The constructor-fresh compiler
object (all counters zero, empty machine) is installed first, mirroring the
member initialisation at the top of the C++ function. -/
def Compile (program : Program) : CompM TM := do
  set ({ state_counter := 0, vars := [], next_var_index := 0,
         tm := emptyTM, break_targets := [] } : CompSt)
  SetupAlphabet program
  let startSt ← NewState "start"
  modify fun st =>
    { st with tm :=
        { st.tm with
          start := startSt,
          accept := State.qA,
          reject := State.qR,
          states := stInsert State.qR (stInsert State.qA st.tm.states) } }
  let current ← EmitPreamble startSt
  let current ← CompileStmts program.body current
  forSyms fun s => do
    if (← hasTrans current s) then pure ()
    else do
      let acc ← getAccept
      addT current s s Dir.S acc
  modify fun st => { st with tm := st.tm.Finalize }
  pure (← get).tm

/-- Initial (constructor) compiler state; `Compile` overwrites it. -/
def initSt : CompSt :=
  { state_counter := 0, vars := [], next_var_index := 0,
    tm := emptyTM, break_targets := [] }

/-- Embedding of `tmc::CompileProgram`, the convenience entry point. -/
def CompileProgram (program : Program) : Except String TM :=
  match (Compile program).run initSt with
  | .ok (tm, _) => .ok tm
  | .error e => .error e

/-- Variant of `CompileProgram` that also returns the final compiler state
(used to observe the variable table). -/
def CompileProgramState (program : Program) : Except String (TM × CompSt) :=
  (Compile program).run initSt

/-- Instrumented variant of `CompileStmts` that also records the exit state
of every statement of the list; the emitted transitions are identical. -/
def CompileStmtsExits (stmts : List Stmt) (entry : State) :
    CompM (State × List State) := do
  match stmts with
  | [] => pure (entry, [])
  | s :: rest => do
    let current ← CompileStmt s entry
    let (final, exits) ← CompileStmtsExits rest current
    pure (final, current :: exits)

/-- Instrumented variant of `Compile` that also returns the exit states of
the top-level statements; identical to `Compile` except for the
bookkeeping. -/
def CompileWithExits (program : Program) : CompM (TM × List State) := do
  set ({ state_counter := 0, vars := [], next_var_index := 0,
         tm := emptyTM, break_targets := [] } : CompSt)
  SetupAlphabet program
  let startSt ← NewState "start"
  modify fun st =>
    { st with tm :=
        { st.tm with
          start := startSt,
          accept := State.qA,
          reject := State.qR,
          states := stInsert State.qR (stInsert State.qA st.tm.states) } }
  let current ← EmitPreamble startSt
  let (current, exits) ← CompileStmtsExits program.body current
  forSyms fun s => do
    if (← hasTrans current s) then pure ()
    else do
      let acc ← getAccept
      addT current s s Dir.S acc
  modify fun st => { st with tm := st.tm.Finalize }
  pure ((← get).tm, exits)

/-- Run `CompileWithExits` from the constructor state. -/
def CompileProgramExits (program : Program) : Except String (TM × List State) :=
  match (CompileWithExits program).run initSt with
  | .ok (r, _) => .ok r
  | .error e => .error e

/-! ## Concrete programs and run helpers used by the claims -/

/-- All strings over `{a, b}` of exactly length `n`. -/
def allOfLen : Nat → List (List Symbol)
  | 0 => [[]]
  | n + 1 => (allOfLen n).bind (fun w => [w ++ ['a'], w ++ ['b']])

/-- All strings over `{a, b}` of length at most `n` (511 strings for
`n = 8`). -/
def strsUpTo (n : Nat) : List (List Symbol) :=
  (List.range (n + 1)).bind allOfLen

/-- Step until the machine is in `target` (the configuration corresponding
to that control state), propagating the full configuration; `none` if the
run halts or the fuel ends first. -/
def runUntil (tm : TM) (target : State) : Nat → SimState → Option SimState
  | 0, _ => none
  | fuel + 1, s =>
    if s.state = target then some s
    else if s.halted then none
    else runUntil tm target fuel (Step tm s)

/-- The flagship program of the spec:
`n = count(a); return count(b) == n`. -/
def flagshipProg : Program :=
  { input_alphabet := ['a', 'b'], markers := [],
    body := [Stmt.letS "n" (Expr.count 'a'),
             Stmt.returnS (Expr.bin BinOp.Eq (Expr.count 'b') (Expr.var "n"))] }

/-- The machine compiled from the flagship program. -/
def flagshipTM : TM :=
  match CompileProgram flagshipProg with
  | .ok tm => tm
  | .error _ => emptyTM



/-! ## The flagship machine as an explicit table

The machine compiled from `flagshipProg`, written out literally; the
theorem `flagshipTM_eq` checks it against the compiler by kernel
evaluation.  State map (from the order of `NewState` calls): q0 start,
q1 preamble exit, q2-q8 preamble carry states (one per non-blank
non-sentinel symbol, in sorted order #,1,A,B,I,a,b), q9 preamble rewind;
q10-q12 the let statement's separator writer and rewind; q13-q16 the
count loop (scan, write, back, done), q17-q19 the count restore sweep,
q20-q21 the let statement's final rewind (q21 = let exit); q22 then,
q23 else, q24 endif, q25 match rewind, q26 match loop, q27 find-var,
q28 back, q29 verify of the return conditional; q30-q31 its final
rewind (q31 = return exit, wired to accept by the completion pass). -/

/-- Shorthand transition constructor for the tables below. -/
def mkT (r w : Symbol) (d : Dir) (n : State) : Transition := ⟨r, w, d, n⟩

/-- Literal form of the machine compiled from the flagship program. -/
def flagshipLit : TM :=
{ states := [(State.q 31), (State.q 30), (State.q 24), (State.q 22), (State.q 23), (State.q 28), (State.q 27), (State.q 29), (State.q 26), (State.q 25), (State.q 21), (State.q 20), (State.q 19), (State.q 18), (State.q 17), (State.q 15), (State.q 14), (State.q 16), (State.q 13), (State.q 11), (State.q 12), (State.q 10), (State.q 9), (State.q 8), (State.q 7), (State.q 1), (State.q 6), (State.q 5), (State.q 4), (State.q 3), (State.q 2), (State.q 0), State.qR, State.qA],
  input_alphabet := ['a', 'b'],
  tape_alphabet := ['#', '1', '>', 'A', 'B', 'I', '_', 'a', 'b'],
  start := (State.q 0), accept := State.qA, reject := State.qR,
  delta :=
[((State.q 0), [('#', mkT '#' '>' Dir.R (State.q 2)), ('1', mkT '1' '>' Dir.R (State.q 3)), ('A', mkT 'A' '>' Dir.R (State.q 4)), ('B', mkT 'B' '>' Dir.R (State.q 5)), ('I', mkT 'I' '>' Dir.R (State.q 6)), ('_', mkT '_' '>' Dir.R (State.q 1)), ('a', mkT 'a' '>' Dir.R (State.q 7)), ('b', mkT 'b' '>' Dir.R (State.q 8))]),
 ((State.q 2), [('#', mkT '#' '#' Dir.R (State.q 2)), ('1', mkT '1' '#' Dir.R (State.q 3)), ('A', mkT 'A' '#' Dir.R (State.q 4)), ('B', mkT 'B' '#' Dir.R (State.q 5)), ('I', mkT 'I' '#' Dir.R (State.q 6)), ('_', mkT '_' '#' Dir.L (State.q 9)), ('a', mkT 'a' '#' Dir.R (State.q 7)), ('b', mkT 'b' '#' Dir.R (State.q 8))]),
 ((State.q 3), [('#', mkT '#' '1' Dir.R (State.q 2)), ('1', mkT '1' '1' Dir.R (State.q 3)), ('A', mkT 'A' '1' Dir.R (State.q 4)), ('B', mkT 'B' '1' Dir.R (State.q 5)), ('I', mkT 'I' '1' Dir.R (State.q 6)), ('_', mkT '_' '1' Dir.L (State.q 9)), ('a', mkT 'a' '1' Dir.R (State.q 7)), ('b', mkT 'b' '1' Dir.R (State.q 8))]),
 ((State.q 4), [('#', mkT '#' 'A' Dir.R (State.q 2)), ('1', mkT '1' 'A' Dir.R (State.q 3)), ('A', mkT 'A' 'A' Dir.R (State.q 4)), ('B', mkT 'B' 'A' Dir.R (State.q 5)), ('I', mkT 'I' 'A' Dir.R (State.q 6)), ('_', mkT '_' 'A' Dir.L (State.q 9)), ('a', mkT 'a' 'A' Dir.R (State.q 7)), ('b', mkT 'b' 'A' Dir.R (State.q 8))]),
 ((State.q 5), [('#', mkT '#' 'B' Dir.R (State.q 2)), ('1', mkT '1' 'B' Dir.R (State.q 3)), ('A', mkT 'A' 'B' Dir.R (State.q 4)), ('B', mkT 'B' 'B' Dir.R (State.q 5)), ('I', mkT 'I' 'B' Dir.R (State.q 6)), ('_', mkT '_' 'B' Dir.L (State.q 9)), ('a', mkT 'a' 'B' Dir.R (State.q 7)), ('b', mkT 'b' 'B' Dir.R (State.q 8))]),
 ((State.q 6), [('#', mkT '#' 'I' Dir.R (State.q 2)), ('1', mkT '1' 'I' Dir.R (State.q 3)), ('A', mkT 'A' 'I' Dir.R (State.q 4)), ('B', mkT 'B' 'I' Dir.R (State.q 5)), ('I', mkT 'I' 'I' Dir.R (State.q 6)), ('_', mkT '_' 'I' Dir.L (State.q 9)), ('a', mkT 'a' 'I' Dir.R (State.q 7)), ('b', mkT 'b' 'I' Dir.R (State.q 8))]),
 ((State.q 7), [('#', mkT '#' 'a' Dir.R (State.q 2)), ('1', mkT '1' 'a' Dir.R (State.q 3)), ('A', mkT 'A' 'a' Dir.R (State.q 4)), ('B', mkT 'B' 'a' Dir.R (State.q 5)), ('I', mkT 'I' 'a' Dir.R (State.q 6)), ('_', mkT '_' 'a' Dir.L (State.q 9)), ('a', mkT 'a' 'a' Dir.R (State.q 7)), ('b', mkT 'b' 'a' Dir.R (State.q 8))]),
 ((State.q 8), [('#', mkT '#' 'b' Dir.R (State.q 2)), ('1', mkT '1' 'b' Dir.R (State.q 3)), ('A', mkT 'A' 'b' Dir.R (State.q 4)), ('B', mkT 'B' 'b' Dir.R (State.q 5)), ('I', mkT 'I' 'b' Dir.R (State.q 6)), ('_', mkT '_' 'b' Dir.L (State.q 9)), ('a', mkT 'a' 'b' Dir.R (State.q 7)), ('b', mkT 'b' 'b' Dir.R (State.q 8))]),
 ((State.q 9), [('#', mkT '#' '#' Dir.L (State.q 9)), ('1', mkT '1' '1' Dir.L (State.q 9)), ('>', mkT '>' '>' Dir.R (State.q 1)), ('A', mkT 'A' 'A' Dir.L (State.q 9)), ('B', mkT 'B' 'B' Dir.L (State.q 9)), ('I', mkT 'I' 'I' Dir.L (State.q 9)), ('_', mkT '_' '_' Dir.L (State.q 9)), ('a', mkT 'a' 'a' Dir.L (State.q 9)), ('b', mkT 'b' 'b' Dir.L (State.q 9))]),
 ((State.q 10), [('#', mkT '#' '#' Dir.R (State.q 10)), ('1', mkT '1' '1' Dir.R (State.q 10)), ('>', mkT '>' '>' Dir.R (State.q 10)), ('A', mkT 'A' 'A' Dir.R (State.q 10)), ('B', mkT 'B' 'B' Dir.R (State.q 10)), ('I', mkT 'I' 'I' Dir.R (State.q 10)), ('_', mkT '_' '#' Dir.L (State.q 12)), ('a', mkT 'a' 'a' Dir.R (State.q 10)), ('b', mkT 'b' 'b' Dir.R (State.q 10))]),
 ((State.q 12), [('#', mkT '#' '#' Dir.L (State.q 12)), ('1', mkT '1' '1' Dir.L (State.q 12)), ('>', mkT '>' '>' Dir.R (State.q 11)), ('A', mkT 'A' 'A' Dir.L (State.q 12)), ('B', mkT 'B' 'B' Dir.L (State.q 12)), ('I', mkT 'I' 'I' Dir.L (State.q 12)), ('_', mkT '_' '_' Dir.L (State.q 12)), ('a', mkT 'a' 'a' Dir.L (State.q 12)), ('b', mkT 'b' 'b' Dir.L (State.q 12))]),
 ((State.q 1), [('#', mkT '#' '#' Dir.S (State.q 10)), ('1', mkT '1' '1' Dir.S (State.q 10)), ('>', mkT '>' '>' Dir.S (State.q 10)), ('A', mkT 'A' 'A' Dir.S (State.q 10)), ('B', mkT 'B' 'B' Dir.S (State.q 10)), ('I', mkT 'I' 'I' Dir.S (State.q 10)), ('_', mkT '_' '_' Dir.S (State.q 10)), ('a', mkT 'a' 'a' Dir.S (State.q 10)), ('b', mkT 'b' 'b' Dir.S (State.q 10))]),
 ((State.q 13), [('#', mkT '#' '#' Dir.S (State.q 16)), ('1', mkT '1' '1' Dir.R (State.q 13)), ('>', mkT '>' '>' Dir.R (State.q 13)), ('A', mkT 'A' 'A' Dir.R (State.q 13)), ('B', mkT 'B' 'B' Dir.R (State.q 13)), ('I', mkT 'I' 'I' Dir.R (State.q 13)), ('_', mkT '_' '_' Dir.S (State.q 16)), ('a', mkT 'a' 'A' Dir.R (State.q 14)), ('b', mkT 'b' 'b' Dir.R (State.q 13))]),
 ((State.q 14), [('#', mkT '#' '#' Dir.R (State.q 14)), ('1', mkT '1' '1' Dir.R (State.q 14)), ('>', mkT '>' '>' Dir.R (State.q 14)), ('A', mkT 'A' 'A' Dir.R (State.q 14)), ('B', mkT 'B' 'B' Dir.R (State.q 14)), ('I', mkT 'I' 'I' Dir.R (State.q 14)), ('_', mkT '_' '1' Dir.L (State.q 15)), ('a', mkT 'a' 'a' Dir.R (State.q 14)), ('b', mkT 'b' 'b' Dir.R (State.q 14))]),
 ((State.q 15), [('#', mkT '#' '#' Dir.L (State.q 15)), ('1', mkT '1' '1' Dir.L (State.q 15)), ('>', mkT '>' '>' Dir.R (State.q 13)), ('A', mkT 'A' 'A' Dir.L (State.q 15)), ('B', mkT 'B' 'B' Dir.L (State.q 15)), ('I', mkT 'I' 'I' Dir.L (State.q 15)), ('_', mkT '_' '_' Dir.L (State.q 15)), ('a', mkT 'a' 'a' Dir.L (State.q 15)), ('b', mkT 'b' 'b' Dir.L (State.q 15))]),
 ((State.q 11), [('#', mkT '#' '#' Dir.S (State.q 13)), ('1', mkT '1' '1' Dir.S (State.q 13)), ('>', mkT '>' '>' Dir.S (State.q 13)), ('A', mkT 'A' 'A' Dir.S (State.q 13)), ('B', mkT 'B' 'B' Dir.S (State.q 13)), ('I', mkT 'I' 'I' Dir.S (State.q 13)), ('_', mkT '_' '_' Dir.S (State.q 13)), ('a', mkT 'a' 'a' Dir.S (State.q 13)), ('b', mkT 'b' 'b' Dir.S (State.q 13))]),
 ((State.q 16), [('#', mkT '#' '#' Dir.L (State.q 17)), ('1', mkT '1' '1' Dir.L (State.q 17)), ('>', mkT '>' '>' Dir.L (State.q 17)), ('A', mkT 'A' 'A' Dir.L (State.q 17)), ('B', mkT 'B' 'B' Dir.L (State.q 17)), ('I', mkT 'I' 'I' Dir.L (State.q 17)), ('_', mkT '_' '_' Dir.L (State.q 17)), ('a', mkT 'a' 'a' Dir.L (State.q 17)), ('b', mkT 'b' 'b' Dir.L (State.q 17))]),
 ((State.q 17), [('#', mkT '#' '#' Dir.L (State.q 17)), ('1', mkT '1' '1' Dir.L (State.q 17)), ('>', mkT '>' '>' Dir.R (State.q 18)), ('A', mkT 'A' 'A' Dir.L (State.q 17)), ('B', mkT 'B' 'B' Dir.L (State.q 17)), ('I', mkT 'I' 'I' Dir.L (State.q 17)), ('_', mkT '_' '_' Dir.L (State.q 17)), ('a', mkT 'a' 'a' Dir.L (State.q 17)), ('b', mkT 'b' 'b' Dir.L (State.q 17))]),
 ((State.q 18), [('#', mkT '#' '#' Dir.S (State.q 19)), ('1', mkT '1' '1' Dir.R (State.q 18)), ('>', mkT '>' '>' Dir.R (State.q 18)), ('A', mkT 'A' 'a' Dir.R (State.q 18)), ('B', mkT 'B' 'B' Dir.R (State.q 18)), ('I', mkT 'I' 'I' Dir.R (State.q 18)), ('_', mkT '_' '_' Dir.S (State.q 19)), ('a', mkT 'a' 'a' Dir.R (State.q 18)), ('b', mkT 'b' 'b' Dir.R (State.q 18))]),
 ((State.q 19), [('#', mkT '#' '#' Dir.L (State.q 20)), ('1', mkT '1' '1' Dir.L (State.q 20)), ('>', mkT '>' '>' Dir.L (State.q 20)), ('A', mkT 'A' 'A' Dir.L (State.q 20)), ('B', mkT 'B' 'B' Dir.L (State.q 20)), ('I', mkT 'I' 'I' Dir.L (State.q 20)), ('_', mkT '_' '_' Dir.L (State.q 20)), ('a', mkT 'a' 'a' Dir.L (State.q 20)), ('b', mkT 'b' 'b' Dir.L (State.q 20))]),
 ((State.q 20), [('#', mkT '#' '#' Dir.L (State.q 20)), ('1', mkT '1' '1' Dir.L (State.q 20)), ('>', mkT '>' '>' Dir.R (State.q 21)), ('A', mkT 'A' 'A' Dir.L (State.q 20)), ('B', mkT 'B' 'B' Dir.L (State.q 20)), ('I', mkT 'I' 'I' Dir.L (State.q 20)), ('_', mkT '_' '_' Dir.L (State.q 20)), ('a', mkT 'a' 'a' Dir.L (State.q 20)), ('b', mkT 'b' 'b' Dir.L (State.q 20))]),
 ((State.q 25), [('#', mkT '#' '#' Dir.L (State.q 25)), ('1', mkT '1' '1' Dir.L (State.q 25)), ('>', mkT '>' '>' Dir.R (State.q 26)), ('A', mkT 'A' 'A' Dir.L (State.q 25)), ('B', mkT 'B' 'B' Dir.L (State.q 25)), ('I', mkT 'I' 'I' Dir.L (State.q 25)), ('_', mkT '_' '_' Dir.L (State.q 25)), ('a', mkT 'a' 'a' Dir.L (State.q 25)), ('b', mkT 'b' 'b' Dir.L (State.q 25))]),
 ((State.q 21), [('#', mkT '#' '#' Dir.S (State.q 25)), ('1', mkT '1' '1' Dir.S (State.q 25)), ('>', mkT '>' '>' Dir.S (State.q 25)), ('A', mkT 'A' 'A' Dir.S (State.q 25)), ('B', mkT 'B' 'B' Dir.S (State.q 25)), ('I', mkT 'I' 'I' Dir.S (State.q 25)), ('_', mkT '_' '_' Dir.S (State.q 25)), ('a', mkT 'a' 'a' Dir.S (State.q 25)), ('b', mkT 'b' 'b' Dir.S (State.q 25))]),
 ((State.q 26), [('#', mkT '#' '#' Dir.R (State.q 29)), ('1', mkT '1' '1' Dir.R (State.q 26)), ('>', mkT '>' '>' Dir.R (State.q 26)), ('A', mkT 'A' 'A' Dir.R (State.q 26)), ('B', mkT 'B' 'B' Dir.R (State.q 26)), ('I', mkT 'I' 'I' Dir.R (State.q 26)), ('_', mkT '_' '_' Dir.R (State.q 29)), ('a', mkT 'a' 'a' Dir.R (State.q 26)), ('b', mkT 'b' 'B' Dir.R (State.q 27))]),
 ((State.q 27), [('#', mkT '#' '#' Dir.R (State.q 27)), ('1', mkT '1' 'I' Dir.L (State.q 28)), ('>', mkT '>' '>' Dir.R (State.q 27)), ('A', mkT 'A' 'A' Dir.R (State.q 27)), ('B', mkT 'B' 'B' Dir.R (State.q 27)), ('I', mkT 'I' 'I' Dir.R (State.q 27)), ('_', mkT '_' '_' Dir.S (State.q 23)), ('a', mkT 'a' 'a' Dir.R (State.q 27)), ('b', mkT 'b' 'b' Dir.R (State.q 27))]),
 ((State.q 28), [('#', mkT '#' '#' Dir.L (State.q 28)), ('1', mkT '1' '1' Dir.L (State.q 28)), ('>', mkT '>' '>' Dir.R (State.q 26)), ('A', mkT 'A' 'A' Dir.L (State.q 28)), ('B', mkT 'B' 'B' Dir.L (State.q 28)), ('I', mkT 'I' 'I' Dir.L (State.q 28)), ('_', mkT '_' '_' Dir.L (State.q 28)), ('a', mkT 'a' 'a' Dir.L (State.q 28)), ('b', mkT 'b' 'b' Dir.L (State.q 28))]),
 ((State.q 29), [('#', mkT '#' '#' Dir.R (State.q 29)), ('1', mkT '1' '1' Dir.S (State.q 23)), ('>', mkT '>' '>' Dir.R (State.q 29)), ('A', mkT 'A' 'A' Dir.R (State.q 29)), ('B', mkT 'B' 'B' Dir.R (State.q 29)), ('I', mkT 'I' 'I' Dir.R (State.q 29)), ('_', mkT '_' '_' Dir.S (State.q 22)), ('a', mkT 'a' 'a' Dir.R (State.q 29)), ('b', mkT 'b' 'b' Dir.R (State.q 29))]),
 ((State.q 22), [('#', mkT '#' '#' Dir.S State.qA), ('1', mkT '1' '1' Dir.S State.qA), ('>', mkT '>' '>' Dir.S State.qA), ('A', mkT 'A' 'A' Dir.S State.qA), ('B', mkT 'B' 'B' Dir.S State.qA), ('I', mkT 'I' 'I' Dir.S State.qA), ('_', mkT '_' '_' Dir.S State.qA), ('a', mkT 'a' 'a' Dir.S State.qA), ('b', mkT 'b' 'b' Dir.S State.qA)]),
 ((State.q 23), [('#', mkT '#' '#' Dir.S State.qR), ('1', mkT '1' '1' Dir.S State.qR), ('>', mkT '>' '>' Dir.S State.qR), ('A', mkT 'A' 'A' Dir.S State.qR), ('B', mkT 'B' 'B' Dir.S State.qR), ('I', mkT 'I' 'I' Dir.S State.qR), ('_', mkT '_' '_' Dir.S State.qR), ('a', mkT 'a' 'a' Dir.S State.qR), ('b', mkT 'b' 'b' Dir.S State.qR)]),
 (State.qA, [('#', mkT '#' '#' Dir.S (State.q 24)), ('1', mkT '1' '1' Dir.S (State.q 24)), ('>', mkT '>' '>' Dir.S (State.q 24)), ('A', mkT 'A' 'A' Dir.S (State.q 24)), ('B', mkT 'B' 'B' Dir.S (State.q 24)), ('I', mkT 'I' 'I' Dir.S (State.q 24)), ('_', mkT '_' '_' Dir.S (State.q 24)), ('a', mkT 'a' 'a' Dir.S (State.q 24)), ('b', mkT 'b' 'b' Dir.S (State.q 24))]),
 (State.qR, [('#', mkT '#' '#' Dir.S (State.q 24)), ('1', mkT '1' '1' Dir.S (State.q 24)), ('>', mkT '>' '>' Dir.S (State.q 24)), ('A', mkT 'A' 'A' Dir.S (State.q 24)), ('B', mkT 'B' 'B' Dir.S (State.q 24)), ('I', mkT 'I' 'I' Dir.S (State.q 24)), ('_', mkT '_' '_' Dir.S (State.q 24)), ('a', mkT 'a' 'a' Dir.S (State.q 24)), ('b', mkT 'b' 'b' Dir.S (State.q 24))]),
 ((State.q 24), [('#', mkT '#' '#' Dir.L (State.q 30)), ('1', mkT '1' '1' Dir.L (State.q 30)), ('>', mkT '>' '>' Dir.L (State.q 30)), ('A', mkT 'A' 'A' Dir.L (State.q 30)), ('B', mkT 'B' 'B' Dir.L (State.q 30)), ('I', mkT 'I' 'I' Dir.L (State.q 30)), ('_', mkT '_' '_' Dir.L (State.q 30)), ('a', mkT 'a' 'a' Dir.L (State.q 30)), ('b', mkT 'b' 'b' Dir.L (State.q 30))]),
 ((State.q 30), [('#', mkT '#' '#' Dir.L (State.q 30)), ('1', mkT '1' '1' Dir.L (State.q 30)), ('>', mkT '>' '>' Dir.R (State.q 31)), ('A', mkT 'A' 'A' Dir.L (State.q 30)), ('B', mkT 'B' 'B' Dir.L (State.q 30)), ('I', mkT 'I' 'I' Dir.L (State.q 30)), ('_', mkT '_' '_' Dir.L (State.q 30)), ('a', mkT 'a' 'a' Dir.L (State.q 30)), ('b', mkT 'b' 'b' Dir.L (State.q 30))]),
 ((State.q 31), [('#', mkT '#' '#' Dir.S State.qA), ('1', mkT '1' '1' Dir.S State.qA), ('>', mkT '>' '>' Dir.S State.qA), ('A', mkT 'A' 'A' Dir.S State.qA), ('B', mkT 'B' 'B' Dir.S State.qA), ('I', mkT 'I' 'I' Dir.S State.qA), ('_', mkT '_' '_' Dir.S State.qA), ('a', mkT 'a' 'a' Dir.S State.qA), ('b', mkT 'b' 'b' Dir.S State.qA)])] }

/-! ## Derived observables, further programs and hand-built machines -/

/-- The transition `Simulator::Step` is about to take from configuration
`s`: the state's row first, then the exact read symbol, then the wildcard.
`none` is exactly the implicit-reject situation of `simulator.cpp`. -/
def findTransition (tm : TM) (s : SimState) : Option Transition :=
  (deltaFind tm.delta s.state).bind fun tmap =>
    lookupTrans tmap (readTape s.tape s.head)

/-- Spec-modelled trimming, following the words of the spec: the tape with
all leading and all trailing blanks removed.  To be compared with
`extractFinal`, which embeds the index loops of `Simulator::Run`. -/
def trimBlanks (tape : List Symbol) : List Symbol :=
  ((tape.dropWhile (fun c => c == kBlank)).reverse.dropWhile
    (fun c => c == kBlank)).reverse

/-- The default step budget, `Simulator(const TM& tm, int max_steps = 1000000)`
(`simulator.hpp`). -/
def kDefaultMaxSteps : Nat := 1000000

/-- Hand-built machine in the style of `tests/test_simulator.cpp`: `q0` on
`a` moves Left from cell 0, then `q1` accepts on reading `a` and rejects
on reading blank.  Under a head clamped before the read (the Sipser model
the source comment names), input `a` would be accepted. -/
def c4TM : TM :=
  (((emptyTM.AddTransition (State.q 0) 'a' 'a' Dir.L (State.q 1)).AddTransition
      (State.q 1) 'a' 'a' Dir.S State.qA).AddTransition
      (State.q 1) kBlank kBlank Dir.S State.qR).Finalize

/-- Hand-built machine with a single transition `q0 --a/a,S--> q1` and no
transitions out of `q1`: after one step every configuration is an
implicit-reject situation. -/
def c5TM : TM :=
  ((emptyTM.AddTransition (State.q 0) 'a' 'a' Dir.S (State.q 1))).Finalize

/-- A small machine with an unsorted two-letter input alphabet and a
one-symbol (trivially sorted) tape alphabet, for exercising `Finalize`. -/
def c9m : TM := { emptyTM with input_alphabet := ['b', 'a'], tape_alphabet := ['x'] }

/-- `n = count(a); if (count(b) == n) {} else {}` — the flagship condition
inside a plain `if` with empty bodies, so that execution continues through
the conditional's exit state. -/
def p2 : Program :=
  { input_alphabet := ['a', 'b'], markers := [],
    body := [Stmt.letS "n" (Expr.count 'a'),
             Stmt.ifS (Expr.bin BinOp.Eq (Expr.count 'b') (Expr.var "n")) [] []] }

/-- `y = 1; x = 1; x = x + y` — two declared unary regions followed by the
append-form assignment. -/
def p3 : Program :=
  { input_alphabet := ['a'], markers := [],
    body := [Stmt.letS "y" (Expr.intLit 1), Stmt.letS "x" (Expr.intLit 1),
             Stmt.assignS "x" (Expr.bin BinOp.Add (Expr.var "x") (Expr.var "y"))] }

/-- The empty program over `{a, b, c}`: only the preamble and the final
default-accept wiring are emitted. -/
def p4 : Program :=
  { input_alphabet := ['a', 'b', 'c'], markers := [], body := [] }

/-- `return count(b) == n` with `n` never declared. -/
def p5 : Program :=
  { input_alphabet := ['a', 'b'], markers := [],
    body := [Stmt.returnS (Expr.bin BinOp.Eq (Expr.count 'b') (Expr.var "n"))] }

/-- The machine compiled from `p2`. -/
def p2TM : TM :=
  match CompileProgram p2 with | .ok tm => tm | .error _ => emptyTM

/-- The machine compiled from `p3`. -/
def p3TM : TM :=
  match CompileProgram p3 with | .ok tm => tm | .error _ => emptyTM

/-- The machine compiled from `p4`. -/
def p4TM : TM :=
  match CompileProgram p4 with | .ok tm => tm | .error _ => emptyTM

/-- The machine compiled from `p5`. -/
def p5TM : TM :=
  match CompileProgram p5 with | .ok tm => tm | .error _ => emptyTM

/-- A running (non-halted) configuration with the given tape, head, control
state and step counter. -/
def cfg (t : List Symbol) (h : Int) (q : State) (k : Nat) : SimState :=
  { tape := t, head := h, state := q, steps := k, halted := false }

/-- `n ≤ N` simulator steps lead from the running configuration
`cfg t h q k` to the running configuration with tape `t'`, head `h'`,
state `q'` and step counter `k + n`. -/
def ReachesIn (tm : TM) (N : Nat) (t : List Symbol) (h : Int) (q : State)
    (k : Nat) (t' : List Symbol) (h' : Int) (q' : State) : Prop :=
  ∃ n, n ≤ N ∧ stepN tm n (cfg t h q k) = cfg t' h' q' (k + n)

/-- `n ≤ N` simulator steps lead from the running configuration
`cfg t h q k` to a halted configuration in control state `q'`. -/
def HaltsIn (tm : TM) (N : Nat) (t : List Symbol) (h : Int) (q : State)
    (k : Nat) (q' : State) : Prop :=
  ∃ n t' h', n ≤ N ∧
    stepN tm n (cfg t h q k) =
      { tape := t', head := h', state := q', steps := k + n, halted := true }

/-- The transition the flagship machine takes from state `q` reading `c`. -/
def fsTrans (q : State) (c : Symbol) : Option Transition :=
  match deltaFind flagshipLit.delta q with
  | none => none
  | some row => lookupTrans row c

/-- The preamble carry state of the flagship machine for a carried input
symbol (`q7` carries `a`, `q8` carries `b`). -/
def carrySt (c : Symbol) : State :=
  if c = 'a' then State.q 7 else State.q 8

/-- The input with every counted symbol upper-cased, as the count and match
loops leave it mid-flight (`a ↦ A` for the count loop). -/
def markA (w : List Symbol) : List Symbol :=
  w.map fun c => if c = 'a' then 'A' else c

/-- The input with every matched `b` upper-cased, the match loop's
mid-flight shape. -/
def markB (w : List Symbol) : List Symbol :=
  w.map fun c => if c = 'b' then 'B' else c

set_option maxRecDepth 20000 in
/-- The compiler output on the flagship program is exactly the literal
table (checked by kernel evaluation). -/
theorem flagship_compile_ok : CompileProgram flagshipProg = Except.ok flagshipLit := by
  decide!

/-- The machine compiled from the flagship program, as a value. -/
theorem flagshipTM_eq : flagshipTM = flagshipLit := by
  unfold flagshipTM
  rw [flagship_compile_ok]


/-! ## Generic facts about the simulator loop -/

/-- Stepping a halted simulator does nothing (`Step` returns immediately). -/
theorem Step_halted {tm : TM} {s : SimState} (h : s.halted = true) :
    Step tm s = s := by
  simp [Step, h]

/-- Iterated stepping of a halted simulator does nothing. -/
theorem stepN_halted {tm : TM} {s : SimState} (h : s.halted = true) :
    ∀ n, stepN tm n s = s
  | 0 => rfl
  | n + 1 => by rw [stepN, Step_halted h, stepN_halted h n]

/-- Splitting an iterated step count. -/
theorem stepN_add (tm : TM) (m n : Nat) (s : SimState) :
    stepN tm (m + n) s = stepN tm n (stepN tm m s) := by
  induction m generalizing s with
  | zero => simp [stepN]
  | succ m ih => rw [Nat.succ_add, stepN, stepN, ih]

/-- One step increments the step counter by at most one. -/
theorem Step_steps_le (tm : TM) (s : SimState) :
    (Step tm s).steps ≤ s.steps + 1 := by
  unfold Step
  by_cases h1 : s.halted = true
  · simp [h1]
  by_cases h2 : s.state = tm.accept ∨ s.state = tm.reject
  · simp [h1, h2]
  cases hd : deltaFind tm.delta s.state with
  | none => simp [h1, h2, hd]
  | some tmap =>
    cases hl : lookupTrans tmap (readTape s.tape s.head) with
    | none => simp [h1, h2, hd, hl]
    | some tr => simp [h1, h2, hd, hl]

/-- A step of a live simulator either halts it or increments the counter
by exactly one. -/
theorem Step_live (tm : TM) (s : SimState) (h : s.halted = false) :
    (Step tm s).halted = true ∨ (Step tm s).steps = s.steps + 1 := by
  unfold Step
  by_cases h2 : s.state = tm.accept ∨ s.state = tm.reject
  · simp [h, h2]
  cases hd : deltaFind tm.delta s.state with
  | none => simp [h, h2, hd]
  | some tmap =>
    cases hl : lookupTrans tmap (readTape s.tape s.head) with
    | none => simp [h, h2, hd, hl]
    | some tr => right; simp [h, h2, hd, hl]

/-- Step counter after `n` steps grows by at most `n`. -/
theorem stepN_steps_le (tm : TM) : ∀ (n : Nat) (s : SimState),
    (stepN tm n s).steps ≤ s.steps + n
  | 0, s => Nat.le_refl _
  | n + 1, s => by
    rw [stepN]
    calc (stepN tm n (Step tm s)).steps ≤ (Step tm s).steps + n :=
          stepN_steps_le tm n (Step tm s)
      _ ≤ s.steps + 1 + n := by have := Step_steps_le tm s; omega
      _ = s.steps + (n + 1) := by omega

/-- Running the `while` loop on a halted state returns it unchanged. -/
theorem runAux_halted {tm : TM} {maxSteps : Nat} {s : SimState}
    (h : s.halted = true) : ∀ fuel, runAux tm maxSteps fuel s = s
  | 0 => rfl
  | fuel + 1 => by rw [runAux]; simp [h]

/-- Bridge between the fuelled `while` loop and plain iterated stepping:
if `n` steps reach a halted configuration without exhausting the budget,
the loop returns exactly that configuration (whatever sufficient fuel it
is given). -/
theorem runAux_eq_stepN (tm : TM) (maxSteps : Nat) :
    ∀ (n fuel : Nat) (s : SimState), (stepN tm n s).halted = true →
      s.steps + n ≤ maxSteps → n < fuel →
      runAux tm maxSteps fuel s = stepN tm n s := by
  intro n
  induction n with
  | zero =>
    intro fuel s hh _ hf
    match fuel, hf with
    | fuel + 1, _ => rw [runAux]; simp [stepN] at hh ⊢; simp [hh]
  | succ n ih =>
    intro fuel s hh hst hf
    match fuel, hf with
    | fuel + 1, hf =>
      by_cases hs : s.halted = true
      · rw [stepN_halted hs] at hh ⊢
        rw [runAux]; simp [hs, hh]
      · rw [runAux]
        simp only [Bool.not_eq_true] at hs
        have hlt : s.steps < maxSteps := by omega
        simp only [hs, hlt, and_true, if_pos rfl, true_and, if_true]
        rw [stepN] at hh ⊢
        exact ih fuel (Step tm s) hh
          (by have := Step_steps_le tm s; omega) (by omega)

/-- Loop postcondition: with enough fuel, the loop ends halted or with the
budget consumed. -/
theorem runAux_spec (tm : TM) (maxSteps : Nat) :
    ∀ (fuel : Nat) (s : SimState), maxSteps < s.steps + fuel →
      (runAux tm maxSteps fuel s).halted = true ∨
        maxSteps ≤ (runAux tm maxSteps fuel s).steps := by
  intro fuel
  induction fuel with
  | zero => intro s h; right; simpa [runAux] using by omega
  | succ fuel ih =>
    intro s h
    rw [runAux]
    by_cases hs : s.halted = false ∧ s.steps < maxSteps
    · rw [if_pos hs]
      by_cases hh : (Step tm s).halted = true
      · left; rw [runAux_halted hh]; exact hh
      · have := Step_live tm s hs.1
        have hst : (Step tm s).steps = s.steps + 1 := by tauto
        exact ih (Step tm s) (by omega)
    · rw [if_neg hs]
      rcases Decidable.not_and_iff_or_not.mp hs with h1 | h2
      · left; simpa using h1
      · right; omega

/-- Step counter stays within the budget. -/
theorem runAux_steps_le (tm : TM) (maxSteps : Nat) :
    ∀ (fuel : Nat) (s : SimState), s.steps ≤ maxSteps →
      (runAux tm maxSteps fuel s).steps ≤ maxSteps := by
  intro fuel
  induction fuel with
  | zero => intro s h; simpa [runAux]
  | succ fuel ih =>
    intro s h
    rw [runAux]
    by_cases hs : s.halted = false ∧ s.steps < maxSteps
    · rw [if_pos hs]
      exact ih (Step tm s) (by have := Step_steps_le tm s; omega)
    · rw [if_neg hs]; exact h

/-- The run result determined by a halting trace: if `n ≤ maxSteps` plain
steps take the reset configuration to a halted configuration `final`, the
one-shot `Run` reports acceptance at `final`, its step counter, its
trimmed tape, and no budget overrun. -/
theorem Run_of_halt (tm : TM) (maxSteps : Nat) (w : List Symbol)
    (n : Nat) (final : SimState)
    (h : stepN tm n (Reset tm w) = final)
    (hh : final.halted = true) (hn : n ≤ maxSteps) :
    Run tm maxSteps w =
      { accepted := decide (final.state = tm.accept),
        steps := final.steps,
        final_tape := extractFinal final.tape,
        hit_limit := false } := by
  unfold Run
  rw [runAux_eq_stepN tm maxSteps n (maxSteps + 2) (Reset tm w)
        (h ▸ hh) (by simp [Reset]; omega) (by omega), h]
  simp [hh]

/-! ## Implicit reject (claim C5) -/

/-- A live, non-halting-state configuration with no applicable transition
steps into the reject state without counting a step. -/
theorem Step_implicit_reject (tm : TM) (s : SimState) (h : s.halted = false)
    (ha : s.state ≠ tm.accept) (hr : s.state ≠ tm.reject)
    (hmiss : findTransition tm s = none) :
    Step tm s = { s with state := tm.reject, halted := true } := by
  have hs : ¬(s.state = tm.accept ∨ s.state = tm.reject) := by tauto
  unfold findTransition at hmiss
  unfold Step
  cases hd : deltaFind tm.delta s.state with
  | none => simp [h, hs, hd]
  | some tmap =>
    rw [hd] at hmiss
    simp only [Option.bind] at hmiss
    simp [h, hs, hd, hmiss]

/-- C5: if during a run the transition table has no entry for the current
(state, read symbol) pair and no wildcard entry for the current state, the
run halts rejecting: `Run` reports no acceptance, no budget overrun, and a
step count equal to the number of transitions taken before that point (the
implicit reject does not count as a step). -/
theorem run_implicit_reject (tm : TM) (maxSteps : Nat) (w : List Symbol)
    (n : Nat) (hn : n + 1 ≤ maxSteps) (hd : tm.accept ≠ tm.reject)
    (h : (stepN tm n (Reset tm w)).halted = false)
    (ha : (stepN tm n (Reset tm w)).state ≠ tm.accept)
    (hr : (stepN tm n (Reset tm w)).state ≠ tm.reject)
    (hmiss : findTransition tm (stepN tm n (Reset tm w)) = none) :
    (Run tm maxSteps w).accepted = false ∧
    (Run tm maxSteps w).steps = (stepN tm n (Reset tm w)).steps ∧
    (Run tm maxSteps w).hit_limit = false := by
  have hstep := Step_implicit_reject tm (stepN tm n (Reset tm w)) h ha hr hmiss
  have hfin : stepN tm (n + 1) (Reset tm w) =
      { stepN tm n (Reset tm w) with state := tm.reject, halted := true } := by
    rw [stepN_add tm n 1, stepN, stepN, hstep]
  have hrun := Run_of_halt tm maxSteps w (n + 1) _ hfin rfl hn
  rw [hrun]
  refine ⟨?_, rfl, rfl⟩
  show decide (tm.reject = tm.accept) = false
  exact decide_eq_false fun hc => hd hc.symm

/-- Witness for C5: the one-transition machine `c5TM` on input `a` is in
the transitionless state `q1` after one step; the run rejects with exactly
that one step counted. -/
theorem run_implicit_reject_witness :
    (1 + 1 ≤ 100 ∧ c5TM.accept ≠ c5TM.reject ∧
     (stepN c5TM 1 (Reset c5TM ['a'])).halted = false ∧
     (stepN c5TM 1 (Reset c5TM ['a'])).state ≠ c5TM.accept ∧
     (stepN c5TM 1 (Reset c5TM ['a'])).state ≠ c5TM.reject ∧
     findTransition c5TM (stepN c5TM 1 (Reset c5TM ['a'])) = none) ∧
    ((Run c5TM 100 ['a']).accepted = false ∧
     (Run c5TM 100 ['a']).steps = (stepN c5TM 1 (Reset c5TM ['a'])).steps ∧
     (Run c5TM 100 ['a']).hit_limit = false) :=
  ⟨by decide, run_implicit_reject c5TM 100 ['a'] 1 (by decide) (by decide)
    (by decide) (by decide) (by decide) (by decide)⟩

/-! ## The head index and the late clamp (claim C4) -/

/-- C4 is refuted: on the hand-built machine `c4TM` (a Left move from cell
0), after one step the head index observable through the step-wise
interface is `-1`, the machine has not halted, cell 0 still holds `a`, yet
the next read returns blank (the clamp happens only after the read), and
the run consequently rejects input `a`. -/
theorem c4_head_goes_negative :
    (stepN c4TM 1 (Reset c4TM ['a'])).head = -1 ∧
    (stepN c4TM 1 (Reset c4TM ['a'])).halted = false ∧
    (stepN c4TM 1 (Reset c4TM ['a'])).tape = ['a'] ∧
    readTape (stepN c4TM 1 (Reset c4TM ['a'])).tape
      (stepN c4TM 1 (Reset c4TM ['a'])).head = kBlank ∧
    (Run c4TM 100 ['a']).accepted = false ∧
    (Run c4TM 100 ['a']).steps = 2 := by decide

/-! ## Accept and reject as sinks (claim C6) -/

/-- C6 counterexample: the flagship program compiles without error, and in
the compiled table both the accept state and the reject state have a
(nonempty) row of outgoing entries — the conditional's join wiring adds
them. -/
theorem flagship_accept_reject_rows :
    CompileProgram flagshipProg = Except.ok flagshipLit ∧
    (deltaFind flagshipLit.delta flagshipLit.accept).isSome = true ∧
    (deltaFind flagshipLit.delta flagshipLit.reject).isSome = true :=
  ⟨flagship_compile_ok, by decide, by decide⟩

/-- C6, amended: accept and reject are behavioural sinks — a live
configuration in the accept or the reject state halts immediately,
without consulting the transition table — even though the compiled table
may contain outgoing entries from them. -/
theorem accept_reject_halt_sinks (tm : TM) (s : SimState)
    (h : s.halted = false) (hs : s.state = tm.accept ∨ s.state = tm.reject) :
    Step tm s = { s with halted := true } := by
  unfold Step
  simp [h, hs]

/-- Witness for the amended C6 at the flagship machine's accept state,
which does have outgoing entries. -/
theorem accept_reject_halt_sinks_witness :
    ((false : Bool) = false ∧
     ((State.qA : State) = flagshipLit.accept ∨ (State.qA : State) = flagshipLit.reject)) ∧
    Step flagshipLit { tape := ['>'], head := 0, state := State.qA, steps := 3, halted := false } =
      { tape := ['>'], head := 0, state := State.qA, steps := 3, halted := true } :=
  ⟨by decide, accept_reject_halt_sinks flagshipLit
    { tape := ['>'], head := 0, state := State.qA, steps := 3, halted := false }
    (by decide) (by decide)⟩

/-! ## Auto-declaration of unknown variables (claim C10) -/

/-- Evaluation facts about `p5` (`return count(b) == n` with `n` never
declared): it compiles, the final compiler state shows `n` auto-declared
with the first fresh region index, and the compiled machine treats `n` as
0 — the empty input (0 `b`s) is accepted, input `b` (1 `b`) rejected. -/
theorem p5_unknown_var_ok :
    (CompileProgram p5).isOk = true ∧
    ((CompileProgramState p5).map fun r => r.2.vars.lookup "n") =
      Except.ok (some ⟨0, kOne, kMarked⟩) ∧
    (Run p5TM 200 []).accepted = true ∧
    (Run p5TM 200 ['b']).accepted = false := by decide!

/-- C10: looking up an unknown variable name is not a lowering error:
`GetVar` succeeds and silently declares the name with the next fresh
region index; and a program referencing an undeclared variable (`p5`)
compiles and treats the variable as holding 0. -/
theorem getVar_auto_declares (name : String) (st : CompSt)
    (h : st.vars.lookup name = none) :
    (GetVar name).run st = Except.ok
      (⟨st.next_var_index, kOne, kMarked⟩,
       { st with vars := (name, ⟨st.next_var_index, kOne, kMarked⟩) :: st.vars,
                 next_var_index := st.next_var_index + 1 }) ∧
    (CompileProgram p5).isOk = true ∧
    (Run p5TM 200 []).accepted = true ∧
    (Run p5TM 200 ['b']).accepted = false := by
  refine ⟨?_, p5_unknown_var_ok.1, p5_unknown_var_ok.2.2.1, p5_unknown_var_ok.2.2.2⟩
  simp [GetVar, DeclareVar, StateT.run, h, bind, StateT.bind, get, getThe,
    MonadStateOf.get, StateT.get, set, StateT.set, pure, StateT.pure,
    Except.pure, Except.bind]

/-- Witness for C10: `GetVar "x"` on the constructor state (no variables
declared) succeeds and auto-declares `x` at region 0. -/
theorem getVar_auto_declares_witness :
    (initSt.vars.lookup "x" = none) ∧
    ((GetVar "x").run initSt = Except.ok
      (⟨initSt.next_var_index, kOne, kMarked⟩,
       { initSt with vars := [("x", ⟨initSt.next_var_index, kOne, kMarked⟩)],
                     next_var_index := initSt.next_var_index + 1 }) ∧
     (CompileProgram p5).isOk = true ∧
     (Run p5TM 200 []).accepted = true ∧
     (Run p5TM 200 ['b']).accepted = false) :=
  ⟨by decide, getVar_auto_declares "x" initSt (by decide)⟩

/-! ## The assignment as append (claim C3) -/

/-- C3 is refuted: in `p3` (`y = 1; x = 1; x = x + y`), at the
assignment's exit state (`q23`, the third recorded statement exit), on the
empty input the source region `y` holds the mark `I` instead of its
original `1` — `EmitCopyRegion` never restores the source's marks — so
`y` is not unchanged. -/
theorem p3_assign_exit_marks :
    ((CompileProgramExits p3).map fun r => r.2) =
      Except.ok [State.q 13, State.q 19, State.q 23] ∧
    ((runUntil p3TM (State.q 23) 100 (Reset p3TM [])).map fun c => c.tape) =
      some ['>', '#', 'I', '#', '1', '1'] ∧
    kMarked ∈ (['>', '#', 'I', '#', '1', '1'] : List Symbol) := by decide!

/-! ## Mark restoration at statement exits (claim C2) -/

/-- C2 counterexample: in `p2` (the flagship condition inside an `if` with
empty bodies), at the `if` statement's exit state (`q31`, the second
recorded top-level statement exit), on input `ab` the tape still holds the
upper-cased `B` and the mark `I` — the comparison's marks are not
restored. -/
theorem p2_if_exit_marks :
    ((CompileProgramExits p2).map fun r => r.2) =
      Except.ok [State.q 21, State.q 31] ∧
    ((runUntil p2TM (State.q 31) 100 (Reset p2TM ['a', 'b'])).map fun c => c.tape) =
      some ['>', 'a', 'B', '#', 'I', '_'] ∧
    kMarked ∈ (['>', 'a', 'B', '#', 'I', '_'] : List Symbol) ∧
    'B' ∈ (['>', 'a', 'B', '#', 'I', '_'] : List Symbol) := by decide!

/-! ## The preamble (claim C7) -/

/-- C7 counterexample: the preamble emits no transition for reading the
sentinel `>` itself, so on the input string `>` the flagship machine
implicitly rejects in its start state and never reaches the preamble's
exit state `q1`. -/
theorem preamble_not_reached_on_sentinel :
    runUntil flagshipLit (State.q 1) 100 (Reset flagshipLit ['>']) = none ∧
    (Run flagshipLit 100 ['>']).accepted = false ∧
    (stepN flagshipLit 1 (Reset flagshipLit ['>'])).state = flagshipLit.reject := by
  decide

/-! ## The final tape and the step budget (claim C8) -/

/-- `dropWhile` drops exactly the length of the matching prefix. -/
theorem dropWhile_eq_drop {α : Type} (p : α → Bool) :
    ∀ t : List α, t.dropWhile p = t.drop (t.takeWhile p).length
  | [] => rfl
  | c :: t => by
    cases hp : p c <;>
      simp [List.dropWhile_cons, List.takeWhile_cons, hp, dropWhile_eq_drop p t]

/-- A list with an element failing `p` has a matching prefix shorter than
itself. -/
theorem length_takeWhile_lt_of_exists {α : Type} {p : α → Bool} {u : List α}
    (hx : ∃ x ∈ u, p x = false) : (u.takeWhile p).length < u.length := by
  rcases Nat.lt_or_ge (u.takeWhile p).length u.length with h | h
  · exact h
  · exfalso
    have hlen : (u.takeWhile p).length = u.length :=
      Nat.le_antisymm (u.takeWhile_prefix p).length_le h
    have heq : u.takeWhile p = u := (u.takeWhile_prefix p).eq_of_length hlen
    rcases hx with ⟨x, hmem, hfx⟩
    have := List.takeWhile_eq_self_iff.mp heq x hmem
    simp [hfx] at this

/-- An all-matching list is trimmed by `extractFinal` to nothing. -/
theorem extractFinal_all_blank {u : List Symbol}
    (h : ∀ x ∈ u, (x == kBlank) = true) : extractFinal u = [] := by
  have ht : u.takeWhile (fun c => c == kBlank) = u :=
    List.takeWhile_eq_self_iff.mpr h
  have hr : u.reverse.takeWhile (fun c => c == kBlank) = u.reverse :=
    List.takeWhile_eq_self_iff.mpr (by simpa using h)
  rw [extractFinal]
  simp only [ht, hr, List.length_reverse]
  rw [if_neg (by omega)]

/-- Congruence for `take` in a count given by different arithmetic. -/
theorem take_congr {α : Type} (u : List α) {A B : Nat} (h : A = B) :
    u.take A = u.take B := by rw [h]

/-- The index loops of `Simulator::Run` compute exactly the spec's trim:
the tape with all leading and trailing blanks removed. -/
theorem extractFinal_eq_trimBlanks : ∀ t : List Symbol,
    extractFinal t = trimBlanks t := by
  intro t
  induction t with
  | nil => rfl
  | cons c t ih =>
    by_cases hp : (c == kBlank) = true
    · -- a leading blank: both sides reduce to the tail
      have htrim : trimBlanks (c :: t) = trimBlanks t := by
        simp [trimBlanks, List.dropWhile_cons, hp]
      rw [htrim, ← ih]
      by_cases hall : ∀ x ∈ t, (x == kBlank) = true
      · rw [extractFinal_all_blank hall, extractFinal_all_blank (fun x hx => by
          rcases List.mem_cons.mp hx with rfl | hx
          · exact hp
          · exact hall x hx)]
      · push_neg at hall
        have hex : ∃ x ∈ t, (x == kBlank) = false := by
          rcases hall with ⟨x, hmem, hne⟩
          exact ⟨x, hmem, by simpa using hne⟩
        have hexr : ∃ x ∈ t.reverse, (x == kBlank) = false := by
          rcases hex with ⟨x, hmem, hne⟩
          exact ⟨x, List.mem_reverse.mpr hmem, hne⟩
        have hm : ((c :: t).reverse.takeWhile (fun c => c == kBlank)).length =
            (t.reverse.takeWhile (fun c => c == kBlank)).length := by
          rw [List.reverse_cons, List.takeWhile_append]
          rw [if_neg (by have := length_takeWhile_lt_of_exists hexr; omega)]
        have hl : ((c :: t).takeWhile (fun c => c == kBlank)).length =
            (t.takeWhile (fun c => c == kBlank)).length + 1 := by
          rw [@List.takeWhile_cons_of_pos Symbol (fun x => x == kBlank) c t hp,
            List.length_cons]
        rw [extractFinal, extractFinal]
        simp only [hm, hl, List.length_cons]
        by_cases hg : ((t.takeWhile (fun c => c == kBlank)).length : Int) ≤
            (t.length : Int) - 1 - ((t.reverse.takeWhile (fun c => c == kBlank)).length : Int)
        · rw [if_pos (by push_cast; push_cast at hg; omega), if_pos (by push_cast at hg ⊢; omega)]
          rw [List.drop_succ_cons]
          apply take_congr
          omega
        · rw [if_neg (by push_cast; push_cast at hg; omega), if_neg (by push_cast at hg ⊢; omega)]
    · -- a non-blank head: no leading blank is removed on either side
      have hp' : (c == kBlank) = false := by simpa using hp
      have hm : ((c :: t).reverse.takeWhile (fun c => c == kBlank)).length ≤ t.length := by
        have hx : ∃ x ∈ (c :: t).reverse, (x == kBlank) = false :=
          ⟨c, by simp, hp'⟩
        have := length_takeWhile_lt_of_exists hx
        simpa using Nat.lt_succ_iff.mp (by simpa using this)
      have hl : ((c :: t).takeWhile (fun c => c == kBlank)).length = 0 := by
        rw [@List.takeWhile_cons_of_neg Symbol (fun x => x == kBlank) c t hp]
        rfl
      have hrdrop : ((c :: t).reverse.dropWhile (fun c => c == kBlank)).reverse =
          (c :: t).take ((c :: t).length -
            ((c :: t).reverse.takeWhile (fun c => c == kBlank)).length) := by
        rw [dropWhile_eq_drop, ← List.rdrop_eq_reverse_drop_reverse, List.rdrop]
      have htrim : trimBlanks (c :: t) =
          (c :: t).take ((c :: t).length -
            ((c :: t).reverse.takeWhile (fun c => c == kBlank)).length) := by
        rw [trimBlanks, @List.dropWhile_cons_of_neg Symbol (fun x => x == kBlank) c t hp,
          hrdrop]
      rw [htrim, extractFinal]
      simp only [hl, List.length_cons]
      rw [if_pos (by push_cast; omega)]
      rw [List.drop_zero]
      apply take_congr
      omega

/-- `hit_limit` is precisely "the loop ended without the machine having
halted". -/
theorem run_hit_limit_eq (tm : TM) (maxSteps : Nat) (w : List Symbol) :
    (Run tm maxSteps w).hit_limit =
      !(runAux tm maxSteps (maxSteps + 2) (Reset tm w)).halted := by
  unfold Run
  cases hh : (runAux tm maxSteps (maxSteps + 2) (Reset tm w)).halted with
  | true => simp [hh]
  | false =>
    have := runAux_spec tm maxSteps (maxSteps + 2) (Reset tm w)
      (by simp [Reset])
    rcases this with h | h
    · rw [hh] at h; cases h
    · simp [hh, h]

/-- C8: `Run` reports as `final_tape` the loop's final tape with all
leading and trailing blanks removed, and `hit_limit` holds iff the machine
had not halted when the loop ended (the budget was exhausted); in
particular `hit_limit` is false on every genuine accept or reject halt. -/
theorem run_final_tape_hit_limit (tm : TM) (maxSteps : Nat) (w : List Symbol) :
    (Run tm maxSteps w).final_tape =
      trimBlanks (runAux tm maxSteps (maxSteps + 2) (Reset tm w)).tape ∧
    ((Run tm maxSteps w).hit_limit = true ↔
      (runAux tm maxSteps (maxSteps + 2) (Reset tm w)).halted = false) := by
  constructor
  · show extractFinal _ = _
    exact extractFinal_eq_trimBlanks _
  · rw [run_hit_limit_eq]
    cases (runAux tm maxSteps (maxSteps + 2) (Reset tm w)).halted <;> simp

/-! ## Finalise and Validate (claim C9)

`std::set<char>` is represented by a strictly sorted list; `symInsert` is
its insert.  The lemmas below show the representation invariant is kept
and that inserting a present element is the identity, which gives the
idempotence of `TM::Finalize`.  `TM::Validate` is a `const` member
computing a `bool`; its purity is reflected by its embedding as the plain
function `TM.Validate : TM → Bool`. -/

/-- What `symInsert` contains. -/
theorem mem_symInsert_iff {z x : Symbol} : ∀ {l : List Symbol},
    z ∈ symInsert x l ↔ z = x ∨ z ∈ l := by
  intro l
  induction l with
  | nil => simp [symInsert]
  | cons y rest ih =>
    by_cases h1 : x < y
    · simp [symInsert, h1] <;> tauto
    · by_cases h2 : x = y
      · subst h2
        simp [symInsert, h1] <;> tauto
      · simp [symInsert, h1, h2, ih] <;> tauto

/-- `symInsert` keeps the list strictly sorted. -/
theorem symInsert_pairwise (x : Symbol) : ∀ {l : List Symbol},
    l.Pairwise (· < ·) → (symInsert x l).Pairwise (· < ·) := by
  intro l
  induction l with
  | nil => intro _; simp [symInsert]
  | cons y rest ih =>
    intro h
    rcases List.pairwise_cons.mp h with ⟨hy, hrest⟩
    by_cases h1 : x < y
    · rw [symInsert, if_pos h1]
      exact List.pairwise_cons.mpr ⟨fun z hz => by
        rcases List.mem_cons.mp hz with rfl | hz
        · exact h1
        · exact lt_trans h1 (hy z hz), h⟩
    · by_cases h2 : x = y
      · rw [symInsert, if_neg h1, if_pos h2]
        exact h
      · rw [symInsert, if_neg h1, if_neg h2]
        refine List.pairwise_cons.mpr ⟨fun z hz => ?_, ih hrest⟩
        rcases mem_symInsert_iff.mp hz with rfl | hz
        · rcases lt_trichotomy z y with h3 | h3 | h3
          · exact absurd h3 h1
          · exact absurd h3 h2
          · exact h3
        · exact hy z hz

/-- Inserting an element already present in a strictly sorted list is the
identity. -/
theorem symInsert_of_mem {x : Symbol} : ∀ {l : List Symbol},
    l.Pairwise (· < ·) → x ∈ l → symInsert x l = l := by
  intro l
  induction l with
  | nil => intro _ h; cases h
  | cons y rest ih =>
    intro hp hm
    rcases List.pairwise_cons.mp hp with ⟨hy, hrest⟩
    rcases List.mem_cons.mp hm with rfl | hm
    · rw [symInsert, if_neg (lt_irrefl x), if_pos rfl]
    · have hyx : y < x := hy x hm
      rw [symInsert, if_neg (by exact fun h => absurd (lt_trans h hyx) (lt_irrefl x)),
        if_neg (by exact fun h => absurd (h ▸ hyx) (lt_irrefl x)), ih hrest hm]

/-- Membership is preserved by the alphabet fold of `TM::Finalize`. -/
theorem mem_foldl_symInsert {y : Symbol} : ∀ (xs acc : List Symbol),
    y ∈ acc ∨ y ∈ xs → y ∈ xs.foldl (fun a s => symInsert s a) acc := by
  intro xs
  induction xs with
  | nil => intro acc h; rcases h with h | h; exact h; cases h
  | cons x rest ih =>
    intro acc h
    rw [List.foldl_cons]
    apply ih
    rcases h with h | h
    · exact Or.inl (mem_symInsert_iff.mpr (Or.inr h))
    · rcases List.mem_cons.mp h with rfl | h
      · exact Or.inl (mem_symInsert_iff.mpr (Or.inl rfl))
      · exact Or.inr h

/-- The alphabet fold keeps the list strictly sorted. -/
theorem foldl_symInsert_pairwise : ∀ (xs acc : List Symbol),
    acc.Pairwise (· < ·) →
    (xs.foldl (fun a s => symInsert s a) acc).Pairwise (· < ·) := by
  intro xs
  induction xs with
  | nil => intro acc h; exact h
  | cons x rest ih =>
    intro acc h
    rw [List.foldl_cons]
    exact ih _ (symInsert_pairwise x h)

/-- Folding in symbols that are already present changes nothing. -/
theorem foldl_symInsert_of_subset : ∀ (xs acc : List Symbol),
    acc.Pairwise (· < ·) → (∀ s ∈ xs, s ∈ acc) →
    xs.foldl (fun a s => symInsert s a) acc = acc := by
  intro xs
  induction xs with
  | nil => intro acc _ _; rfl
  | cons x rest ih =>
    intro acc hp hsub
    rw [List.foldl_cons, symInsert_of_mem hp (hsub x (by simp))]
    exact ih acc hp (fun s hs => hsub s (by simp [hs]))

/-- `stInsert` contains the inserted element. -/
theorem mem_stInsert_self (x : State) (l : List State) : x ∈ stInsert x l := by
  rw [stInsert]
  split
  · assumption
  · simp

/-- `stInsert` keeps the old elements. -/
theorem mem_stInsert_of_mem {y : State} (x : State) {l : List State}
    (h : y ∈ l) : y ∈ stInsert x l := by
  rw [stInsert]
  split
  · exact h
  · simp [h]

/-- Inserting a present state is the identity. -/
theorem stInsert_of_mem {x : State} {l : List State} (h : x ∈ l) :
    stInsert x l = l := by
  rw [stInsert, if_pos h]

/-- C9: for a machine whose tape alphabet satisfies the `std::set`
representation invariant (strictly sorted), finalising twice equals
finalising once; after finalisation the blank is in the tape alphabet, the
input alphabet is contained in the tape alphabet, and the start, accept
and reject states are in the state set.  (`TM::Validate` is a `const`
member; it is embedded as the pure function `TM.Validate : TM → Bool`, so
it cannot modify the machine.) -/
theorem finalize_idempotent_closure (m : TM)
    (hts : m.tape_alphabet.Pairwise (· < ·)) :
    (m.Finalize).Finalize = m.Finalize ∧
    kBlank ∈ m.Finalize.tape_alphabet ∧
    (∀ s ∈ m.input_alphabet, s ∈ m.Finalize.tape_alphabet) ∧
    m.Finalize.start ∈ m.Finalize.states ∧
    m.Finalize.accept ∈ m.Finalize.states ∧
    m.Finalize.reject ∈ m.Finalize.states := by
  have hta1 : m.Finalize.tape_alphabet.Pairwise (· < ·) :=
    foldl_symInsert_pairwise _ _ (symInsert_pairwise kBlank hts)
  have hblank : kBlank ∈ m.Finalize.tape_alphabet :=
    mem_foldl_symInsert _ _ (Or.inl (mem_symInsert_iff.mpr (Or.inl rfl)))
  have hinput : ∀ s ∈ m.input_alphabet, s ∈ m.Finalize.tape_alphabet :=
    fun s hs => mem_foldl_symInsert _ _ (Or.inr hs)
  refine ⟨?_, hblank, hinput, ?_, ?_, ?_⟩
  · have hT : m.Finalize.input_alphabet.foldl (fun a s => symInsert s a)
        (symInsert kBlank m.Finalize.tape_alphabet) = m.Finalize.tape_alphabet := by
      rw [show m.Finalize.input_alphabet = m.input_alphabet from rfl,
        symInsert_of_mem hta1 hblank]
      exact foldl_symInsert_of_subset _ _ hta1 hinput
    have hstart : m.Finalize.start ∈ m.Finalize.states :=
      mem_stInsert_of_mem _ (mem_stInsert_of_mem _ (mem_stInsert_self _ _))
    have haccept : m.Finalize.accept ∈ m.Finalize.states :=
      mem_stInsert_of_mem _ (mem_stInsert_self _ _)
    have hreject : m.Finalize.reject ∈ m.Finalize.states :=
      mem_stInsert_self _ _
    have hS : stInsert m.Finalize.reject (stInsert m.Finalize.accept
        (stInsert m.Finalize.start m.Finalize.states)) = m.Finalize.states := by
      rw [stInsert_of_mem hstart, stInsert_of_mem haccept, stInsert_of_mem hreject]
    show ({ m.Finalize with
      tape_alphabet := m.Finalize.input_alphabet.foldl (fun a s => symInsert s a)
        (symInsert kBlank m.Finalize.tape_alphabet),
      states := stInsert m.Finalize.reject (stInsert m.Finalize.accept
        (stInsert m.Finalize.start m.Finalize.states)) } : TM) = m.Finalize
    rw [hT, hS]
  · exact mem_stInsert_of_mem _ (mem_stInsert_of_mem _ (mem_stInsert_self _ _))
  · exact mem_stInsert_of_mem _ (mem_stInsert_self _ _)
  · exact mem_stInsert_self _ _

/-- Witness for C9 on the small machine `c9m`. -/
theorem finalize_idempotent_closure_witness :
    (c9m.tape_alphabet.Pairwise (· < ·)) ∧
    ((c9m.Finalize).Finalize = c9m.Finalize ∧
     kBlank ∈ c9m.Finalize.tape_alphabet ∧
     (∀ s ∈ c9m.input_alphabet, s ∈ c9m.Finalize.tape_alphabet) ∧
     c9m.Finalize.start ∈ c9m.Finalize.states ∧
     c9m.Finalize.accept ∈ c9m.Finalize.states ∧
     c9m.Finalize.reject ∈ c9m.Finalize.states) :=
  ⟨by decide, finalize_idempotent_closure c9m (by decide)⟩

/-! ## Symbolic execution of the flagship machine

The remaining claims quantify over every input string, so the flagship
machine is executed symbolically: single-step equations over tapes of the
form `pre ++ c :: post`, sweep lemmas for its self-looping scan states,
and one big-step lemma per compiled phase. -/

/-- Reading at the boundary of a decomposed tape. -/
theorem readAt_append : ∀ (pre : List Symbol) (c : Symbol) (post : List Symbol),
    readAt (pre ++ c :: post) pre.length = c
  | [], c, post => rfl
  | _ :: pre, c, post => readAt_append pre c post

/-- Reading past the end of the tape gives blank. -/
theorem readAt_of_ge : ∀ (t : List Symbol) (n : Nat), t.length ≤ n →
    readAt t n = kBlank
  | [], _, _ => rfl
  | _ :: t, n + 1, h => readAt_of_ge t n (Nat.le_of_succ_le_succ h)

/-- No padding happens when the needed index exists. -/
theorem padTo_of_le : ∀ (t : List Symbol) (n : Nat), n ≤ t.length →
    padTo t n = t
  | [], 0, _ => rfl
  | _ :: _, 0, _ => rfl
  | [], n + 1, h => absurd h (by simp)
  | c :: t, n + 1, h => by
    show c :: padTo t n = c :: t
    rw [padTo_of_le t n (Nat.le_of_succ_le_succ h)]

/-- Padding one cell past the end appends one blank. -/
theorem padTo_succ_length : ∀ t : List Symbol,
    padTo t (t.length + 1) = t ++ [kBlank]
  | [] => rfl
  | c :: t => by
    show c :: padTo t (t.length + 1) = (c :: t) ++ [kBlank]
    rw [padTo_succ_length t]
    rfl

/-- Writing at the boundary of a decomposed tape. -/
theorem set_append_length : ∀ (pre : List Symbol) (c d : Symbol) (post : List Symbol),
    (pre ++ c :: post).set pre.length d = pre ++ d :: post
  | [], c, d, post => rfl
  | e :: pre, c, d, post => by
    rw [List.cons_append, List.length_cons, List.set_cons_succ,
      set_append_length pre c d post, List.cons_append]

/-- One step of the flagship machine at a cell inside the tape. -/
theorem fs_step (i : Nat) (pre : List Symbol) (c : Symbol) (post : List Symbol)
    (k : Nat) (tr : Transition)
    (htr : fsTrans (State.q i) c = some tr) (hw : tr.write ≠ kWildcard) :
    Step flagshipLit (cfg (pre ++ c :: post) (pre.length) (State.q i) k) =
      { tape := pre ++ tr.write :: post,
        head := match tr.dir with
                | Dir.L => (pre.length : Int) - 1
                | Dir.R => (pre.length : Int) + 1
                | Dir.S => (pre.length : Int),
        state := tr.next, steps := k + 1,
        halted := decide (tr.next = State.qA ∨ tr.next = State.qR) } := by
  have hacc : ¬((State.q i : State) = flagshipLit.accept ∨
      (State.q i : State) = flagshipLit.reject) := by
    rintro (h | h) <;> exact State.noConfusion h
  rw [fsTrans] at htr
  rcases hd : deltaFind flagshipLit.delta (State.q i) with _ | row
  · rw [hd] at htr; cases htr
  · rw [hd] at htr
    have htr' : lookupTrans row c = some tr := htr
    have hread : readTape (pre ++ c :: post) ((pre.length : Nat) : Int) = c := by
      rw [readTape, if_neg (by omega)]
      simp only [Int.toNat_natCast]
      exact readAt_append pre c post
    unfold Step cfg
    simp only [if_neg hacc, Bool.false_eq_true, if_false, hread, hd, htr']
    have hh0 : ¬((pre.length : Int) < 0) := by omega
    rw [if_neg hh0]
    simp only [Int.toNat_natCast]
    rw [padTo_of_le _ _ (by simp), if_neg hw, set_append_length]
    rfl

/-- One step of the flagship machine reading the blank just past the end
of the tape (the write extends the tape by one cell). -/
theorem fs_step_end (i : Nat) (t : List Symbol) (k : Nat) (tr : Transition)
    (htr : fsTrans (State.q i) kBlank = some tr) (hw : tr.write ≠ kWildcard) :
    Step flagshipLit (cfg t (t.length) (State.q i) k) =
      { tape := t ++ [tr.write],
        head := match tr.dir with
                | Dir.L => (t.length : Int) - 1
                | Dir.R => (t.length : Int) + 1
                | Dir.S => (t.length : Int),
        state := tr.next, steps := k + 1,
        halted := decide (tr.next = State.qA ∨ tr.next = State.qR) } := by
  have hacc : ¬((State.q i : State) = flagshipLit.accept ∨
      (State.q i : State) = flagshipLit.reject) := by
    rintro (h | h) <;> exact State.noConfusion h
  rw [fsTrans] at htr
  rcases hd : deltaFind flagshipLit.delta (State.q i) with _ | row
  · rw [hd] at htr; cases htr
  · rw [hd] at htr
    have htr' : lookupTrans row kBlank = some tr := htr
    have hread : readTape t ((t.length : Nat) : Int) = kBlank := by
      rw [readTape, if_neg (by omega)]
      simp only [Int.toNat_natCast]
      exact readAt_of_ge t t.length (Nat.le_refl _)
    unfold Step cfg
    simp only [if_neg hacc, Bool.false_eq_true, if_false, hread, hd, htr']
    have hh0 : ¬((t.length : Int) < 0) := by omega
    rw [if_neg hh0]
    simp only [Int.toNat_natCast]
    rw [padTo_succ_length, if_neg hw, set_append_length t kBlank tr.write []]
    rfl

/-- Reflexivity of `ReachesIn`. -/
theorem reachesIn_refl (tm : TM) (N : Nat) (t : List Symbol) (h : Int)
    (q : State) (k : Nat) : ReachesIn tm N t h q k t h q :=
  ⟨0, Nat.zero_le _, rfl⟩

/-- Transitivity of `ReachesIn` (for every starting step counter). -/
theorem reachesIn_trans {tm : TM} {N M : Nat} {t t' t'' : List Symbol}
    {h h' h'' : Int} {q q' q'' : State}
    (h1 : ∀ k, ReachesIn tm N t h q k t' h' q')
    (h2 : ∀ k, ReachesIn tm M t' h' q' k t'' h'' q'') :
    ∀ k, ReachesIn tm (N + M) t h q k t'' h'' q'' := by
  intro k
  rcases h1 k with ⟨n1, hn1, hs1⟩
  rcases h2 (k + n1) with ⟨n2, hn2, hs2⟩
  refine ⟨n1 + n2, by omega, ?_⟩
  rw [stepN_add, hs1, hs2]
  have : k + n1 + n2 = k + (n1 + n2) := by omega
  rw [this]

/-- A single step as a `ReachesIn`. -/
theorem reachesIn_single {tm : TM} {t t' : List Symbol} {h h' : Int}
    {q q' : State} {k : Nat}
    (hstep : Step tm (cfg t h q k) = cfg t' h' q' (k + 1)) :
    ReachesIn tm 1 t h q k t' h' q' :=
  ⟨1, Nat.le_refl _, by rw [stepN, stepN, hstep]⟩

/-- Growing the step budget of a `ReachesIn`. -/
theorem reachesIn_mono {tm : TM} {N M : Nat} {t t' : List Symbol}
    {h h' : Int} {q q' : State} {k : Nat} (hNM : N ≤ M)
    (hr : ReachesIn tm N t h q k t' h' q') : ReachesIn tm M t h q k t' h' q' := by
  rcases hr with ⟨n, hn, hs⟩
  exact ⟨n, by omega, hs⟩

/-- Congruence in the tape and head of a configuration. -/
theorem cfg_congr {t t' : List Symbol} {h h' : Int} {q : State} {k : Nat}
    (ht : t = t') (hh : h = h') : cfg t h q k = cfg t' h' q k := by
  rw [ht, hh]

/-- A generated state is never the accept or reject sink. -/
theorem q_not_halt (i : Nat) :
    decide ((State.q i = State.qA) ∨ (State.q i = State.qR)) = false :=
  decide_eq_false (by rintro (h | h) <;> exact State.noConfusion h)

/-- A mid-tape step that moves Right into another generated state. -/
theorem fs_stepR (i j : Nat) (pre : List Symbol) (c : Symbol)
    (post : List Symbol) (k : Nat) (w : Symbol)
    (htr : fsTrans (State.q i) c = some ⟨c, w, Dir.R, State.q j⟩)
    (hw : w ≠ kWildcard) :
    Step flagshipLit (cfg (pre ++ c :: post) (pre.length) (State.q i) k) =
      cfg (pre ++ w :: post) ((pre.length : Int) + 1) (State.q j) (k + 1) := by
  rw [fs_step i pre c post k _ htr hw]
  unfold cfg
  rw [q_not_halt j]

/-- A mid-tape step that moves Left into another generated state. -/
theorem fs_stepL (i j : Nat) (pre : List Symbol) (c : Symbol)
    (post : List Symbol) (k : Nat) (w : Symbol)
    (htr : fsTrans (State.q i) c = some ⟨c, w, Dir.L, State.q j⟩)
    (hw : w ≠ kWildcard) :
    Step flagshipLit (cfg (pre ++ c :: post) (pre.length) (State.q i) k) =
      cfg (pre ++ w :: post) ((pre.length : Int) - 1) (State.q j) (k + 1) := by
  rw [fs_step i pre c post k _ htr hw]
  unfold cfg
  rw [q_not_halt j]

/-- A mid-tape step that stays put, into another generated state. -/
theorem fs_stepS (i j : Nat) (pre : List Symbol) (c : Symbol)
    (post : List Symbol) (k : Nat) (w : Symbol)
    (htr : fsTrans (State.q i) c = some ⟨c, w, Dir.S, State.q j⟩)
    (hw : w ≠ kWildcard) :
    Step flagshipLit (cfg (pre ++ c :: post) (pre.length) (State.q i) k) =
      cfg (pre ++ w :: post) (pre.length) (State.q j) (k + 1) := by
  rw [fs_step i pre c post k _ htr hw]
  unfold cfg
  rw [q_not_halt j]

/-- A step past the end of the tape that appends its write and moves
Left. -/
theorem fs_stepL_end (i j : Nat) (t : List Symbol) (k : Nat) (w : Symbol)
    (htr : fsTrans (State.q i) kBlank = some ⟨kBlank, w, Dir.L, State.q j⟩)
    (hw : w ≠ kWildcard) :
    Step flagshipLit (cfg t (t.length) (State.q i) k) =
      cfg (t ++ [w]) ((t.length : Int) - 1) (State.q j) (k + 1) := by
  rw [fs_step_end i t k _ htr hw]
  unfold cfg
  rw [q_not_halt j]

/-- A step past the end of the tape that appends its write and stays. -/
theorem fs_stepS_end (i j : Nat) (t : List Symbol) (k : Nat) (w : Symbol)
    (htr : fsTrans (State.q i) kBlank = some ⟨kBlank, w, Dir.S, State.q j⟩)
    (hw : w ≠ kWildcard) :
    Step flagshipLit (cfg t (t.length) (State.q i) k) =
      cfg (t ++ [w]) (t.length) (State.q j) (k + 1) := by
  rw [fs_step_end i t k _ htr hw]
  unfold cfg
  rw [q_not_halt j]

/-- A halting mid-tape step (into accept or reject). -/
theorem fs_step_halt (i : Nat) (q' : State) (pre : List Symbol) (c : Symbol)
    (post : List Symbol) (k : Nat)
    (htr : fsTrans (State.q i) c = some ⟨c, c, Dir.S, q'⟩)
    (hw : c ≠ kWildcard) (hq : q' = State.qA ∨ q' = State.qR) :
    Step flagshipLit (cfg (pre ++ c :: post) (pre.length) (State.q i) k) =
      { tape := pre ++ c :: post, head := (pre.length : Int), state := q',
        steps := k + 1, halted := true } := by
  rw [fs_step i pre c post k _ htr hw]
  rw [decide_eq_true hq]

/-- A halting step past the end of the tape (into accept or reject). -/
theorem fs_step_halt_end (i : Nat) (q' : State) (t : List Symbol) (k : Nat)
    (htr : fsTrans (State.q i) kBlank = some ⟨kBlank, kBlank, Dir.S, q'⟩)
    (hq : q' = State.qA ∨ q' = State.qR) :
    Step flagshipLit (cfg t (t.length) (State.q i) k) =
      { tape := t ++ [kBlank], head := (t.length : Int), state := q',
        steps := k + 1, halted := true } := by
  rw [fs_step_end i t k _ htr (show kBlank ≠ kWildcard by decide)]
  rw [decide_eq_true hq]

/-- A right sweep of a self-looping state: every symbol of the segment is
read, written back unchanged, and passed Rightward. -/
theorem sweepR_id (i : Nat) : ∀ (seg : List Symbol),
    (∀ c ∈ seg, fsTrans (State.q i) c = some ⟨c, c, Dir.R, State.q i⟩ ∧ c ≠ kWildcard) →
    ∀ (pre post : List Symbol) (k : Nat),
      ReachesIn flagshipLit seg.length (pre ++ seg ++ post) (pre.length)
        (State.q i) k (pre ++ seg ++ post) ((pre.length + seg.length : Nat))
        (State.q i) := by
  intro seg
  induction seg with
  | nil =>
    intro _ pre post k
    exact ⟨0, Nat.zero_le _, by simp [stepN, cfg]⟩
  | cons c rest ih =>
    intro hseg pre post k
    rcases hseg c (by simp) with ⟨htr, hw⟩
    have hstep : ∀ k', Step flagshipLit (cfg (pre ++ (c :: rest) ++ post)
        (pre.length) (State.q i) k') =
        cfg ((pre ++ [c]) ++ rest ++ post) (((pre ++ [c]).length : Nat))
          (State.q i) (k' + 1) := by
      intro k'
      rw [show pre ++ (c :: rest) ++ post = pre ++ c :: (rest ++ post) by simp]
      rw [fs_stepR i i pre c (rest ++ post) k' c htr hw]
      exact cfg_congr (by simp) (by simp)
    have h2 := ih (fun d hd => hseg d (by simp [hd])) (pre ++ [c]) post
    have hall := reachesIn_trans (fun k' => reachesIn_single (hstep k')) h2 k
    have e1 : (pre ++ [c]) ++ rest ++ post = pre ++ (c :: rest) ++ post := by simp
    have e2 : (((pre ++ [c]).length + rest.length : Nat) : Int) =
        ((pre.length + (c :: rest).length : Nat) : Int) := by
      simp only [List.length_append, List.length_cons, List.length_nil]
      push_cast
      omega
    rw [e1, e2] at hall
    exact reachesIn_mono (by simp only [List.length_cons]; omega) hall

/-- A right sweep of a self-looping state that rewrites each symbol. -/
theorem sweepR_map (i : Nat) (f : Symbol → Symbol) : ∀ (seg : List Symbol),
    (∀ c ∈ seg, fsTrans (State.q i) c = some ⟨c, f c, Dir.R, State.q i⟩ ∧ f c ≠ kWildcard) →
    ∀ (pre post : List Symbol) (k : Nat),
      ReachesIn flagshipLit seg.length (pre ++ seg ++ post) (pre.length)
        (State.q i) k (pre ++ seg.map f ++ post)
        ((pre.length + seg.length : Nat)) (State.q i) := by
  intro seg
  induction seg with
  | nil =>
    intro _ pre post k
    exact ⟨0, Nat.zero_le _, by simp [stepN, cfg]⟩
  | cons c rest ih =>
    intro hseg pre post k
    rcases hseg c (by simp) with ⟨htr, hw⟩
    have hstep : ∀ k', Step flagshipLit (cfg (pre ++ (c :: rest) ++ post)
        (pre.length) (State.q i) k') =
        cfg ((pre ++ [f c]) ++ rest ++ post) (((pre ++ [f c]).length : Nat))
          (State.q i) (k' + 1) := by
      intro k'
      rw [show pre ++ (c :: rest) ++ post = pre ++ c :: (rest ++ post) by simp]
      rw [fs_stepR i i pre c (rest ++ post) k' (f c) htr hw]
      exact cfg_congr (by simp) (by simp)
    have h2 := ih (fun d hd => hseg d (by simp [hd])) (pre ++ [f c]) post
    have hall := reachesIn_trans (fun k' => reachesIn_single (hstep k')) h2 k
    have e1 : (pre ++ [f c]) ++ rest.map f ++ post = pre ++ (c :: rest).map f ++ post := by
      simp
    have e2 : (((pre ++ [f c]).length + rest.length : Nat) : Int) =
        ((pre.length + (c :: rest).length : Nat) : Int) := by
      simp only [List.length_append, List.length_cons, List.length_nil]
      push_cast
      omega
    rw [e1, e2] at hall
    exact reachesIn_mono (by simp only [List.length_cons]; omega) hall

/-- A left sweep of a self-looping state, from the last cell of the
segment to the cell just before the segment. -/
theorem sweepL_id (i : Nat) : ∀ (seg : List Symbol),
    (∀ c ∈ seg, fsTrans (State.q i) c = some ⟨c, c, Dir.L, State.q i⟩ ∧ c ≠ kWildcard) →
    ∀ (pre post : List Symbol) (k : Nat),
      ReachesIn flagshipLit seg.length (pre ++ seg ++ post)
        ((pre.length : Int) + seg.length - 1) (State.q i) k
        (pre ++ seg ++ post) ((pre.length : Int) - 1) (State.q i) := by
  intro seg
  induction seg using List.reverseRecOn with
  | nil =>
    intro _ pre post k
    exact ⟨0, Nat.zero_le _, by simp [stepN, cfg]⟩
  | append_singleton rest c ih =>
    intro hseg pre post k
    rcases hseg c (by simp) with ⟨htr, hw⟩
    have hstep : ∀ k', Step flagshipLit (cfg (pre ++ (rest ++ [c]) ++ post)
        ((pre.length : Int) + (rest ++ [c]).length - 1) (State.q i) k') =
        cfg (pre ++ (rest ++ [c]) ++ post) ((pre.length : Int) + rest.length - 1)
          (State.q i) (k' + 1) := by
      intro k'
      have et : pre ++ (rest ++ [c]) ++ post = (pre ++ rest) ++ c :: post := by simp
      have eh : (pre.length : Int) + (rest ++ [c]).length - 1 =
          (((pre ++ rest).length : Nat) : Int) := by simp; omega
      rw [cfg_congr et eh, fs_stepL i i (pre ++ rest) c post k' c htr hw]
      exact cfg_congr (by simp) (by simp <;> omega)
    have h2 := ih (fun d hd => hseg d (by simp [hd])) pre (c :: post)
    have e1 : pre ++ rest ++ c :: post = pre ++ (rest ++ [c]) ++ post := by simp
    have e2 : (pre.length : Int) + rest.length - 1 = (pre.length : Int) + rest.length - 1 := rfl
    rw [e1] at h2
    have hall := reachesIn_trans (fun k' => reachesIn_single (hstep k')) h2 k
    exact reachesIn_mono (by simp; omega) hall

/-- A rewind: sweep Left over the cells `1 .. u.length` (holding `u`),
read the sentinel `>` at cell 0 and step Right into the exit state. -/
theorem fs_rewind (i j : Nat) (u : List Symbol)
    (hL : ∀ c ∈ u, fsTrans (State.q i) c = some ⟨c, c, Dir.L, State.q i⟩ ∧ c ≠ kWildcard)
    (hgt : fsTrans (State.q i) kLeftEnd = some ⟨kLeftEnd, kLeftEnd, Dir.R, State.q j⟩) :
    ∀ (post : List Symbol) (k : Nat),
      ReachesIn flagshipLit (u.length + 1) (kLeftEnd :: u ++ post)
        ((u.length : Nat)) (State.q i) k (kLeftEnd :: u ++ post) 1 (State.q j) := by
  intro post k
  have h1 := sweepL_id i u hL [kLeftEnd] post
  have e1 : [kLeftEnd] ++ u ++ post = kLeftEnd :: u ++ post := by simp
  have e2 : (([kLeftEnd] : List Symbol).length : Int) + u.length - 1 = ((u.length : Nat) : Int) := by
    simp
  have e3 : (([kLeftEnd] : List Symbol).length : Int) - 1 = ((0 : Nat) : Int) := by simp
  rw [e1, e2, e3] at h1
  have hstep : ∀ k', Step flagshipLit (cfg (kLeftEnd :: u ++ post) ((0 : Nat))
      (State.q i) k') = cfg (kLeftEnd :: u ++ post) 1 (State.q j) (k' + 1) := by
    intro k'
    have et : kLeftEnd :: u ++ post = [] ++ kLeftEnd :: (u ++ post) := by simp
    rw [cfg_congr et (show ((0 : Nat) : Int) = (([] : List Symbol).length : Int) by simp),
      fs_stepR i j [] kLeftEnd (u ++ post) k' kLeftEnd hgt
        (show kLeftEnd ≠ kWildcard by decide)]
    exact cfg_congr (by simp) (by simp)
  have hall := reachesIn_trans h1 (fun k' => reachesIn_single (hstep k')) k
  exact hall

/-! ### The preamble phase -/

/-- The start state shifts the first input symbol into its carry state,
writing the sentinel. -/
theorem row0_ab {d : Symbol} (hd : d = 'a' ∨ d = 'b') :
    fsTrans (State.q 0) d = some ⟨d, kLeftEnd, Dir.R, carrySt d⟩ := by
  rcases hd with rfl | rfl <;> decide

/-- A carry state writes its carried symbol and picks up the read one. -/
theorem carry_trans {c d : Symbol} (hc : c = 'a' ∨ c = 'b')
    (hd : d = 'a' ∨ d = 'b') :
    fsTrans (carrySt c) d = some ⟨d, c, Dir.R, carrySt d⟩ := by
  rcases hc with rfl | rfl <;> rcases hd with rfl | rfl <;> decide

/-- A carry state on blank deposits its carried symbol and turns Left into
the preamble rewind. -/
theorem carry_blank {c : Symbol} (hc : c = 'a' ∨ c = 'b') :
    fsTrans (carrySt c) kBlank = some ⟨kBlank, c, Dir.L, State.q 9⟩ := by
  rcases hc with rfl | rfl <;> decide

/-- The preamble rewind sweeps Left over input symbols. -/
theorem row9_ab {c : Symbol} (hc : c = 'a' ∨ c = 'b') :
    fsTrans (State.q 9) c = some ⟨c, c, Dir.L, State.q 9⟩ ∧ c ≠ kWildcard := by
  rcases hc with rfl | rfl <;> exact ⟨by decide, by decide⟩

/-- The carry chain: with `c` in hand over remaining input `v` (cells
`u.length + 1` onward hold `v`), the chain deposits `c :: v` shifted one
cell Right and ends in the rewind state on the last input cell. -/
theorem pre_carry : ∀ (v : List Symbol), (∀ x ∈ v, x = 'a' ∨ x = 'b') →
    ∀ (c : Symbol), (c = 'a' ∨ c = 'b') → ∀ (u : List Symbol) (k : Nat),
    ReachesIn flagshipLit (v.length + 1) (kLeftEnd :: u ++ v)
      ((u.length + 1 : Nat)) (carrySt c) k
      (kLeftEnd :: u ++ c :: v) ((u.length + v.length : Nat)) (State.q 9) := by
  intro v
  induction v with
  | nil =>
    intro _ c hc u k
    have hq : ∃ i, carrySt c = State.q i ∧ (i = 7 ∨ i = 8) := by
      rcases hc with rfl | rfl
      · exact ⟨7, rfl, Or.inl rfl⟩
      · exact ⟨8, rfl, Or.inr rfl⟩
    rcases hq with ⟨i, hqi, hi⟩
    have htr : fsTrans (State.q i) kBlank = some ⟨kBlank, c, Dir.L, State.q 9⟩ := by
      rw [← hqi]; exact carry_blank hc
    have hwne : c ≠ kWildcard := by rcases hc with rfl | rfl <;> decide
    refine reachesIn_mono (by omega) (reachesIn_single ?_)
    rw [hqi]
    have et : kLeftEnd :: u ++ ([] : List Symbol) = kLeftEnd :: u := by simp
    have eh : ((u.length + 1 : Nat) : Int) = (((kLeftEnd :: u).length : Nat) : Int) := by
      simp
    rw [cfg_congr et eh, fs_stepL_end i 9 (kLeftEnd :: u) k c htr hwne]
    exact cfg_congr (by simp) (by simp)
  | cons d v ih =>
    intro hv c hc u k
    have hd : d = 'a' ∨ d = 'b' := hv d (by simp)
    have hqc : ∃ i, carrySt c = State.q i := by
      rcases hc with rfl | rfl
      · exact ⟨7, rfl⟩
      · exact ⟨8, rfl⟩
    have hqd : ∃ j, carrySt d = State.q j := by
      rcases hd with rfl | rfl
      · exact ⟨7, rfl⟩
      · exact ⟨8, rfl⟩
    rcases hqc with ⟨i, hqi⟩
    rcases hqd with ⟨j, hqj⟩
    have htr : fsTrans (State.q i) d = some ⟨d, c, Dir.R, State.q j⟩ := by
      rw [← hqi, ← hqj]; exact carry_trans hc hd
    have hwne : c ≠ kWildcard := by rcases hc with rfl | rfl <;> decide
    have hstep : ∀ k', Step flagshipLit (cfg (kLeftEnd :: u ++ d :: v)
        ((u.length + 1 : Nat)) (State.q i) k') =
        cfg (kLeftEnd :: (u ++ [c]) ++ v) (((u ++ [c]).length + 1 : Nat))
          (State.q j) (k' + 1) := by
      intro k'
      have et : kLeftEnd :: u ++ d :: v = (kLeftEnd :: u) ++ d :: v := by simp
      have eh : ((u.length + 1 : Nat) : Int) = (((kLeftEnd :: u).length : Nat) : Int) := by
        simp
      rw [cfg_congr et eh, fs_stepR i j (kLeftEnd :: u) d v k' c htr hwne]
      exact cfg_congr (by simp) (by simp <;> omega)
    have h2 := ih (fun x hx => hv x (by simp [hx])) d hd (u ++ [c])
    simp only [hqj] at h2
    rw [hqi]
    have hall := reachesIn_trans (fun k' => reachesIn_single (hstep k')) h2 k
    have e1 : kLeftEnd :: (u ++ [c]) ++ d :: v = kLeftEnd :: u ++ c :: d :: v := by simp
    have e2 : (((u ++ [c]).length + v.length : Nat) : Int) =
        ((u.length + (d :: v).length : Nat) : Int) := by
      simp only [List.length_append, List.length_cons, List.length_nil]
      push_cast
      omega
    rw [e1, e2] at hall
    exact reachesIn_mono (by simp only [List.length_cons]; omega) hall

/-- C7's preamble big-step for the flagship machine: from the reset
configuration, `2|w| + 1` steps shift the input one cell Right, write the
sentinel at cell 0, and stop in the preamble exit state with the head on
cell 1. -/
theorem fs_preamble (w : List Symbol) (hw : ∀ x ∈ w, x = 'a' ∨ x = 'b') :
    ∀ k, ReachesIn flagshipLit (2 * w.length + 1)
      (if w.isEmpty then [kBlank] else w) 0 (State.q 0) k
      (kLeftEnd :: w) 1 (State.q 1) := by
  rcases w with _ | ⟨d, v⟩
  · intro k
    refine reachesIn_mono (by omega) (reachesIn_single ?_)
    have et : (if ([] : List Symbol).isEmpty then [kBlank] else []) =
        ([] : List Symbol) ++ kBlank :: [] := by simp
    have eh : (0 : Int) = ((([] : List Symbol).length : Nat) : Int) := by simp
    rw [cfg_congr et eh,
      fs_stepR 0 1 [] kBlank [] k kLeftEnd (by decide) (by decide)]
    exact cfg_congr (by simp) (by simp)
  · intro k
    have hd : d = 'a' ∨ d = 'b' := hw d (by simp)
    have hv : ∀ x ∈ v, x = 'a' ∨ x = 'b' := fun x hx => hw x (by simp [hx])
    have hqd : ∃ j, carrySt d = State.q j := by
      rcases hd with rfl | rfl
      · exact ⟨7, rfl⟩
      · exact ⟨8, rfl⟩
    rcases hqd with ⟨j, hqj⟩
    -- step 1: write the sentinel, carry `d`
    have hstep : ∀ k', Step flagshipLit (cfg (if (d :: v).isEmpty then [kBlank] else d :: v)
        0 (State.q 0) k') =
        cfg (kLeftEnd :: ([] : List Symbol) ++ v) ((([] : List Symbol).length + 1 : Nat))
          (State.q j) (k' + 1) := by
      intro k'
      have et : (if (d :: v).isEmpty then [kBlank] else d :: v) =
          ([] : List Symbol) ++ d :: v := by simp
      have eh : (0 : Int) = ((([] : List Symbol).length : Nat) : Int) := by simp
      have htr : fsTrans (State.q 0) d = some ⟨d, kLeftEnd, Dir.R, State.q j⟩ := by
        rw [← hqj]; exact row0_ab hd
      rw [cfg_congr et eh, fs_stepR 0 j [] d v k' kLeftEnd htr (by decide)]
      exact cfg_congr (by simp) (by simp)
    -- the carry chain
    have hcarry := pre_carry v hv d hd []
    simp only [hqj] at hcarry
    have h12 := reachesIn_trans (fun k' => reachesIn_single (hstep k'))
      (fun k' => hcarry k')
    -- the rewind, split on the shape of `d :: v`
    have hrew : ∀ k', ReachesIn flagshipLit ((d :: v).length)
        (kLeftEnd :: d :: v) (((([] : List Symbol)).length + v.length : Nat))
        (State.q 9) k' (kLeftEnd :: d :: v) 1 (State.q 1) := by
      rcases List.eq_nil_or_concat v with rfl | ⟨v0, e, rfl⟩
      · intro k'
        have h := fs_rewind 9 1 [] (by simp) (by decide) [d] k'
        have e1 : kLeftEnd :: ([] : List Symbol) ++ [d] = kLeftEnd :: [d] := by simp
        have e2 : ((([] : List Symbol).length : Nat) : Int) =
            ((([] : List Symbol).length + ([] : List Symbol).length : Nat) : Int) := by simp
        rw [e1, e2] at h
        exact reachesIn_mono (by simp) h
      · intro k'
        simp only [List.concat_eq_append]
        have hmem : ∀ x ∈ d :: v0, x = 'a' ∨ x = 'b' := by
          intro x hx
          rcases List.mem_cons.mp hx with rfl | hx
          · exact hd
          · exact hv x (by simp [hx])
        have h := fs_rewind 9 1 (d :: v0) (fun x hx => row9_ab (hmem x hx))
          (by decide) [e] k'
        have e1 : kLeftEnd :: (d :: v0) ++ [e] = kLeftEnd :: d :: (v0 ++ [e]) := by simp
        have e2 : (((d :: v0).length : Nat) : Int) =
            ((([] : List Symbol).length + (v0 ++ [e]).length : Nat) : Int) := by
          simp only [List.length_append, List.length_cons, List.length_nil]
          push_cast
          omega
        rw [e1, e2] at h
        refine reachesIn_mono ?_ h
        simp only [List.length_cons, List.length_append, List.length_nil]
        omega
    have hall := reachesIn_trans h12 hrew k
    exact reachesIn_mono (by simp only [List.length_cons]; omega) hall

/-! ### The let-statement prefix: writing the region separator -/

/-- The preamble exit hands over to the separator scan. -/
theorem row1_ab {c : Symbol} (hc : c = 'a' ∨ c = 'b') :
    fsTrans (State.q 1) c = some ⟨c, c, Dir.S, State.q 10⟩ := by
  rcases hc with rfl | rfl <;> decide

/-- The separator scan passes input symbols Rightward. -/
theorem row10_ab {c : Symbol} (hc : c = 'a' ∨ c = 'b') :
    fsTrans (State.q 10) c = some ⟨c, c, Dir.R, State.q 10⟩ ∧ c ≠ kWildcard := by
  rcases hc with rfl | rfl <;> exact ⟨by decide, by decide⟩

/-- The separator writer's way back sweeps Left over input symbols. -/
theorem row12_ab {c : Symbol} (hc : c = 'a' ∨ c = 'b') :
    fsTrans (State.q 12) c = some ⟨c, c, Dir.L, State.q 12⟩ ∧ c ≠ kWildcard := by
  rcases hc with rfl | rfl <;> exact ⟨by decide, by decide⟩

/-- The separator exit hands over to the count scan on any cell. -/
theorem row11_absep {c : Symbol} (hc : c = 'a' ∨ c = 'b' ∨ c = kSep) :
    fsTrans (State.q 11) c = some ⟨c, c, Dir.S, State.q 13⟩ := by
  rcases hc with rfl | rfl | rfl <;> decide

/-- The let statement's prefix: from the preamble exit, the machine writes
the region separator `#` after the input and returns to cell 1, entering
the count scan. -/
theorem fs_letpre (w : List Symbol) (hw : ∀ x ∈ w, x = 'a' ∨ x = 'b') :
    ∀ k, ReachesIn flagshipLit (2 * w.length + 4) (kLeftEnd :: w) 1 (State.q 1) k
      (kLeftEnd :: w ++ [kSep]) 1 (State.q 13) := by
  rcases w with _ | ⟨d, v⟩
  · intro k
    -- four explicit steps: pad a blank, write `#` over it, rewind, enter
    have s1 : ∀ k', Step flagshipLit (cfg [kLeftEnd] 1 (State.q 1) k') =
        cfg [kLeftEnd, kBlank] (((kLeftEnd :: []).length : Nat)) (State.q 10) (k' + 1) := by
      intro k'
      have eh : (1 : Int) = ((([kLeftEnd] : List Symbol).length : Nat) : Int) := by simp
      rw [cfg_congr rfl eh, fs_stepS_end 1 10 [kLeftEnd] k' kBlank (by decide) (by decide)]
      exact cfg_congr (by simp) (by simp)
    have s2 : ∀ k', Step flagshipLit (cfg [kLeftEnd, kBlank]
        (((kLeftEnd :: []).length : Nat)) (State.q 10) k') =
        cfg [kLeftEnd, kSep] ((([kLeftEnd] : List Symbol).length : Int) - 1)
          (State.q 12) (k' + 1) := by
      intro k'
      have et : ([kLeftEnd, kBlank] : List Symbol) = [kLeftEnd] ++ kBlank :: [] := by simp
      rw [cfg_congr et rfl, fs_stepL 10 12 [kLeftEnd] kBlank [] k' kSep (by decide) (by decide)]
      exact cfg_congr (by simp) (by simp)
    have s3 : ∀ k', Step flagshipLit (cfg [kLeftEnd, kSep]
        ((([kLeftEnd] : List Symbol).length : Int) - 1) (State.q 12) k') =
        cfg [kLeftEnd, kSep] ((([] : List Symbol).length : Int) + 1) (State.q 11) (k' + 1) := by
      intro k'
      have et : ([kLeftEnd, kSep] : List Symbol) = [] ++ kLeftEnd :: [kSep] := by simp
      have eh : (([kLeftEnd] : List Symbol).length : Int) - 1 =
          ((([] : List Symbol).length : Nat) : Int) := by simp
      rw [cfg_congr et eh, fs_stepR 12 11 [] kLeftEnd [kSep] k' kLeftEnd (by decide) (by decide)]
      exact cfg_congr (by simp) rfl
    have s4 : ∀ k', Step flagshipLit (cfg [kLeftEnd, kSep]
        ((([] : List Symbol).length : Int) + 1) (State.q 11) k') =
        cfg (kLeftEnd :: [] ++ [kSep]) 1 (State.q 13) (k' + 1) := by
      intro k'
      have et : ([kLeftEnd, kSep] : List Symbol) = [kLeftEnd] ++ kSep :: [] := by simp
      have eh : (([] : List Symbol).length : Int) + 1 =
          ((([kLeftEnd] : List Symbol).length : Nat) : Int) := by simp
      rw [cfg_congr et eh, fs_stepS 11 13 [kLeftEnd] kSep [] k' kSep
        (row11_absep (by right; right; rfl)) (by decide)]
      exact cfg_congr (by simp) (by simp)
    have hall := reachesIn_trans (fun k' => reachesIn_single (s1 k'))
      (reachesIn_trans (fun k' => reachesIn_single (s2 k'))
        (reachesIn_trans (fun k' => reachesIn_single (s3 k'))
          (fun k' => reachesIn_single (s4 k')))) k
    exact reachesIn_mono (by simp) hall
  · intro k
    have hd : d = 'a' ∨ d = 'b' := hw d (by simp)
    set w := d :: v with hwdef
    have hne : w ≠ [] := by simp [hwdef]
    -- step 1: hand over to the scan
    have s1 : ∀ k', Step flagshipLit (cfg (kLeftEnd :: w) 1 (State.q 1) k') =
        cfg ([kLeftEnd] ++ w ++ []) ((([kLeftEnd] : List Symbol).length : Nat))
          (State.q 10) (k' + 1) := by
      intro k'
      have et : kLeftEnd :: w = [kLeftEnd] ++ d :: v := by simp [hwdef]
      have eh : (1 : Int) = ((([kLeftEnd] : List Symbol).length : Nat) : Int) := by simp
      rw [cfg_congr et eh, fs_stepS 1 10 [kLeftEnd] d v k' d (row1_ab hd) (by
        rcases hd with rfl | rfl <;> decide)]
      exact cfg_congr (by simp [hwdef]) (by simp)
    -- the scan to the end of the input
    have s2 := sweepR_id 10 w (fun c hc => row10_ab (hw c hc)) [kLeftEnd] []
    -- write the separator over the blank
    have s3 : ∀ k', Step flagshipLit (cfg ([kLeftEnd] ++ w ++ [])
        ((([kLeftEnd] : List Symbol).length + w.length : Nat)) (State.q 10) k') =
        cfg (kLeftEnd :: w ++ [kSep]) (((kLeftEnd :: w).length : Int) - 1)
          (State.q 12) (k' + 1) := by
      intro k'
      have et : [kLeftEnd] ++ w ++ [] = kLeftEnd :: w := by simp
      have eh : ((([kLeftEnd] : List Symbol).length + w.length : Nat) : Int) =
          (((kLeftEnd :: w).length : Nat) : Int) := by simp; omega
      rw [cfg_congr et eh, fs_stepL_end 10 12 (kLeftEnd :: w) k' kSep (by decide) (by decide)]
    -- rewind to cell 1
    have s4 := fs_rewind 12 11 w (fun c hc => row12_ab (hw c hc)) (by decide) [kSep]
    -- hand over to the count scan
    have s5 : ∀ k', Step flagshipLit (cfg (kLeftEnd :: w ++ [kSep]) 1 (State.q 11) k') =
        cfg (kLeftEnd :: w ++ [kSep]) 1 (State.q 13) (k' + 1) := by
      intro k'
      have et : kLeftEnd :: w ++ [kSep] = [kLeftEnd] ++ d :: (v ++ [kSep]) := by simp [hwdef]
      have eh : (1 : Int) = ((([kLeftEnd] : List Symbol).length : Nat) : Int) := by simp
      rw [cfg_congr et eh, fs_stepS 11 13 [kLeftEnd] d (v ++ [kSep]) k' d
        (row11_absep (by rcases hd with rfl | rfl; exact Or.inl rfl; exact Or.inr (Or.inl rfl)))
        (by rcases hd with rfl | rfl <;> decide)]
      exact cfg_congr (by simp [hwdef]) (by simp)
    -- head adjustment between s3 and s4
    have s4' : ∀ k', ReachesIn flagshipLit (w.length + 1) (kLeftEnd :: w ++ [kSep])
        (((kLeftEnd :: w).length : Int) - 1) (State.q 12) k'
        (kLeftEnd :: w ++ [kSep]) 1 (State.q 11) := by
      intro k'
      have eh : ((kLeftEnd :: w).length : Int) - 1 = ((w.length : Nat) : Int) := by
        simp
      rw [eh]
      exact s4 k'
    have hall := reachesIn_trans (fun k' => reachesIn_single (s1 k'))
      (reachesIn_trans s2
        (reachesIn_trans (fun k' => reachesIn_single (s3 k'))
          (reachesIn_trans s4' (fun k' => reachesIn_single (s5 k'))))) k
    exact reachesIn_mono (by omega) hall

/-! ### The count loop -/

/-- The count scan passes processed (`A`) and uncounted (`b`) cells. -/
theorem row13_Ab {c : Symbol} (hc : c = 'A' ∨ c = 'b') :
    fsTrans (State.q 13) c = some ⟨c, c, Dir.R, State.q 13⟩ ∧ c ≠ kWildcard := by
  rcases hc with rfl | rfl <;> exact ⟨by decide, by decide⟩

/-- The tally writer scans Rightward over everything non-blank. -/
theorem row14_scan {c : Symbol}
    (hc : c = 'a' ∨ c = 'b' ∨ c = kSep ∨ c = kOne) :
    fsTrans (State.q 14) c = some ⟨c, c, Dir.R, State.q 14⟩ ∧ c ≠ kWildcard := by
  rcases hc with rfl | rfl | rfl | rfl <;> exact ⟨by decide, by decide⟩

/-- The tally writer's way back sweeps Left over everything but the
sentinel. -/
theorem row15_scan {c : Symbol}
    (hc : c = 'a' ∨ c = 'b' ∨ c = 'A' ∨ c = kSep ∨ c = kOne) :
    fsTrans (State.q 15) c = some ⟨c, c, Dir.L, State.q 15⟩ ∧ c ≠ kWildcard := by
  rcases hc with rfl | rfl | rfl | rfl | rfl <;> exact ⟨by decide, by decide⟩

/-- `markA` does nothing to a string without `a`s. -/
theorem markA_of_no_a : ∀ {l : List Symbol}, (∀ x ∈ l, x ≠ 'a') → markA l = l := by
  intro l
  induction l with
  | nil => intro _; rfl
  | cons c rest ih =>
    intro h
    have hc : c ≠ 'a' := h c (by simp)
    simp only [markA, List.map_cons, if_neg hc]
    have := ih (fun x hx => h x (by simp [hx]))
    simp only [markA] at this
    rw [this]

/-- One trip of the count loop: scan to the first unmarked `a`, mark it,
append a `1` at the end of the tape, rewind. -/
theorem cnt_trip (u v1 v2 : List Symbol) (m : Nat)
    (hu : ∀ x ∈ u, x = 'A' ∨ x = 'b') (hv1 : ∀ x ∈ v1, x = 'b')
    (hv2 : ∀ x ∈ v2, x = 'a' ∨ x = 'b') :
    ∀ k, ReachesIn flagshipLit
      (2 * (u.length + v1.length + v2.length + m) + 6)
      (kLeftEnd :: (u ++ v1 ++ 'a' :: v2) ++ kSep :: List.replicate m kOne)
        1 (State.q 13) k
      (kLeftEnd :: (u ++ v1 ++ 'A' :: v2) ++ kSep :: List.replicate (m + 1) kOne)
        1 (State.q 13) := by
  intro k
  -- (a) scan over the processed prefix
  have huv1 : ∀ x ∈ u ++ v1, x = 'A' ∨ x = 'b' := by
    intro x hx
    rcases List.mem_append.mp hx with hx | hx
    · exact hu x hx
    · exact Or.inr (hv1 x hx)
  have sa0 := sweepR_id 13 (u ++ v1) (fun c hc => row13_Ab (huv1 c hc)) [kLeftEnd]
    ('a' :: v2 ++ kSep :: List.replicate m kOne)
  have sa : ∀ k', ReachesIn flagshipLit (u ++ v1).length
      (kLeftEnd :: (u ++ v1 ++ 'a' :: v2) ++ kSep :: List.replicate m kOne) 1 (State.q 13) k'
      ([kLeftEnd] ++ (u ++ v1) ++ ('a' :: v2 ++ kSep :: List.replicate m kOne))
      ((([kLeftEnd] : List Symbol).length + (u ++ v1).length : Nat)) (State.q 13) := by
    intro k'
    have et : kLeftEnd :: (u ++ v1 ++ 'a' :: v2) ++ kSep :: List.replicate m kOne =
        [kLeftEnd] ++ (u ++ v1) ++ ('a' :: v2 ++ kSep :: List.replicate m kOne) := by simp
    have eh : (1 : Int) = ((([kLeftEnd] : List Symbol).length : Nat) : Int) := by simp
    rw [et, eh]
    exact sa0 k'
  -- (b) mark the `a`
  have sb : ∀ k', Step flagshipLit (cfg
      ([kLeftEnd] ++ (u ++ v1) ++ ('a' :: v2 ++ kSep :: List.replicate m kOne))
      ((([kLeftEnd] : List Symbol).length + (u ++ v1).length : Nat)) (State.q 13) k') =
      cfg (([kLeftEnd] ++ (u ++ v1) ++ ['A']) ++ (v2 ++ kSep :: List.replicate m kOne) ++ [])
        ((([kLeftEnd] ++ (u ++ v1) ++ ['A'] : List Symbol).length : Nat)) (State.q 14) (k' + 1) := by
    intro k'
    have et : [kLeftEnd] ++ (u ++ v1) ++ ('a' :: v2 ++ kSep :: List.replicate m kOne) =
        ([kLeftEnd] ++ (u ++ v1)) ++ 'a' :: (v2 ++ kSep :: List.replicate m kOne) := by simp
    have eh : ((([kLeftEnd] : List Symbol).length + (u ++ v1).length : Nat) : Int) =
        ((([kLeftEnd] ++ (u ++ v1) : List Symbol).length : Nat) : Int) := by
      simp <;> omega
    rw [cfg_congr et eh, fs_stepR 13 14 ([kLeftEnd] ++ (u ++ v1)) 'a'
      (v2 ++ kSep :: List.replicate m kOne) k' 'A' (by decide) (by decide)]
    exact cfg_congr (by simp) (by simp <;> omega)
  -- (c) scan to the end of the tape
  have hseg : ∀ x ∈ v2 ++ kSep :: List.replicate m kOne,
      x = 'a' ∨ x = 'b' ∨ x = kSep ∨ x = kOne := by
    intro x hx
    rcases List.mem_append.mp hx with hx | hx
    · rcases hv2 x hx with rfl | rfl
      · exact Or.inl rfl
      · exact Or.inr (Or.inl rfl)
    · rcases List.mem_cons.mp hx with rfl | hx
      · exact Or.inr (Or.inr (Or.inl rfl))
      · exact Or.inr (Or.inr (Or.inr (List.eq_of_mem_replicate hx)))
  have sc := sweepR_id 14 (v2 ++ kSep :: List.replicate m kOne)
    (fun c hc => row14_scan (hseg c hc)) ([kLeftEnd] ++ (u ++ v1) ++ ['A']) []
  -- (d) append the `1`
  have sd : ∀ k', Step flagshipLit (cfg
      (([kLeftEnd] ++ (u ++ v1) ++ ['A']) ++ (v2 ++ kSep :: List.replicate m kOne) ++ [])
      ((([kLeftEnd] ++ (u ++ v1) ++ ['A'] : List Symbol).length +
        (v2 ++ kSep :: List.replicate m kOne).length : Nat)) (State.q 14) k') =
      cfg (kLeftEnd :: ((u ++ v1 ++ 'A' :: v2) ++ kSep :: List.replicate m kOne) ++ [kOne])
        (((kLeftEnd :: ((u ++ v1 ++ 'A' :: v2) ++ kSep :: List.replicate m kOne) : List Symbol).length : Int) - 1)
        (State.q 15) (k' + 1) := by
    intro k'
    have et : ([kLeftEnd] ++ (u ++ v1) ++ ['A']) ++ (v2 ++ kSep :: List.replicate m kOne) ++ [] =
        kLeftEnd :: ((u ++ v1 ++ 'A' :: v2) ++ kSep :: List.replicate m kOne) := by simp
    have eh : ((([kLeftEnd] ++ (u ++ v1) ++ ['A'] : List Symbol).length +
        (v2 ++ kSep :: List.replicate m kOne).length : Nat) : Int) =
        (((kLeftEnd :: ((u ++ v1 ++ 'A' :: v2) ++ kSep :: List.replicate m kOne) : List Symbol).length : Nat) : Int) := by
      simp
      omega
    rw [cfg_congr et eh, fs_stepL_end 14 15
      (kLeftEnd :: ((u ++ v1 ++ 'A' :: v2) ++ kSep :: List.replicate m kOne)) k' kOne
      (by decide) (by decide)]
  -- (e) rewind to cell 1
  have hbody : ∀ x ∈ (u ++ v1 ++ 'A' :: v2) ++ kSep :: List.replicate m kOne,
      x = 'a' ∨ x = 'b' ∨ x = 'A' ∨ x = kSep ∨ x = kOne := by
    intro x hx
    rcases List.mem_append.mp hx with hx | hx
    · rcases List.mem_append.mp hx with hx | hx
      · rcases List.mem_append.mp hx with hx | hx
        · rcases hu x hx with rfl | rfl
          · exact Or.inr (Or.inr (Or.inl rfl))
          · exact Or.inr (Or.inl rfl)
        · exact Or.inr (Or.inl (hv1 x hx))
      · rcases List.mem_cons.mp hx with rfl | hx
        · exact Or.inr (Or.inr (Or.inl rfl))
        · rcases hv2 x hx with rfl | rfl
          · exact Or.inl rfl
          · exact Or.inr (Or.inl rfl)
    · rcases List.mem_cons.mp hx with rfl | hx
      · exact Or.inr (Or.inr (Or.inr (Or.inl rfl)))
      · exact Or.inr (Or.inr (Or.inr (Or.inr (List.eq_of_mem_replicate hx))))
  have se0 := fs_rewind 15 13 ((u ++ v1 ++ 'A' :: v2) ++ kSep :: List.replicate m kOne)
    (fun c hc => row15_scan (hbody c hc)) (by decide) [kOne]
  have se : ∀ k', ReachesIn flagshipLit
      (((u ++ v1 ++ 'A' :: v2) ++ kSep :: List.replicate m kOne).length + 1)
      (kLeftEnd :: ((u ++ v1 ++ 'A' :: v2) ++ kSep :: List.replicate m kOne) ++ [kOne])
      (((kLeftEnd :: ((u ++ v1 ++ 'A' :: v2) ++ kSep :: List.replicate m kOne) : List Symbol).length : Int) - 1)
      (State.q 15) k'
      (kLeftEnd :: (u ++ v1 ++ 'A' :: v2) ++ kSep :: List.replicate (m + 1) kOne)
      1 (State.q 13) := by
    intro k'
    have eh : ((kLeftEnd :: ((u ++ v1 ++ 'A' :: v2) ++ kSep :: List.replicate m kOne) : List Symbol).length : Int) - 1 =
        ((((u ++ v1 ++ 'A' :: v2) ++ kSep :: List.replicate m kOne).length : Nat) : Int) := by
      simp
    rw [eh]
    have h := se0 k'
    have et2 : kLeftEnd :: ((u ++ v1 ++ 'A' :: v2) ++ kSep :: List.replicate m kOne) ++ [kOne] =
        kLeftEnd :: (u ++ v1 ++ 'A' :: v2) ++ kSep :: List.replicate (m + 1) kOne := by
      rw [List.replicate_succ']
      simp
    nth_rewrite 2 [et2] at h
    exact h
  -- compose
  have hall := reachesIn_trans sa
    (reachesIn_trans (fun k' => reachesIn_single (sb k'))
      (reachesIn_trans sc
        (reachesIn_trans (fun k' => reachesIn_single (sd k')) se))) k
  refine reachesIn_mono ?_ hall
  simp
  omega

/-- The full count loop: every unmarked `a` is processed Left-to-Right,
one tally `1` appended per `a`, ending in the count-done state on the
separator cell. -/
theorem cnt_loop : ∀ (n : Nat) (v : List Symbol), v.length ≤ n →
    (∀ x ∈ v, x = 'a' ∨ x = 'b') →
    ∀ (u : List Symbol), (∀ x ∈ u, x = 'A' ∨ x = 'b') → ∀ (m k : Nat),
    ReachesIn flagshipLit
      (v.count 'a' * (2 * (u.length + v.length + v.count 'a' + m) + 6) +
        (u.length + v.length + 1))
      (kLeftEnd :: (u ++ v) ++ kSep :: List.replicate m kOne) 1 (State.q 13) k
      (kLeftEnd :: (u ++ markA v) ++ kSep :: List.replicate (m + v.count 'a') kOne)
      (((u ++ v).length + 1 : Nat)) (State.q 16) := by
  intro n
  induction n using Nat.strong_induction_on with
  | _ n ih =>
    intro v hn hv u hu m k
    by_cases ha : 'a' ∈ v
    · -- at least one `a` left: one trip, then recurse
      set v1 := v.takeWhile (fun x => !(x == 'a')) with hv1def
      set rest := v.dropWhile (fun x => !(x == 'a')) with hrestdef
      have hsplit : v1 ++ rest = v := List.takeWhile_append_dropWhile _ _
      have hrestne : rest ≠ [] := by
        intro hre
        have : v1 = v := by rw [← hsplit, hre, List.append_nil]
        have hall : ∀ x ∈ v, ¬(x == 'a') = true :=
          fun x hx => by
            have := List.mem_takeWhile_imp (l := v) (p := fun x => !(x == 'a'))
              (by rw [← hv1def, this]; exact hx)
            simpa using this
        exact (by simpa using hall 'a' ha : ¬(True : Prop)) trivial
      have hhead : rest.head hrestne = 'a' := by
        have := List.head_dropWhile_not (fun x => !(x == 'a')) v
          (by rw [← hrestdef]; exact hrestne)
        simpa [hrestdef] using this
      have hrest2 : rest = 'a' :: rest.tail := by
        conv_lhs => rw [← List.head_cons_tail rest hrestne]
        rw [hhead]
      set v2 := rest.tail with hv2def
      have hveq : v = v1 ++ 'a' :: v2 := by rw [← hsplit, hrest2]
      have hv1b : ∀ x ∈ v1, x = 'b' := by
        intro x hx
        have hne := List.mem_takeWhile_imp (hv1def ▸ hx)
        have hx' : x ∈ v := by
          rw [hveq]
          exact List.mem_append.mpr (Or.inl hx)
        rcases hv x hx' with rfl | rfl
        · simp at hne
        · rfl
      have hv2ab : ∀ x ∈ v2, x = 'a' ∨ x = 'b' := by
        intro x hx
        exact hv x (by rw [hveq]; simp [hx])
      -- counts and marks along the split
      have hcnt : v.count 'a' = v2.count 'a' + 1 := by
        rw [hveq, List.count_append, List.count_cons_self]
        have : v1.count 'a' = 0 := by
          rw [List.count_eq_zero]
          intro hmem
          have := hv1b 'a' hmem
          simp at this
        omega
      have hmark : markA v = v1 ++ 'A' :: markA v2 := by
        rw [hveq]
        show (v1 ++ 'a' :: v2).map _ = _
        rw [List.map_append]
        have h1 : markA v1 = v1 := markA_of_no_a (fun x hx => by
          have := hv1b x hx
          subst this
          decide)
        simp only [markA] at h1
        rw [h1, List.map_cons, if_pos rfl]
        rfl
      -- one trip
      have htrip := cnt_trip u v1 v2 m hu hv1b hv2ab
      -- recurse on v2
      have hlt : v2.length < n := by
        have : v.length = v1.length + 1 + v2.length := by
          rw [hveq]
          simp <;> omega
        omega
      have hih := ih v2.length hlt v2 (Nat.le_refl _) hv2ab (u ++ v1 ++ ['A'])
        (by
          intro x hx
          rcases List.mem_append.mp hx with hx | hx
          · rcases List.mem_append.mp hx with hx | hx
            · exact hu x hx
            · exact Or.inr (hv1b x hx)
          · rcases List.mem_cons.mp hx with rfl | hx
            · exact Or.inl rfl
            · cases hx) (m + 1)
      -- align the recursion's configurations with the trip's
      have hihfix : ∀ k', ReachesIn flagshipLit
          (v2.count 'a' * (2 * ((u ++ v1 ++ ['A']).length + v2.length + v2.count 'a' + (m + 1)) + 6) +
            ((u ++ v1 ++ ['A']).length + v2.length + 1))
          (kLeftEnd :: (u ++ v1 ++ 'A' :: v2) ++ kSep :: List.replicate (m + 1) kOne)
          1 (State.q 13) k'
          (kLeftEnd :: (u ++ markA v) ++ kSep :: List.replicate (m + v.count 'a') kOne)
          (((u ++ v).length + 1 : Nat)) (State.q 16) := by
        intro k'
        have e1 : kLeftEnd :: (u ++ v1 ++ ['A'] ++ v2) ++ kSep :: List.replicate (m + 1) kOne =
            kLeftEnd :: (u ++ v1 ++ 'A' :: v2) ++ kSep :: List.replicate (m + 1) kOne := by
          simp
        have e2 : kLeftEnd :: (u ++ v1 ++ ['A'] ++ markA v2) ++
              kSep :: List.replicate (m + 1 + v2.count 'a') kOne =
            kLeftEnd :: (u ++ markA v) ++ kSep :: List.replicate (m + v.count 'a') kOne := by
          rw [hmark, hcnt]
          have : m + 1 + v2.count 'a' = m + (v2.count 'a' + 1) := by omega
          rw [this]
          simp
        have e3 : (((u ++ v1 ++ ['A'] ++ v2).length + 1 : Nat) : Int) =
            (((u ++ v).length + 1 : Nat) : Int) := by
          rw [hveq]
          simp <;> omega
        have h := hih k'
        rw [e1, e2, e3] at h
        exact h
      have hall := reachesIn_trans htrip hihfix k
      have e0 : kLeftEnd :: (u ++ v1 ++ 'a' :: v2) ++ kSep :: List.replicate m kOne =
          kLeftEnd :: (u ++ v) ++ kSep :: List.replicate m kOne := by
        rw [hveq]
        simp
      rw [e0] at hall
      refine reachesIn_mono ?_ hall
      -- budget: one trip plus the recursive budget fit in the stated bound
      rw [hcnt]
      have hlv : v.length = v1.length + 1 + v2.length := by
        rw [hveq]
        simp <;> omega
      have hA : 2 * ((u ++ v1 ++ ['A']).length + v2.length + v2.count 'a' + (m + 1)) + 6 =
          2 * (u.length + v.length + (v2.count 'a' + 1) + m) + 6 := by
        simp only [List.length_append, List.length_cons, List.length_nil]
        omega
      have hS : (u ++ v1 ++ ['A']).length + v2.length + 1 = u.length + v.length + 1 := by
        simp only [List.length_append, List.length_cons, List.length_nil]
        omega
      rw [hA, hS]
      have hT : 2 * (u.length + v1.length + v2.length + m) + 6 ≤
          2 * (u.length + v.length + (v2.count 'a' + 1) + m) + 6 := by omega
      have : (v2.count 'a' + 1) * (2 * (u.length + v.length + (v2.count 'a' + 1) + m) + 6) =
          2 * (u.length + v.length + (v2.count 'a' + 1) + m) + 6 +
            v2.count 'a' * (2 * (u.length + v.length + (v2.count 'a' + 1) + m) + 6) := by
        rw [Nat.succ_mul]
        omega
      rw [this]
      omega
    · -- no `a` left: sweep to the separator and stop
      have hvb : ∀ x ∈ v, x = 'b' := by
        intro x hx
        rcases hv x hx with rfl | rfl
        · exact absurd hx ha
        · rfl
      have hc0 : v.count 'a' = 0 := List.count_eq_zero.mpr ha
      have hmk : markA v = v := markA_of_no_a (fun x hx => by
        have := hvb x hx
        subst this
        decide)
      rw [hc0, hmk]
      simp only [Nat.zero_mul, Nat.zero_add, Nat.add_zero]
      have huv : ∀ x ∈ u ++ v, x = 'A' ∨ x = 'b' := by
        intro x hx
        rcases List.mem_append.mp hx with hx | hx
        · exact hu x hx
        · exact Or.inr (hvb x hx)
      have hsweep := sweepR_id 13 (u ++ v) (fun c hc => row13_Ab (huv c hc))
        [kLeftEnd] (kSep :: List.replicate m kOne)
      have hsw : ∀ k', ReachesIn flagshipLit (u ++ v).length
          (kLeftEnd :: (u ++ v) ++ kSep :: List.replicate m kOne) 1 (State.q 13) k'
          ([kLeftEnd] ++ (u ++ v) ++ (kSep :: List.replicate m kOne))
          ((([kLeftEnd] : List Symbol).length + (u ++ v).length : Nat)) (State.q 13) := by
        intro k'
        have et : kLeftEnd :: (u ++ v) ++ kSep :: List.replicate m kOne =
            [kLeftEnd] ++ (u ++ v) ++ (kSep :: List.replicate m kOne) := by simp
        have eh : (1 : Int) = ((([kLeftEnd] : List Symbol).length : Nat) : Int) := by simp
        rw [et, eh]
        exact hsweep k'
      have hstop : ∀ k', Step flagshipLit (cfg
          ([kLeftEnd] ++ (u ++ v) ++ (kSep :: List.replicate m kOne))
          ((([kLeftEnd] : List Symbol).length + (u ++ v).length : Nat)) (State.q 13) k') =
          cfg (kLeftEnd :: (u ++ v) ++ kSep :: List.replicate m kOne)
            (((u ++ v).length + 1 : Nat)) (State.q 16) (k' + 1) := by
        intro k'
        have et : [kLeftEnd] ++ (u ++ v) ++ (kSep :: List.replicate m kOne) =
            ([kLeftEnd] ++ (u ++ v)) ++ kSep :: List.replicate m kOne := by simp
        have eh : ((([kLeftEnd] : List Symbol).length + (u ++ v).length : Nat) : Int) =
            ((([kLeftEnd] ++ (u ++ v) : List Symbol).length : Nat) : Int) := by
          simp <;> omega
        rw [cfg_congr et eh, fs_stepS 13 16 ([kLeftEnd] ++ (u ++ v)) kSep
          (List.replicate m kOne) k' kSep (by decide) (by decide)]
        exact cfg_congr (by simp) (by simp <;> omega)
      have hall := reachesIn_trans hsw (fun k' => reachesIn_single (hstop k')) k
      exact reachesIn_mono (by simp <;> omega) hall

/-! ### The restore sweep and the let exit -/

/-- The count-done state turns Left unconditionally. -/
theorem row16_all {c : Symbol}
    (hc : c = 'a' ∨ c = 'b' ∨ c = 'A' ∨ c = kSep ∨ c = kOne) :
    fsTrans (State.q 16) c = some ⟨c, c, Dir.L, State.q 17⟩ := by
  rcases hc with rfl | rfl | rfl | rfl | rfl <;> decide

/-- The restore rewind sweeps Left over marked and unmarked input. -/
theorem row17_scan {c : Symbol} (hc : c = 'A' ∨ c = 'b') :
    fsTrans (State.q 17) c = some ⟨c, c, Dir.L, State.q 17⟩ ∧ c ≠ kWildcard := by
  rcases hc with rfl | rfl <;> exact ⟨by decide, by decide⟩

/-- The restore sweep lower-cases `A` and passes `b`. -/
theorem row18_map {c : Symbol} (hc : c = 'A' ∨ c = 'b') :
    fsTrans (State.q 18) c =
      some ⟨c, if c = 'A' then 'a' else c, Dir.R, State.q 18⟩ ∧
      (if c = 'A' then 'a' else c) ≠ kWildcard := by
  rcases hc with rfl | rfl <;> exact ⟨by decide, by decide⟩

/-- The final let rewind sweeps Left over input symbols. -/
theorem row20_scan {c : Symbol} (hc : c = 'a' ∨ c = 'b') :
    fsTrans (State.q 20) c = some ⟨c, c, Dir.L, State.q 20⟩ ∧ c ≠ kWildcard := by
  rcases hc with rfl | rfl <;> exact ⟨by decide, by decide⟩

/-- Unmarking undoes marking on an input over `{a, b}`. -/
theorem unmark_markA {w : List Symbol} (hw : ∀ x ∈ w, x = 'a' ∨ x = 'b') :
    (markA w).map (fun c => if c = 'A' then 'a' else c) = w := by
  induction w with
  | nil => rfl
  | cons c rest ih =>
    have hc := hw c (by simp)
    have := ih (fun x hx => hw x (by simp [hx]))
    show ((c :: rest).map _).map _ = _
    rw [List.map_cons, List.map_cons]
    have h1 : (markA rest).map (fun c => if c = 'A' then 'a' else c) = rest := this
    simp only [markA] at h1
    rw [h1]
    rcases hc with rfl | rfl <;> rfl

/-- Symbols of a marked input string. -/
theorem markA_mem {w : List Symbol} (hw : ∀ x ∈ w, x = 'a' ∨ x = 'b') :
    ∀ x ∈ markA w, x = 'A' ∨ x = 'b' := by
  intro x hx
  rcases List.mem_map.mp hx with ⟨y, hy, rfl⟩
  rcases hw y hy with rfl | rfl
  · exact Or.inl (by rfl)
  · exact Or.inr (by rfl)

/-- The restore phase: from the count-done state on the separator, the
machine rewinds, lower-cases every `A` back to `a`, and rewinds again into
the let statement's exit state `q21`. -/
theorem fs_restore (w : List Symbol) (hw : ∀ x ∈ w, x = 'a' ∨ x = 'b') (na : Nat) :
    ∀ k, ReachesIn flagshipLit (3 * w.length + 5)
      (kLeftEnd :: markA w ++ kSep :: List.replicate na kOne)
      ((w.length + 1 : Nat)) (State.q 16) k
      (kLeftEnd :: w ++ kSep :: List.replicate na kOne) 1 (State.q 21) := by
  intro k
  have hmA : ∀ x ∈ markA w, x = 'A' ∨ x = 'b' := markA_mem hw
  have hmlen : (markA w).length = w.length := by simp [markA]
  -- q16: one step Left off the separator
  have s1 : ∀ k', Step flagshipLit (cfg
      (kLeftEnd :: markA w ++ kSep :: List.replicate na kOne)
      ((w.length + 1 : Nat)) (State.q 16) k') =
      cfg (kLeftEnd :: markA w ++ kSep :: List.replicate na kOne)
        (((markA w).length : Nat)) (State.q 17) (k' + 1) := by
    intro k'
    have et : kLeftEnd :: markA w ++ kSep :: List.replicate na kOne =
        (kLeftEnd :: markA w) ++ kSep :: List.replicate na kOne := by simp
    have eh : ((w.length + 1 : Nat) : Int) =
        (((kLeftEnd :: markA w).length : Nat) : Int) := by
      simp [hmlen]
    rw [cfg_congr et eh, fs_stepL 16 17 (kLeftEnd :: markA w) kSep
      (List.replicate na kOne) k' kSep (by decide) (by decide)]
    exact cfg_congr (by simp) (by simp [hmlen] <;> omega)
  -- q17: rewind to cell 1
  have s2 := fs_rewind 17 18 (markA w) (fun c hc => row17_scan (hmA c hc))
    (by decide) (kSep :: List.replicate na kOne)
  -- q18: the restore sweep
  have s3 : ∀ k', ReachesIn flagshipLit (markA w).length
      (kLeftEnd :: markA w ++ kSep :: List.replicate na kOne) 1 (State.q 18) k'
      ([kLeftEnd] ++ w ++ (kSep :: List.replicate na kOne))
      ((([kLeftEnd] : List Symbol).length + (markA w).length : Nat)) (State.q 18) := by
    intro k'
    have h := sweepR_map 18 (fun c => if c = 'A' then 'a' else c) (markA w)
      (fun c hc => row18_map (hmA c hc)) [kLeftEnd] (kSep :: List.replicate na kOne) k'
    have et : [kLeftEnd] ++ markA w ++ (kSep :: List.replicate na kOne) =
        kLeftEnd :: markA w ++ kSep :: List.replicate na kOne := by simp
    have et2 : [kLeftEnd] ++ (markA w).map (fun c => if c = 'A' then 'a' else c) ++
        (kSep :: List.replicate na kOne) =
        [kLeftEnd] ++ w ++ (kSep :: List.replicate na kOne) := by
      rw [unmark_markA hw]
    have eh : ((([kLeftEnd] : List Symbol).length : Nat) : Int) = (1 : Int) := by simp
    rw [et, et2, eh] at h
    exact h
  -- q18 on the separator: hand over to q19
  have s4 : ∀ k', Step flagshipLit (cfg
      ([kLeftEnd] ++ w ++ (kSep :: List.replicate na kOne))
      ((([kLeftEnd] : List Symbol).length + (markA w).length : Nat)) (State.q 18) k') =
      cfg ([kLeftEnd] ++ w ++ (kSep :: List.replicate na kOne))
        ((([kLeftEnd] ++ w : List Symbol).length : Nat)) (State.q 19) (k' + 1) := by
    intro k'
    have et : [kLeftEnd] ++ w ++ (kSep :: List.replicate na kOne) =
        ([kLeftEnd] ++ w) ++ kSep :: List.replicate na kOne := by simp
    have eh : ((([kLeftEnd] : List Symbol).length + (markA w).length : Nat) : Int) =
        ((([kLeftEnd] ++ w : List Symbol).length : Nat) : Int) := by
      simp [hmlen] <;> omega
    rw [cfg_congr et eh, fs_stepS 18 19 ([kLeftEnd] ++ w)
      kSep (List.replicate na kOne) k' kSep (by decide) (by decide)]
  -- q19: one step Left
  have s5 : ∀ k', Step flagshipLit (cfg
      (([kLeftEnd] ++ w) ++ kSep :: List.replicate na kOne)
      ((([kLeftEnd] ++ w : List Symbol).length : Nat)) (State.q 19) k') =
      cfg (([kLeftEnd] ++ w) ++ kSep :: List.replicate na kOne)
        ((w.length : Nat)) (State.q 20) (k' + 1) := by
    intro k'
    rw [fs_stepL 19 20 ([kLeftEnd] ++ w) kSep (List.replicate na kOne) k' kSep
      (by decide) (by decide)]
    exact cfg_congr rfl (by simp <;> omega)
  -- q20: rewind into q21
  have s6 := fs_rewind 20 21 w (fun c hc => row20_scan (hw c hc))
    (by decide) (kSep :: List.replicate na kOne)
  -- compose
  have s4' : ∀ k', ReachesIn flagshipLit 1
      ([kLeftEnd] ++ w ++ (kSep :: List.replicate na kOne))
      ((([kLeftEnd] : List Symbol).length + (markA w).length : Nat)) (State.q 18) k'
      (([kLeftEnd] ++ w) ++ kSep :: List.replicate na kOne)
      ((([kLeftEnd] ++ w : List Symbol).length : Nat)) (State.q 19) := by
    intro k'
    refine reachesIn_single ?_
    have h := s4 k'
    have et : [kLeftEnd] ++ w ++ (kSep :: List.replicate na kOne) =
        ([kLeftEnd] ++ w) ++ kSep :: List.replicate na kOne := by simp
    rw [et] at h
    rw [et]
    exact h
  have s6' : ∀ k', ReachesIn flagshipLit (w.length + 1)
      (([kLeftEnd] ++ w) ++ kSep :: List.replicate na kOne)
      ((w.length : Nat)) (State.q 20) k'
      (kLeftEnd :: w ++ kSep :: List.replicate na kOne) 1 (State.q 21) := by
    intro k'
    have h := s6 k'
    have et : kLeftEnd :: w ++ kSep :: List.replicate na kOne =
        ([kLeftEnd] ++ w) ++ kSep :: List.replicate na kOne := by simp
    rw [et]
    exact h
  have hall := reachesIn_trans (fun k' => reachesIn_single (s1 k'))
    (reachesIn_trans s2
      (reachesIn_trans s3
        (reachesIn_trans s4'
          (reachesIn_trans (fun k' => reachesIn_single (s5 k')) s6')))) k
  refine reachesIn_mono ?_ hall
  simp [hmlen]
  omega

/-! ### Assembling the let statement: start to its exit -/

/-- From the start configuration, the flagship machine runs the preamble,
the let preparation, the count loop and the restore sweep, ending in the
let statement's exit state `q21` with a fully restored tape holding the
input and the tally region of variable `n`. -/
theorem fs_to_q21 (w : List Symbol) (hw : ∀ x ∈ w, x = 'a' ∨ x = 'b') :
    ∀ k, ReachesIn flagshipLit
      (w.count 'a' * (2 * (w.length + w.count 'a') + 6) + 8 * w.length + 11)
      (if w.isEmpty then [kBlank] else w) 0 (State.q 0) k
      (kLeftEnd :: w ++ kSep :: List.replicate (w.count 'a') kOne) 1 (State.q 21) := by
  have h1 := fs_preamble w hw
  have h2 := fs_letpre w hw
  have h3 : ∀ k, ReachesIn flagshipLit
      (w.count 'a' * (2 * (w.length + w.count 'a') + 6) + (w.length + 1))
      (kLeftEnd :: w ++ [kSep]) 1 (State.q 13) k
      (kLeftEnd :: markA w ++ kSep :: List.replicate (w.count 'a') kOne)
      ((w.length + 1 : Nat)) (State.q 16) := by
    intro k
    have h := cnt_loop w.length w (Nat.le_refl _) hw []
      (by intro x hx; cases hx) 0 k
    simp only [List.nil_append, List.length_nil, List.replicate_zero,
      Nat.zero_add, Nat.add_zero] at h
    exact h
  have h4 := fs_restore w hw (w.count 'a')
  have hall := reachesIn_trans h1 (reachesIn_trans h2 (reachesIn_trans h3 h4))
  intro k
  refine reachesIn_mono ?_ (hall k)
  omega

/-! ### The comparison phase -/

/-- The let exit state stays put into the rewind state `q25`. -/
theorem row21_all {c : Symbol} (hc : c = 'a' ∨ c = 'b' ∨ c = kSep) :
    fsTrans (State.q 21) c = some ⟨c, c, Dir.S, State.q 25⟩ ∧ c ≠ kWildcard := by
  rcases hc with rfl | rfl | rfl <;> exact ⟨by decide, by decide⟩

/-- The pre-comparison rewind moves Left on tape symbols. -/
theorem row25_left {c : Symbol} (hc : c = 'a' ∨ c = 'b' ∨ c = kSep) :
    fsTrans (State.q 25) c = some ⟨c, c, Dir.L, State.q 25⟩ ∧ c ≠ kWildcard := by
  rcases hc with rfl | rfl | rfl <;> exact ⟨by decide, by decide⟩

/-- The comparison scan passes unmarked `a`s and already-marked `B`s. -/
theorem row26_pass {c : Symbol} (hc : c = 'a' ∨ c = 'B') :
    fsTrans (State.q 26) c = some ⟨c, c, Dir.R, State.q 26⟩ ∧ c ≠ kWildcard := by
  rcases hc with rfl | rfl <;> exact ⟨by decide, by decide⟩

/-- The tally-search state passes input symbols, the separator and used
tally marks. -/
theorem row27_pass {c : Symbol} (hc : c = 'a' ∨ c = 'b' ∨ c = kSep ∨ c = kMarked) :
    fsTrans (State.q 27) c = some ⟨c, c, Dir.R, State.q 27⟩ ∧ c ≠ kWildcard := by
  rcases hc with rfl | rfl | rfl | rfl <;> exact ⟨by decide, by decide⟩

/-- The comparison rewind moves Left over every interior symbol. -/
theorem row28_left {c : Symbol}
    (hc : c = 'a' ∨ c = 'b' ∨ c = 'B' ∨ c = kSep ∨ c = kMarked) :
    fsTrans (State.q 28) c = some ⟨c, c, Dir.L, State.q 28⟩ ∧ c ≠ kWildcard := by
  rcases hc with rfl | rfl | rfl | rfl | rfl <;> exact ⟨by decide, by decide⟩

/-- The verification state passes used tally marks. -/
theorem row29_pass {c : Symbol} (hc : c = kMarked) :
    fsTrans (State.q 29) c = some ⟨c, c, Dir.R, State.q 29⟩ ∧ c ≠ kWildcard := by
  rcases hc with rfl <;> exact ⟨by decide, by decide⟩

/-- From the let exit, the machine idles into `q25`, rewinds to the left
end and starts the comparison loop in `q26` with the head back on cell 1. -/
theorem fs_q21_to_q26 (y0 : Symbol) (ytl : List Symbol)
    (hy : y0 = 'a' ∨ y0 = 'b' ∨ y0 = kSep) :
    ∀ k, ReachesIn flagshipLit 3 (kLeftEnd :: y0 :: ytl) 1 (State.q 21) k
      (kLeftEnd :: y0 :: ytl) 1 (State.q 26) := by
  have e1 : kLeftEnd :: y0 :: ytl = [kLeftEnd] ++ y0 :: ytl := rfl
  have eh1 : (1 : Int) = ((([kLeftEnd] : List Symbol).length : Nat) : Int) := by simp
  have s1 : ∀ k', Step flagshipLit (cfg (kLeftEnd :: y0 :: ytl) 1 (State.q 21) k') =
      cfg (kLeftEnd :: y0 :: ytl) 1 (State.q 25) (k' + 1) := by
    intro k'
    rw [cfg_congr e1 eh1, fs_stepS 21 25 [kLeftEnd] y0 ytl k' y0
      (row21_all hy).1 (row21_all hy).2]
    exact cfg_congr (by simp) (by simp)
  have s2 : ∀ k', Step flagshipLit (cfg (kLeftEnd :: y0 :: ytl) 1 (State.q 25) k') =
      cfg (kLeftEnd :: y0 :: ytl) 0 (State.q 25) (k' + 1) := by
    intro k'
    rw [cfg_congr e1 eh1, fs_stepL 25 25 [kLeftEnd] y0 ytl k' y0
      (row25_left hy).1 (row25_left hy).2]
    exact cfg_congr (by simp) (by simp)
  have s3 : ∀ k', Step flagshipLit (cfg (kLeftEnd :: y0 :: ytl) 0 (State.q 25) k') =
      cfg (kLeftEnd :: y0 :: ytl) 1 (State.q 26) (k' + 1) := by
    intro k'
    have e2 : kLeftEnd :: y0 :: ytl = [] ++ kLeftEnd :: y0 :: ytl := rfl
    have eh2 : (0 : Int) = ((([] : List Symbol).length : Nat) : Int) := by simp
    rw [cfg_congr e2 eh2, fs_stepR 25 26 [] kLeftEnd (y0 :: ytl) k' kLeftEnd
      (by decide) (by decide)]
    exact cfg_congr (by simp) (by simp)
  intro k
  exact reachesIn_mono (by omega)
    (reachesIn_trans (fun k' => reachesIn_single (s1 k'))
      (reachesIn_trans (fun k' => reachesIn_single (s2 k'))
        (fun k' => reachesIn_single (s3 k'))) k)

/-! ### Halting runs -/

/-- Growing the step budget of a `HaltsIn`. -/
theorem haltsIn_mono {tm : TM} {N M : Nat} {t : List Symbol} {h : Int}
    {q q' : State} {k : Nat} (hNM : N ≤ M)
    (hh : HaltsIn tm N t h q k q') : HaltsIn tm M t h q k q' := by
  rcases hh with ⟨n, t', h', hn, hs⟩
  exact ⟨n, t', h', by omega, hs⟩

/-- A reachability prefix composed with a halting suffix halts. -/
theorem reachesIn_haltsIn {tm : TM} {N M : Nat} {t t' : List Symbol}
    {h h' : Int} {q q' q'' : State}
    (h1 : ∀ k, ReachesIn tm N t h q k t' h' q')
    (h2 : ∀ k, HaltsIn tm M t' h' q' k q'') :
    ∀ k, HaltsIn tm (N + M) t h q k q'' := by
  intro k
  rcases h1 k with ⟨n1, hn1, hs1⟩
  rcases h2 (k + n1) with ⟨n2, t'', h'', hn2, hs2⟩
  refine ⟨n1 + n2, t'', h'', by omega, ?_⟩
  rw [stepN_add, hs1, hs2]
  have : k + n1 + n2 = k + (n1 + n2) := by omega
  rw [this]

/-- A single halting step as a `HaltsIn`. -/
theorem haltsIn_of_step {tm : TM} {t t2 : List Symbol} {h h2 : Int}
    {q q' : State} {k : Nat}
    (hs : Step tm (cfg t h q k) =
      { tape := t2, head := h2, state := q', steps := k + 1, halted := true }) :
    HaltsIn tm 1 t h q k q' :=
  ⟨1, t2, h2, Nat.le_refl _, by rw [stepN, stepN, hs]⟩

/-- One trip of the comparison loop: scan to the first unmarked `b`, mark
it `B`, run to the first spare tally `1`, mark it `I`, rewind. -/
theorem match_trip (u v1 v2 : List Symbol) (i r : Nat)
    (hu : ∀ x ∈ u, x = 'a' ∨ x = 'B') (hv1 : ∀ x ∈ v1, x = 'a')
    (hv2 : ∀ x ∈ v2, x = 'a' ∨ x = 'b') :
    ∀ k, ReachesIn flagshipLit
      (2 * (u.length + v1.length + v2.length + i) + 6)
      (kLeftEnd :: (u ++ v1 ++ 'b' :: v2) ++
        kSep :: (List.replicate i kMarked ++ List.replicate (r + 1) kOne))
        1 (State.q 26) k
      (kLeftEnd :: (u ++ v1 ++ 'B' :: v2) ++
        kSep :: (List.replicate (i + 1) kMarked ++ List.replicate r kOne))
        1 (State.q 26) := by
  intro k
  -- (a) scan over the processed prefix
  have huv1 : ∀ x ∈ u ++ v1, x = 'a' ∨ x = 'B' := by
    intro x hx
    rcases List.mem_append.mp hx with hx | hx
    · exact hu x hx
    · exact Or.inl (hv1 x hx)
  have sa0 := sweepR_id 26 (u ++ v1) (fun c hc => row26_pass (huv1 c hc)) [kLeftEnd]
    ('b' :: v2 ++ kSep :: (List.replicate i kMarked ++ List.replicate (r + 1) kOne))
  have sa : ∀ k', ReachesIn flagshipLit (u ++ v1).length
      (kLeftEnd :: (u ++ v1 ++ 'b' :: v2) ++
        kSep :: (List.replicate i kMarked ++ List.replicate (r + 1) kOne)) 1 (State.q 26) k'
      ([kLeftEnd] ++ (u ++ v1) ++
        ('b' :: v2 ++ kSep :: (List.replicate i kMarked ++ List.replicate (r + 1) kOne)))
      ((([kLeftEnd] : List Symbol).length + (u ++ v1).length : Nat)) (State.q 26) := by
    intro k'
    have et : kLeftEnd :: (u ++ v1 ++ 'b' :: v2) ++
        kSep :: (List.replicate i kMarked ++ List.replicate (r + 1) kOne) =
        [kLeftEnd] ++ (u ++ v1) ++
        ('b' :: v2 ++ kSep :: (List.replicate i kMarked ++ List.replicate (r + 1) kOne)) := by
      simp
    have eh : (1 : Int) = ((([kLeftEnd] : List Symbol).length : Nat) : Int) := by simp
    rw [et, eh]
    exact sa0 k'
  -- (b) mark the `b`
  have sb : ∀ k', Step flagshipLit (cfg
      ([kLeftEnd] ++ (u ++ v1) ++
        ('b' :: v2 ++ kSep :: (List.replicate i kMarked ++ List.replicate (r + 1) kOne)))
      ((([kLeftEnd] : List Symbol).length + (u ++ v1).length : Nat)) (State.q 26) k') =
      cfg (([kLeftEnd] ++ (u ++ v1) ++ ['B']) ++
          (v2 ++ kSep :: List.replicate i kMarked) ++ List.replicate (r + 1) kOne)
        ((([kLeftEnd] ++ (u ++ v1) ++ ['B'] : List Symbol).length : Nat)) (State.q 27) (k' + 1) := by
    intro k'
    have et : [kLeftEnd] ++ (u ++ v1) ++
        ('b' :: v2 ++ kSep :: (List.replicate i kMarked ++ List.replicate (r + 1) kOne)) =
        ([kLeftEnd] ++ (u ++ v1)) ++
          'b' :: (v2 ++ kSep :: (List.replicate i kMarked ++ List.replicate (r + 1) kOne)) := by
      simp
    have eh : ((([kLeftEnd] : List Symbol).length + (u ++ v1).length : Nat) : Int) =
        ((([kLeftEnd] ++ (u ++ v1) : List Symbol).length : Nat) : Int) := by
      simp <;> omega
    rw [cfg_congr et eh, fs_stepR 26 27 ([kLeftEnd] ++ (u ++ v1)) 'b'
      (v2 ++ kSep :: (List.replicate i kMarked ++ List.replicate (r + 1) kOne)) k' 'B'
      (by decide) (by decide)]
    exact cfg_congr (by simp) (by simp <;> omega)
  -- (c) scan to the first spare tally
  have hseg : ∀ x ∈ v2 ++ kSep :: List.replicate i kMarked,
      x = 'a' ∨ x = 'b' ∨ x = kSep ∨ x = kMarked := by
    intro x hx
    rcases List.mem_append.mp hx with hx | hx
    · rcases hv2 x hx with rfl | rfl
      · exact Or.inl rfl
      · exact Or.inr (Or.inl rfl)
    · rcases List.mem_cons.mp hx with rfl | hx
      · exact Or.inr (Or.inr (Or.inl rfl))
      · exact Or.inr (Or.inr (Or.inr (List.eq_of_mem_replicate hx)))
  have sc := sweepR_id 27 (v2 ++ kSep :: List.replicate i kMarked)
    (fun c hc => row27_pass (hseg c hc)) ([kLeftEnd] ++ (u ++ v1) ++ ['B'])
    (List.replicate (r + 1) kOne)
  -- (d) mark the tally
  have sd : ∀ k', Step flagshipLit (cfg
      (([kLeftEnd] ++ (u ++ v1) ++ ['B']) ++
        (v2 ++ kSep :: List.replicate i kMarked) ++ List.replicate (r + 1) kOne)
      ((([kLeftEnd] ++ (u ++ v1) ++ ['B'] : List Symbol).length +
        (v2 ++ kSep :: List.replicate i kMarked).length : Nat)) (State.q 27) k') =
      cfg (kLeftEnd :: ((u ++ v1 ++ 'B' :: v2) ++ kSep :: List.replicate i kMarked) ++
          kMarked :: List.replicate r kOne)
        (((((u ++ v1 ++ 'B' :: v2) ++ kSep :: List.replicate i kMarked).length : Nat) : Int))
        (State.q 28) (k' + 1) := by
    intro k'
    have et : ([kLeftEnd] ++ (u ++ v1) ++ ['B']) ++
        (v2 ++ kSep :: List.replicate i kMarked) ++ List.replicate (r + 1) kOne =
        (([kLeftEnd] ++ (u ++ v1) ++ ['B']) ++ (v2 ++ kSep :: List.replicate i kMarked)) ++
          kOne :: List.replicate r kOne := by
      rw [List.replicate_succ]
    have eh : ((([kLeftEnd] ++ (u ++ v1) ++ ['B'] : List Symbol).length +
        (v2 ++ kSep :: List.replicate i kMarked).length : Nat) : Int) =
        (((([kLeftEnd] ++ (u ++ v1) ++ ['B']) ++
          (v2 ++ kSep :: List.replicate i kMarked) : List Symbol).length : Nat) : Int) := by
      simp <;> omega
    rw [cfg_congr et eh, fs_stepL 27 28
      (([kLeftEnd] ++ (u ++ v1) ++ ['B']) ++ (v2 ++ kSep :: List.replicate i kMarked))
      kOne (List.replicate r kOne) k' kMarked (by decide) (by decide)]
    refine cfg_congr (by simp) ?_
    simp only [List.length_append, List.length_cons, List.length_nil,
      List.length_replicate]
    omega
  -- (e) rewind to cell 1
  have hbody : ∀ x ∈ (u ++ v1 ++ 'B' :: v2) ++ kSep :: List.replicate i kMarked,
      x = 'a' ∨ x = 'b' ∨ x = 'B' ∨ x = kSep ∨ x = kMarked := by
    intro x hx
    rcases List.mem_append.mp hx with hx | hx
    · rcases List.mem_append.mp hx with hx | hx
      · rcases List.mem_append.mp hx with hx | hx
        · rcases hu x hx with rfl | rfl
          · exact Or.inl rfl
          · exact Or.inr (Or.inr (Or.inl rfl))
        · exact Or.inl (hv1 x hx)
      · rcases List.mem_cons.mp hx with rfl | hx
        · exact Or.inr (Or.inr (Or.inl rfl))
        · rcases hv2 x hx with rfl | rfl
          · exact Or.inl rfl
          · exact Or.inr (Or.inl rfl)
    · rcases List.mem_cons.mp hx with rfl | hx
      · exact Or.inr (Or.inr (Or.inr (Or.inl rfl)))
      · exact Or.inr (Or.inr (Or.inr (Or.inr (List.eq_of_mem_replicate hx))))
  have se0 := fs_rewind 28 26 ((u ++ v1 ++ 'B' :: v2) ++ kSep :: List.replicate i kMarked)
    (fun c hc => row28_left (hbody c hc)) (by decide) (kMarked :: List.replicate r kOne)
  have se : ∀ k', ReachesIn flagshipLit
      (((u ++ v1 ++ 'B' :: v2) ++ kSep :: List.replicate i kMarked).length + 1)
      (kLeftEnd :: ((u ++ v1 ++ 'B' :: v2) ++ kSep :: List.replicate i kMarked) ++
        kMarked :: List.replicate r kOne)
      (((((u ++ v1 ++ 'B' :: v2) ++ kSep :: List.replicate i kMarked).length : Nat) : Int))
      (State.q 28) k'
      (kLeftEnd :: (u ++ v1 ++ 'B' :: v2) ++
        kSep :: (List.replicate (i + 1) kMarked ++ List.replicate r kOne))
      1 (State.q 26) := by
    intro k'
    have h := se0 k'
    have et2 : kLeftEnd :: ((u ++ v1 ++ 'B' :: v2) ++ kSep :: List.replicate i kMarked) ++
        kMarked :: List.replicate r kOne =
        kLeftEnd :: (u ++ v1 ++ 'B' :: v2) ++
          kSep :: (List.replicate (i + 1) kMarked ++ List.replicate r kOne) := by
      rw [List.replicate_succ']
      simp
    nth_rewrite 2 [et2] at h
    exact h
  -- compose
  have hall := reachesIn_trans sa
    (reachesIn_trans (fun k' => reachesIn_single (sb k'))
      (reachesIn_trans sc
        (reachesIn_trans (fun k' => reachesIn_single (sd k')) se))) k
  refine reachesIn_mono ?_ hall
  simp
  omega

/-- The accepting ending of the comparison loop: every input symbol has
been processed and every tally consumed; the machine reads the blank past
the tape and accepts. -/
theorem match_end_accept (u v : List Symbol) (i : Nat)
    (hu : ∀ x ∈ u, x = 'a' ∨ x = 'B') (hv : ∀ x ∈ v, x = 'a') :
    ∀ k, HaltsIn flagshipLit (u.length + v.length + i + 3)
      (kLeftEnd :: (u ++ v) ++ kSep :: List.replicate i kMarked)
      1 (State.q 26) k State.qA := by
  have huv : ∀ x ∈ u ++ v, x = 'a' ∨ x = 'B' := by
    intro x hx
    rcases List.mem_append.mp hx with hx | hx
    · exact hu x hx
    · exact Or.inl (hv x hx)
  have sa0 := sweepR_id 26 (u ++ v) (fun c hc => row26_pass (huv c hc)) [kLeftEnd]
    (kSep :: List.replicate i kMarked)
  have sa : ∀ k', ReachesIn flagshipLit (u ++ v).length
      (kLeftEnd :: (u ++ v) ++ kSep :: List.replicate i kMarked) 1 (State.q 26) k'
      ([kLeftEnd] ++ (u ++ v) ++ (kSep :: List.replicate i kMarked))
      ((([kLeftEnd] : List Symbol).length + (u ++ v).length : Nat)) (State.q 26) := by
    intro k'
    have et : kLeftEnd :: (u ++ v) ++ kSep :: List.replicate i kMarked =
        [kLeftEnd] ++ (u ++ v) ++ (kSep :: List.replicate i kMarked) := by simp
    have eh : (1 : Int) = ((([kLeftEnd] : List Symbol).length : Nat) : Int) := by simp
    rw [et, eh]
    exact sa0 k'
  have sb : ∀ k', Step flagshipLit (cfg
      ([kLeftEnd] ++ (u ++ v) ++ (kSep :: List.replicate i kMarked))
      ((([kLeftEnd] : List Symbol).length + (u ++ v).length : Nat)) (State.q 26) k') =
      cfg (([kLeftEnd] ++ (u ++ v) ++ [kSep]) ++ List.replicate i kMarked ++ [])
        ((([kLeftEnd] ++ (u ++ v) ++ [kSep] : List Symbol).length : Nat))
        (State.q 29) (k' + 1) := by
    intro k'
    have et : [kLeftEnd] ++ (u ++ v) ++ (kSep :: List.replicate i kMarked) =
        ([kLeftEnd] ++ (u ++ v)) ++ kSep :: List.replicate i kMarked := by simp
    have eh : ((([kLeftEnd] : List Symbol).length + (u ++ v).length : Nat) : Int) =
        ((([kLeftEnd] ++ (u ++ v) : List Symbol).length : Nat) : Int) := by
      simp <;> omega
    rw [cfg_congr et eh, fs_stepR 26 29 ([kLeftEnd] ++ (u ++ v)) kSep
      (List.replicate i kMarked) k' kSep (by decide) (by decide)]
    exact cfg_congr (by simp) (by simp <;> omega)
  have sc := sweepR_id 29 (List.replicate i kMarked)
    (fun c hc => row29_pass (List.eq_of_mem_replicate hc))
    ([kLeftEnd] ++ (u ++ v) ++ [kSep]) []
  have sd : ∀ k', Step flagshipLit (cfg
      (([kLeftEnd] ++ (u ++ v) ++ [kSep]) ++ List.replicate i kMarked ++ [])
      ((([kLeftEnd] ++ (u ++ v) ++ [kSep] : List Symbol).length +
        (List.replicate i kMarked : List Symbol).length : Nat)) (State.q 29) k') =
      cfg ((([kLeftEnd] ++ (u ++ v) ++ [kSep]) ++ List.replicate i kMarked) ++ [kBlank])
        (((([kLeftEnd] ++ (u ++ v) ++ [kSep]) ++
          List.replicate i kMarked : List Symbol).length : Nat))
        (State.q 22) (k' + 1) := by
    intro k'
    have et : ([kLeftEnd] ++ (u ++ v) ++ [kSep]) ++ List.replicate i kMarked ++ [] =
        ([kLeftEnd] ++ (u ++ v) ++ [kSep]) ++ List.replicate i kMarked := by simp
    have eh : ((([kLeftEnd] ++ (u ++ v) ++ [kSep] : List Symbol).length +
        (List.replicate i kMarked : List Symbol).length : Nat) : Int) =
        (((([kLeftEnd] ++ (u ++ v) ++ [kSep]) ++
          List.replicate i kMarked : List Symbol).length : Nat) : Int) := by
      simp <;> omega
    rw [cfg_congr et eh, fs_stepS_end 29 22
      (([kLeftEnd] ++ (u ++ v) ++ [kSep]) ++ List.replicate i kMarked) k' kBlank
      (by decide) (by decide)]
  have se : ∀ k', Step flagshipLit (cfg
      ((([kLeftEnd] ++ (u ++ v) ++ [kSep]) ++ List.replicate i kMarked) ++ [kBlank])
      (((([kLeftEnd] ++ (u ++ v) ++ [kSep]) ++
        List.replicate i kMarked : List Symbol).length : Nat)) (State.q 22) k') =
      { tape := (([kLeftEnd] ++ (u ++ v) ++ [kSep]) ++ List.replicate i kMarked) ++ [kBlank],
        head := (((([kLeftEnd] ++ (u ++ v) ++ [kSep]) ++
          List.replicate i kMarked : List Symbol).length : Nat) : Int),
        state := State.qA, steps := k' + 1, halted := true } := by
    intro k'
    exact fs_step_halt 22 State.qA
      (([kLeftEnd] ++ (u ++ v) ++ [kSep]) ++ List.replicate i kMarked) kBlank [] k'
      (by decide) (by decide) (Or.inl rfl)
  intro k
  have hall := reachesIn_trans sa
    (reachesIn_trans (fun k' => reachesIn_single (sb k'))
      (reachesIn_trans sc (fun k' => reachesIn_single (sd k'))))
  have hh := reachesIn_haltsIn hall (fun k' => haltsIn_of_step (se k')) k
  refine haltsIn_mono ?_ hh
  simp
  omega

/-- The excess-tally ending: every input symbol is processed but a spare
`1` remains; the verification state sees it and rejects. -/
theorem match_end_excess (u v : List Symbol) (i r' : Nat)
    (hu : ∀ x ∈ u, x = 'a' ∨ x = 'B') (hv : ∀ x ∈ v, x = 'a') :
    ∀ k, HaltsIn flagshipLit (u.length + v.length + i + 3)
      (kLeftEnd :: (u ++ v) ++
        kSep :: (List.replicate i kMarked ++ List.replicate (r' + 1) kOne))
      1 (State.q 26) k State.qR := by
  have huv : ∀ x ∈ u ++ v, x = 'a' ∨ x = 'B' := by
    intro x hx
    rcases List.mem_append.mp hx with hx | hx
    · exact hu x hx
    · exact Or.inl (hv x hx)
  have sa0 := sweepR_id 26 (u ++ v) (fun c hc => row26_pass (huv c hc)) [kLeftEnd]
    (kSep :: (List.replicate i kMarked ++ List.replicate (r' + 1) kOne))
  have sa : ∀ k', ReachesIn flagshipLit (u ++ v).length
      (kLeftEnd :: (u ++ v) ++
        kSep :: (List.replicate i kMarked ++ List.replicate (r' + 1) kOne)) 1 (State.q 26) k'
      ([kLeftEnd] ++ (u ++ v) ++
        (kSep :: (List.replicate i kMarked ++ List.replicate (r' + 1) kOne)))
      ((([kLeftEnd] : List Symbol).length + (u ++ v).length : Nat)) (State.q 26) := by
    intro k'
    have et : kLeftEnd :: (u ++ v) ++
        kSep :: (List.replicate i kMarked ++ List.replicate (r' + 1) kOne) =
        [kLeftEnd] ++ (u ++ v) ++
        (kSep :: (List.replicate i kMarked ++ List.replicate (r' + 1) kOne)) := by simp
    have eh : (1 : Int) = ((([kLeftEnd] : List Symbol).length : Nat) : Int) := by simp
    rw [et, eh]
    exact sa0 k'
  have sb : ∀ k', Step flagshipLit (cfg
      ([kLeftEnd] ++ (u ++ v) ++
        (kSep :: (List.replicate i kMarked ++ List.replicate (r' + 1) kOne)))
      ((([kLeftEnd] : List Symbol).length + (u ++ v).length : Nat)) (State.q 26) k') =
      cfg (([kLeftEnd] ++ (u ++ v) ++ [kSep]) ++ List.replicate i kMarked ++
          List.replicate (r' + 1) kOne)
        ((([kLeftEnd] ++ (u ++ v) ++ [kSep] : List Symbol).length : Nat))
        (State.q 29) (k' + 1) := by
    intro k'
    have et : [kLeftEnd] ++ (u ++ v) ++
        (kSep :: (List.replicate i kMarked ++ List.replicate (r' + 1) kOne)) =
        ([kLeftEnd] ++ (u ++ v)) ++
          kSep :: (List.replicate i kMarked ++ List.replicate (r' + 1) kOne) := by simp
    have eh : ((([kLeftEnd] : List Symbol).length + (u ++ v).length : Nat) : Int) =
        ((([kLeftEnd] ++ (u ++ v) : List Symbol).length : Nat) : Int) := by
      simp <;> omega
    rw [cfg_congr et eh, fs_stepR 26 29 ([kLeftEnd] ++ (u ++ v)) kSep
      (List.replicate i kMarked ++ List.replicate (r' + 1) kOne) k' kSep
      (by decide) (by decide)]
    exact cfg_congr (by simp) (by simp <;> omega)
  have sc := sweepR_id 29 (List.replicate i kMarked)
    (fun c hc => row29_pass (List.eq_of_mem_replicate hc))
    ([kLeftEnd] ++ (u ++ v) ++ [kSep]) (List.replicate (r' + 1) kOne)
  have sd : ∀ k', Step flagshipLit (cfg
      (([kLeftEnd] ++ (u ++ v) ++ [kSep]) ++ List.replicate i kMarked ++
        List.replicate (r' + 1) kOne)
      ((([kLeftEnd] ++ (u ++ v) ++ [kSep] : List Symbol).length +
        (List.replicate i kMarked : List Symbol).length : Nat)) (State.q 29) k') =
      cfg ((([kLeftEnd] ++ (u ++ v) ++ [kSep]) ++ List.replicate i kMarked) ++
          kOne :: List.replicate r' kOne)
        (((([kLeftEnd] ++ (u ++ v) ++ [kSep]) ++
          List.replicate i kMarked : List Symbol).length : Nat))
        (State.q 23) (k' + 1) := by
    intro k'
    have et : ([kLeftEnd] ++ (u ++ v) ++ [kSep]) ++ List.replicate i kMarked ++
        List.replicate (r' + 1) kOne =
        (([kLeftEnd] ++ (u ++ v) ++ [kSep]) ++ List.replicate i kMarked) ++
          kOne :: List.replicate r' kOne := by
      rw [List.replicate_succ]
    have eh : ((([kLeftEnd] ++ (u ++ v) ++ [kSep] : List Symbol).length +
        (List.replicate i kMarked : List Symbol).length : Nat) : Int) =
        (((([kLeftEnd] ++ (u ++ v) ++ [kSep]) ++
          List.replicate i kMarked : List Symbol).length : Nat) : Int) := by
      simp <;> omega
    rw [cfg_congr et eh, fs_stepS 29 23
      (([kLeftEnd] ++ (u ++ v) ++ [kSep]) ++ List.replicate i kMarked)
      kOne (List.replicate r' kOne) k' kOne (by decide) (by decide)]
  have se : ∀ k', Step flagshipLit (cfg
      ((([kLeftEnd] ++ (u ++ v) ++ [kSep]) ++ List.replicate i kMarked) ++
        kOne :: List.replicate r' kOne)
      (((([kLeftEnd] ++ (u ++ v) ++ [kSep]) ++
        List.replicate i kMarked : List Symbol).length : Nat)) (State.q 23) k') =
      { tape := (([kLeftEnd] ++ (u ++ v) ++ [kSep]) ++ List.replicate i kMarked) ++
          kOne :: List.replicate r' kOne,
        head := (((([kLeftEnd] ++ (u ++ v) ++ [kSep]) ++
          List.replicate i kMarked : List Symbol).length : Nat) : Int),
        state := State.qR, steps := k' + 1, halted := true } := by
    intro k'
    exact fs_step_halt 23 State.qR
      (([kLeftEnd] ++ (u ++ v) ++ [kSep]) ++ List.replicate i kMarked) kOne
      (List.replicate r' kOne) k' (by decide) (by decide) (Or.inr rfl)
  intro k
  have hall := reachesIn_trans sa
    (reachesIn_trans (fun k' => reachesIn_single (sb k'))
      (reachesIn_trans sc (fun k' => reachesIn_single (sd k'))))
  have hh := reachesIn_haltsIn hall (fun k' => haltsIn_of_step (se k')) k
  refine haltsIn_mono ?_ hh
  simp
  omega

/-- The missing-tally ending: an unmarked `b` is found but no spare tally
remains; the search for a `1` runs off the tape and rejects. -/
theorem match_end_missing (u v1 v2 : List Symbol) (i : Nat)
    (hu : ∀ x ∈ u, x = 'a' ∨ x = 'B') (hv1 : ∀ x ∈ v1, x = 'a')
    (hv2 : ∀ x ∈ v2, x = 'a' ∨ x = 'b') :
    ∀ k, HaltsIn flagshipLit (u.length + v1.length + v2.length + i + 4)
      (kLeftEnd :: (u ++ v1 ++ 'b' :: v2) ++ kSep :: List.replicate i kMarked)
      1 (State.q 26) k State.qR := by
  have huv1 : ∀ x ∈ u ++ v1, x = 'a' ∨ x = 'B' := by
    intro x hx
    rcases List.mem_append.mp hx with hx | hx
    · exact hu x hx
    · exact Or.inl (hv1 x hx)
  have sa0 := sweepR_id 26 (u ++ v1) (fun c hc => row26_pass (huv1 c hc)) [kLeftEnd]
    ('b' :: v2 ++ kSep :: List.replicate i kMarked)
  have sa : ∀ k', ReachesIn flagshipLit (u ++ v1).length
      (kLeftEnd :: (u ++ v1 ++ 'b' :: v2) ++ kSep :: List.replicate i kMarked)
      1 (State.q 26) k'
      ([kLeftEnd] ++ (u ++ v1) ++ ('b' :: v2 ++ kSep :: List.replicate i kMarked))
      ((([kLeftEnd] : List Symbol).length + (u ++ v1).length : Nat)) (State.q 26) := by
    intro k'
    have et : kLeftEnd :: (u ++ v1 ++ 'b' :: v2) ++ kSep :: List.replicate i kMarked =
        [kLeftEnd] ++ (u ++ v1) ++ ('b' :: v2 ++ kSep :: List.replicate i kMarked) := by
      simp
    have eh : (1 : Int) = ((([kLeftEnd] : List Symbol).length : Nat) : Int) := by simp
    rw [et, eh]
    exact sa0 k'
  have sb : ∀ k', Step flagshipLit (cfg
      ([kLeftEnd] ++ (u ++ v1) ++ ('b' :: v2 ++ kSep :: List.replicate i kMarked))
      ((([kLeftEnd] : List Symbol).length + (u ++ v1).length : Nat)) (State.q 26) k') =
      cfg (([kLeftEnd] ++ (u ++ v1) ++ ['B']) ++
          (v2 ++ kSep :: List.replicate i kMarked) ++ [])
        ((([kLeftEnd] ++ (u ++ v1) ++ ['B'] : List Symbol).length : Nat))
        (State.q 27) (k' + 1) := by
    intro k'
    have et : [kLeftEnd] ++ (u ++ v1) ++ ('b' :: v2 ++ kSep :: List.replicate i kMarked) =
        ([kLeftEnd] ++ (u ++ v1)) ++ 'b' :: (v2 ++ kSep :: List.replicate i kMarked) := by
      simp
    have eh : ((([kLeftEnd] : List Symbol).length + (u ++ v1).length : Nat) : Int) =
        ((([kLeftEnd] ++ (u ++ v1) : List Symbol).length : Nat) : Int) := by
      simp <;> omega
    rw [cfg_congr et eh, fs_stepR 26 27 ([kLeftEnd] ++ (u ++ v1)) 'b'
      (v2 ++ kSep :: List.replicate i kMarked) k' 'B' (by decide) (by decide)]
    exact cfg_congr (by simp) (by simp <;> omega)
  have hseg : ∀ x ∈ v2 ++ kSep :: List.replicate i kMarked,
      x = 'a' ∨ x = 'b' ∨ x = kSep ∨ x = kMarked := by
    intro x hx
    rcases List.mem_append.mp hx with hx | hx
    · rcases hv2 x hx with rfl | rfl
      · exact Or.inl rfl
      · exact Or.inr (Or.inl rfl)
    · rcases List.mem_cons.mp hx with rfl | hx
      · exact Or.inr (Or.inr (Or.inl rfl))
      · exact Or.inr (Or.inr (Or.inr (List.eq_of_mem_replicate hx)))
  have sc := sweepR_id 27 (v2 ++ kSep :: List.replicate i kMarked)
    (fun c hc => row27_pass (hseg c hc)) ([kLeftEnd] ++ (u ++ v1) ++ ['B']) []
  have sd : ∀ k', Step flagshipLit (cfg
      (([kLeftEnd] ++ (u ++ v1) ++ ['B']) ++
        (v2 ++ kSep :: List.replicate i kMarked) ++ [])
      ((([kLeftEnd] ++ (u ++ v1) ++ ['B'] : List Symbol).length +
        (v2 ++ kSep :: List.replicate i kMarked).length : Nat)) (State.q 27) k') =
      cfg ((([kLeftEnd] ++ (u ++ v1) ++ ['B']) ++
          (v2 ++ kSep :: List.replicate i kMarked)) ++ [kBlank])
        (((([kLeftEnd] ++ (u ++ v1) ++ ['B']) ++
          (v2 ++ kSep :: List.replicate i kMarked) : List Symbol).length : Nat))
        (State.q 23) (k' + 1) := by
    intro k'
    have et : ([kLeftEnd] ++ (u ++ v1) ++ ['B']) ++
        (v2 ++ kSep :: List.replicate i kMarked) ++ [] =
        ([kLeftEnd] ++ (u ++ v1) ++ ['B']) ++ (v2 ++ kSep :: List.replicate i kMarked) := by
      simp
    have eh : ((([kLeftEnd] ++ (u ++ v1) ++ ['B'] : List Symbol).length +
        (v2 ++ kSep :: List.replicate i kMarked).length : Nat) : Int) =
        (((([kLeftEnd] ++ (u ++ v1) ++ ['B']) ++
          (v2 ++ kSep :: List.replicate i kMarked) : List Symbol).length : Nat) : Int) := by
      simp <;> omega
    rw [cfg_congr et eh, fs_stepS_end 27 23
      (([kLeftEnd] ++ (u ++ v1) ++ ['B']) ++ (v2 ++ kSep :: List.replicate i kMarked))
      k' kBlank (by decide) (by decide)]
  have se : ∀ k', Step flagshipLit (cfg
      ((([kLeftEnd] ++ (u ++ v1) ++ ['B']) ++
        (v2 ++ kSep :: List.replicate i kMarked)) ++ [kBlank])
      (((([kLeftEnd] ++ (u ++ v1) ++ ['B']) ++
        (v2 ++ kSep :: List.replicate i kMarked) : List Symbol).length : Nat))
      (State.q 23) k') =
      { tape := (([kLeftEnd] ++ (u ++ v1) ++ ['B']) ++
          (v2 ++ kSep :: List.replicate i kMarked)) ++ [kBlank],
        head := (((([kLeftEnd] ++ (u ++ v1) ++ ['B']) ++
          (v2 ++ kSep :: List.replicate i kMarked) : List Symbol).length : Nat) : Int),
        state := State.qR, steps := k' + 1, halted := true } := by
    intro k'
    exact fs_step_halt 23 State.qR
      (([kLeftEnd] ++ (u ++ v1) ++ ['B']) ++ (v2 ++ kSep :: List.replicate i kMarked))
      kBlank [] k' (by decide) (by decide) (Or.inr rfl)
  intro k
  have hall := reachesIn_trans sa
    (reachesIn_trans (fun k' => reachesIn_single (sb k'))
      (reachesIn_trans sc (fun k' => reachesIn_single (sd k'))))
  have hh := reachesIn_haltsIn hall (fun k' => haltsIn_of_step (se k')) k
  refine haltsIn_mono ?_ hh
  simp
  omega

/-- The full comparison loop: every unmarked `b` is matched against a
spare tally `1`; the run halts in the accept state exactly when the number
of `b`s equals the number of remaining tallies. -/
theorem match_loop : ∀ (n : Nat) (v : List Symbol), v.length ≤ n →
    (∀ x ∈ v, x = 'a' ∨ x = 'b') →
    ∀ (u : List Symbol), (∀ x ∈ u, x = 'a' ∨ x = 'B') → ∀ (i r k : Nat),
    HaltsIn flagshipLit
      (v.count 'b' * (2 * (u.length + v.length + i + r) + 8) +
        (u.length + v.length + i + r + 4))
      (kLeftEnd :: (u ++ v) ++
        kSep :: (List.replicate i kMarked ++ List.replicate r kOne))
      1 (State.q 26) k
      (if v.count 'b' = r then State.qA else State.qR) := by
  intro n
  induction n using Nat.strong_induction_on with
  | _ n ih =>
    intro v hn hv u hu i r k
    by_cases hb : 'b' ∈ v
    · -- an unmarked `b` remains: split it off
      set v1 := v.takeWhile (fun x => !(x == 'b')) with hv1def
      set rest := v.dropWhile (fun x => !(x == 'b')) with hrestdef
      have hsplit : v1 ++ rest = v := List.takeWhile_append_dropWhile _ _
      have hrestne : rest ≠ [] := by
        intro hre
        have : v1 = v := by rw [← hsplit, hre, List.append_nil]
        have hall : ∀ x ∈ v, ¬(x == 'b') = true :=
          fun x hx => by
            have := List.mem_takeWhile_imp (l := v) (p := fun x => !(x == 'b'))
              (by rw [← hv1def, this]; exact hx)
            simpa using this
        exact (by simpa using hall 'b' hb : ¬(True : Prop)) trivial
      have hhead : rest.head hrestne = 'b' := by
        have := List.head_dropWhile_not (fun x => !(x == 'b')) v
          (by rw [← hrestdef]; exact hrestne)
        simpa [hrestdef] using this
      have hrest2 : rest = 'b' :: rest.tail := by
        conv_lhs => rw [← List.head_cons_tail rest hrestne]
        rw [hhead]
      set v2 := rest.tail with hv2def
      have hveq : v = v1 ++ 'b' :: v2 := by rw [← hsplit, hrest2]
      have hv1a : ∀ x ∈ v1, x = 'a' := by
        intro x hx
        have hne := List.mem_takeWhile_imp (hv1def ▸ hx)
        have hx' : x ∈ v := by
          rw [hveq]
          exact List.mem_append.mpr (Or.inl hx)
        rcases hv x hx' with rfl | rfl
        · rfl
        · simp at hne
      have hv2ab : ∀ x ∈ v2, x = 'a' ∨ x = 'b' := by
        intro x hx
        exact hv x (by rw [hveq]; simp [hx])
      have hcnt : v.count 'b' = v2.count 'b' + 1 := by
        rw [hveq, List.count_append, List.count_cons_self]
        have : v1.count 'b' = 0 := by
          rw [List.count_eq_zero]
          intro hmem
          have := hv1a 'b' hmem
          simp at this
        omega
      have hlv : v.length = v1.length + 1 + v2.length := by
        rw [hveq]
        simp <;> omega
      rcases Nat.eq_zero_or_pos r with rfl | hrpos
      · -- no tally left for this `b`: reject
        have hend := match_end_missing u v1 v2 i hu hv1a hv2ab
        have et : kLeftEnd :: (u ++ v) ++
            kSep :: (List.replicate i kMarked ++ List.replicate 0 kOne) =
            kLeftEnd :: (u ++ v1 ++ 'b' :: v2) ++ kSep :: List.replicate i kMarked := by
          rw [hveq]
          simp
        rw [et]
        have hq : (if v.count 'b' = 0 then State.qA else State.qR) = State.qR := by
          rw [hcnt, if_neg (by omega)]
        rw [hq]
        refine haltsIn_mono ?_ (hend k)
        omega
      · -- a tally is available: one trip, then recurse
        obtain ⟨r', rfl⟩ : ∃ j, r = j + 1 := ⟨r - 1, by omega⟩
        have htrip := match_trip u v1 v2 i r' hu hv1a hv2ab
        have hlt : v2.length < n := by omega
        have hih := ih v2.length hlt v2 (Nat.le_refl _) hv2ab (u ++ v1 ++ ['B'])
          (by
            intro x hx
            rcases List.mem_append.mp hx with hx | hx
            · rcases List.mem_append.mp hx with hx | hx
              · exact hu x hx
              · exact Or.inl (hv1a x hx)
            · rcases List.mem_cons.mp hx with rfl | hx
              · exact Or.inr rfl
              · cases hx) (i + 1) r'
      -- align the recursion's start with the trip's end
        have hihfix : ∀ k', HaltsIn flagshipLit
            (v2.count 'b' *
                (2 * ((u ++ v1 ++ ['B']).length + v2.length + (i + 1) + r') + 8) +
              ((u ++ v1 ++ ['B']).length + v2.length + (i + 1) + r' + 4))
            (kLeftEnd :: (u ++ v1 ++ 'B' :: v2) ++
              kSep :: (List.replicate (i + 1) kMarked ++ List.replicate r' kOne))
            1 (State.q 26) k'
            (if v2.count 'b' = r' then State.qA else State.qR) := by
          intro k'
          have h := hih k'
          have e1 : kLeftEnd :: (u ++ v1 ++ ['B'] ++ v2) ++
              kSep :: (List.replicate (i + 1) kMarked ++ List.replicate r' kOne) =
              kLeftEnd :: (u ++ v1 ++ 'B' :: v2) ++
              kSep :: (List.replicate (i + 1) kMarked ++ List.replicate r' kOne) := by
            simp
          rw [e1] at h
          exact h
        have hcomp := reachesIn_haltsIn htrip hihfix
        have e0 : kLeftEnd :: (u ++ v) ++
            kSep :: (List.replicate i kMarked ++ List.replicate (r' + 1) kOne) =
            kLeftEnd :: (u ++ v1 ++ 'b' :: v2) ++
            kSep :: (List.replicate i kMarked ++ List.replicate (r' + 1) kOne) := by
          rw [hveq]
          simp
        rw [e0]
        have hq : (if v.count 'b' = r' + 1 then State.qA else State.qR) =
            (if v2.count 'b' = r' then State.qA else State.qR) := by
          rw [hcnt]
          simp only [Nat.add_right_cancel_iff]
        rw [hq]
        refine haltsIn_mono ?_ (hcomp k)
        rw [hcnt]
        have hA : 2 * ((u ++ v1 ++ ['B']).length + v2.length + (i + 1) + r') + 8 =
            2 * (u.length + v.length + i + (r' + 1)) + 8 := by
          simp only [List.length_append, List.length_cons, List.length_nil]
          omega
        have hS : (u ++ v1 ++ ['B']).length + v2.length + (i + 1) + r' + 4 =
            u.length + v.length + i + (r' + 1) + 4 := by
          simp only [List.length_append, List.length_cons, List.length_nil]
          omega
        rw [hA, hS]
        have hexp : (v2.count 'b' + 1) * (2 * (u.length + v.length + i + (r' + 1)) + 8) =
            2 * (u.length + v.length + i + (r' + 1)) + 8 +
              v2.count 'b' * (2 * (u.length + v.length + i + (r' + 1)) + 8) := by
          rw [Nat.succ_mul]
          omega
        rw [hexp]
        omega
    · -- no unmarked `b` remains
      have hva : ∀ x ∈ v, x = 'a' := by
        intro x hx
        rcases hv x hx with rfl | rfl
        · rfl
        · exact absurd hx hb
      have hc0 : v.count 'b' = 0 := List.count_eq_zero.mpr hb
      rcases Nat.eq_zero_or_pos r with rfl | hrpos
      · -- tallies also exhausted: accept
        have hend := match_end_accept u v i hu hva
        have et : kLeftEnd :: (u ++ v) ++
            kSep :: (List.replicate i kMarked ++ List.replicate 0 kOne) =
            kLeftEnd :: (u ++ v) ++ kSep :: List.replicate i kMarked := by simp
        rw [et]
        have hq : (if v.count 'b' = 0 then State.qA else State.qR) = State.qA := by
          rw [hc0, if_pos rfl]
        rw [hq]
        exact haltsIn_mono (by omega) (hend k)
      · -- spare tallies remain: reject
        obtain ⟨r', rfl⟩ : ∃ j, r = j + 1 := ⟨r - 1, by omega⟩
        have hend := match_end_excess u v i r' hu hva
        have hq : (if v.count 'b' = r' + 1 then State.qA else State.qR) = State.qR := by
          rw [hc0, if_neg (by omega)]
        rw [hq]
        exact haltsIn_mono (by omega) (hend k)

/-- The complete flagship run on an input over `{a, b}`: count the `a`s,
then compare with the `b`s, halting in accept or reject according to
whether the counts agree. -/
theorem fs_full_halt (w : List Symbol) (hw : ∀ x ∈ w, x = 'a' ∨ x = 'b') :
    ∀ k, HaltsIn flagshipLit
      (w.count 'a' * (2 * (w.length + w.count 'a') + 6) + 8 * w.length + 11 + 3 +
        (w.count 'b' * (2 * (w.length + w.count 'a') + 8) +
          (w.length + w.count 'a' + 4)))
      (if w.isEmpty then [kBlank] else w) 0 (State.q 0) k
      (if w.count 'b' = w.count 'a' then State.qA else State.qR) := by
  have h21 := fs_to_q21 w hw
  have h26 : ∀ k, ReachesIn flagshipLit 3
      (kLeftEnd :: w ++ kSep :: List.replicate (w.count 'a') kOne) 1 (State.q 21) k
      (kLeftEnd :: w ++ kSep :: List.replicate (w.count 'a') kOne) 1 (State.q 26) := by
    intro k
    cases w with
    | nil =>
      have h := fs_q21_to_q26 kSep (List.replicate (([] : List Symbol).count 'a') kOne)
        (Or.inr (Or.inr rfl)) k
      simpa using h
    | cons c w' =>
      have hc := hw c (List.mem_cons_self c w')
      have h := fs_q21_to_q26 c (w' ++ kSep :: List.replicate ((c :: w').count 'a') kOne)
        (by
          rcases hc with rfl | rfl
          · exact Or.inl rfl
          · exact Or.inr (Or.inl rfl)) k
      simpa using h
  have hmatch : ∀ k, HaltsIn flagshipLit
      (w.count 'b' * (2 * (w.length + w.count 'a') + 8) + (w.length + w.count 'a' + 4))
      (kLeftEnd :: w ++ kSep :: List.replicate (w.count 'a') kOne) 1 (State.q 26) k
      (if w.count 'b' = w.count 'a' then State.qA else State.qR) := by
    intro k
    have h := match_loop w.length w (Nat.le_refl _) hw [] (by intro x hx; cases hx) 0
      (w.count 'a') k
    simp only [List.nil_append, List.length_nil, List.replicate_zero, Nat.zero_add,
      Nat.add_zero] at h
    exact h
  exact fun k => reachesIn_haltsIn (reachesIn_trans h21 h26) hmatch k

/-- **C1**: for every string `w` over the alphabet `{a, b}` with
`|w| ≤ 8`, running the machine compiled from the flagship program
`n = count(a); return count(b) == n` on `w` under the simulator's default
step budget accepts exactly when `w` contains equally many `a`s and `b`s,
regardless of the order of the symbols; in particular `"aabb"` and
`"abba"` are accepted and `"aab"` is rejected (see the witness). -/
theorem flagship_equal_counts (w : List Symbol)
    (hw : ∀ x ∈ w, x = 'a' ∨ x = 'b') (hlen : w.length ≤ 8) :
    (Run flagshipTM kDefaultMaxSteps w).accepted = true ↔
      w.count 'a' = w.count 'b' := by
  rw [flagshipTM_eq]
  obtain ⟨nn, t', h', hnle, hs⟩ := fs_full_halt w hw 0
  have hreset : Reset flagshipLit w =
      cfg (if w.isEmpty then [kBlank] else w) 0 (State.q 0) 0 := rfl
  rw [← hreset] at hs
  have hna : w.count 'a' ≤ w.length := List.count_le_length 'a' w
  have hnb : w.count 'b' ≤ w.length := List.count_le_length 'b' w
  have hb1 : w.count 'a' * (2 * (w.length + w.count 'a') + 6) ≤ 8 * 38 :=
    Nat.mul_le_mul (by omega) (by omega)
  have hb2 : w.count 'b' * (2 * (w.length + w.count 'a') + 8) ≤ 8 * 40 :=
    Nat.mul_le_mul (by omega) (by omega)
  have hrun := Run_of_halt flagshipLit kDefaultMaxSteps w nn _ hs rfl
    (by show nn ≤ 1000000; omega)
  rw [hrun]
  show decide ((if w.count 'b' = w.count 'a' then State.qA else State.qR) =
      flagshipLit.accept) = true ↔ w.count 'a' = w.count 'b'
  have hacc : flagshipLit.accept = State.qA := rfl
  rw [hacc]
  by_cases hc : w.count 'b' = w.count 'a'
  · rw [if_pos hc]
    constructor
    · intro _
      exact hc.symm
    · intro _
      decide
  · rw [if_neg hc]
    constructor
    · intro hfalse
      exact absurd hfalse (by decide)
    · intro h
      exact absurd h.symm hc

/-- Witness for C1 at the spec's three sample inputs: `"aabb"` and
`"abba"` satisfy the equal-count condition (so are accepted), `"aab"`
does not (so is rejected). -/
theorem flagship_equal_counts_witness :
    ((Run flagshipTM kDefaultMaxSteps ['a', 'a', 'b', 'b']).accepted = true ↔
      (['a', 'a', 'b', 'b'] : List Symbol).count 'a' =
        (['a', 'a', 'b', 'b'] : List Symbol).count 'b') ∧
    ((Run flagshipTM kDefaultMaxSteps ['a', 'b', 'b', 'a']).accepted = true ↔
      (['a', 'b', 'b', 'a'] : List Symbol).count 'a' =
        (['a', 'b', 'b', 'a'] : List Symbol).count 'b') ∧
    ((Run flagshipTM kDefaultMaxSteps ['a', 'a', 'b']).accepted = true ↔
      (['a', 'a', 'b'] : List Symbol).count 'a' =
        (['a', 'a', 'b'] : List Symbol).count 'b') :=
  ⟨flagship_equal_counts ['a', 'a', 'b', 'b'] (by decide) (by decide),
   flagship_equal_counts ['a', 'b', 'b', 'a'] (by decide) (by decide),
   flagship_equal_counts ['a', 'a', 'b'] (by decide) (by decide)⟩

/-- **C2** (amended): the original claim — marks restored at *every*
top-level statement exit — is refuted by `p2_if_exit_marks` (an `if`
statement's exit keeps `B` and `I` on the tape).  What the emitters do
preserve is the invariant at the exit of a `let`-style counting
statement: for every input over `{a, b}`, the flagship machine reaches
the let statement's exit state `q21` with a tape free of `I` marks and of
upper-cased input symbols. -/
theorem let_exit_marks_restored (w : List Symbol)
    (hw : ∀ x ∈ w, x = 'a' ∨ x = 'b') :
    ∃ n t, n ≤ w.count 'a' * (2 * (w.length + w.count 'a') + 6) + 8 * w.length + 11 ∧
      stepN flagshipLit n (Reset flagshipLit w) = cfg t 1 (State.q 21) n ∧
      ∀ x ∈ t, x ≠ kMarked ∧ x ≠ 'A' ∧ x ≠ 'B' := by
  rcases fs_to_q21 w hw 0 with ⟨n, hn, hs⟩
  have hreset : Reset flagshipLit w =
      cfg (if w.isEmpty then [kBlank] else w) 0 (State.q 0) 0 := rfl
  refine ⟨n, kLeftEnd :: w ++ kSep :: List.replicate (w.count 'a') kOne, hn, ?_, ?_⟩
  · rw [hreset, hs, Nat.zero_add]
  · intro x hx
    rcases List.mem_cons.mp hx with rfl | hx
    · exact ⟨by decide, by decide, by decide⟩
    rcases List.mem_append.mp hx with hx | hx
    · rcases hw x hx with rfl | rfl
      · exact ⟨by decide, by decide, by decide⟩
      · exact ⟨by decide, by decide, by decide⟩
    rcases List.mem_cons.mp hx with rfl | hx
    · exact ⟨by decide, by decide, by decide⟩
    · have := List.eq_of_mem_replicate hx
      subst this
      exact ⟨by decide, by decide, by decide⟩

/-- Witness for the amended mark-restoration claim at input `"ab"`. -/
theorem let_exit_marks_restored_witness :
    ∃ n t, n ≤ (['a', 'b'] : List Symbol).count 'a' *
        (2 * ((['a', 'b'] : List Symbol).length + (['a', 'b'] : List Symbol).count 'a') + 6) +
        8 * (['a', 'b'] : List Symbol).length + 11 ∧
      stepN flagshipLit n (Reset flagshipLit ['a', 'b']) = cfg t 1 (State.q 21) n ∧
      ∀ x ∈ t, x ≠ kMarked ∧ x ≠ 'A' ∧ x ≠ 'B' :=
  let_exit_marks_restored ['a', 'b'] (by decide)

/-- **C7** (amended): the original for-every-string claim is refuted by
`preamble_not_reached_on_sentinel` (an input containing the sentinel `>`
never reaches the preamble's exit).  For inputs over the program's input
alphabet the preamble is correct: the flagship machine reaches the
preamble's exit state `q1` with the tape `>` followed by the unchanged
input and the head on cell 1; and for the three-letter-alphabet program
`p4` on input `"abc"` the tape then reads `>abc` with the head on cell 1
(the `a`). -/
theorem preamble_correct :
    (∀ w : List Symbol, (∀ x ∈ w, x = 'a' ∨ x = 'b') →
      ∃ n, n ≤ 2 * w.length + 1 ∧
        stepN flagshipLit n (Reset flagshipLit w) = cfg (kLeftEnd :: w) 1 (State.q 1) n) ∧
    stepN p4TM 7 (Reset p4TM ['a', 'b', 'c']) =
      cfg ['>', 'a', 'b', 'c'] 1 (State.q 1) 7 := by
  constructor
  · intro w hw
    rcases fs_preamble w hw 0 with ⟨n, hn, hs⟩
    refine ⟨n, hn, ?_⟩
    have hreset : Reset flagshipLit w =
        cfg (if w.isEmpty then [kBlank] else w) 0 (State.q 0) 0 := rfl
    rw [hreset, hs, Nat.zero_add]
  · decide!

/-- Witness for the amended preamble claim at input `"ab"`. -/
theorem preamble_correct_witness :
    ∃ n, n ≤ 2 * (['a', 'b'] : List Symbol).length + 1 ∧
      stepN flagshipLit n (Reset flagshipLit ['a', 'b']) =
        cfg (kLeftEnd :: ['a', 'b']) 1 (State.q 1) n :=
  preamble_correct.1 ['a', 'b'] (by decide)

end Tmc
